import Mathlib

/-!
# Request admission and session control of the image-hosting service

A shallow embedding of the middleware chain of `backend/cmd/main.go`, of the
packages `internal/middleware` and `internal/utils` it is built from, of the
session handlers and the key checks of `internal/handlers`, and of
`internal/size`.

* An HTTP handler is a function `Request → World → World`; a middleware is a
  function from handlers to handlers, as in the Go code.
* `World` holds everything a handler can touch: the response being written, the
  calls made to the logger, the shared counter store, the clock.
* The Go standard library, go-redis and golang-jwt are not part of the
  repository.  What the code needs from `net/http`, `net/url`, `strings`,
  `strconv`, `fmt`, `encoding/base64`, `net`, go-redis and of `float64`
  arithmetic is written out below after their documented behaviour; the JWT
  library is a parameter (`JwtLib`), with a model of golang-jwt over
  `crypto/hmac` as one instance.
-/

namespace Sharex

/-! ## Strings -/

namespace strings

/-- Go `strings.HasPrefix`. -/
def HasPrefix (s pre : String) : Bool := pre.data.isPrefixOf s.data

/-- Go `strings.Join`. -/
def Join (elems : List String) (sep : String) : String := sep.intercalate elems

/-- Unicode White_Space, the set `strings.TrimSpace` removes. -/
def isSpace (c : Char) : Bool :=
  c = '\t' || c = '\n' || c.val = 0x0B || c.val = 0x0C || c = '\r' || c = ' '
    || c.val = 0x85 || c.val = 0xA0 || c.val = 0x1680
    || (0x2000 ≤ c.val && c.val ≤ 0x200A)
    || c.val = 0x2028 || c.val = 0x2029 || c.val = 0x202F || c.val = 0x205F
    || c.val = 0x3000

/-- Go `strings.TrimSpace`. -/
def TrimSpace (s : String) : String :=
  String.mk ((s.data.dropWhile isSpace).reverse.dropWhile isSpace).reverse

/-- First element of Go `strings.Split(s, sep)` for a one-character separator:
the text before the first occurrence of `sep` (all of `s` when there is none). -/
def SplitFirst (s : String) (sep : Char) : String :=
  String.mk (s.data.takeWhile (fun c => c ≠ sep))

end strings

/-! ## `net/http` -/

/-- Go `http.SameSite`. -/
inductive SameSite
  | Unset
  | DefaultMode
  | LaxMode
  | StrictMode
  | NoneMode
deriving DecidableEq, Repr

/-- Go `http.Cookie`, the fields the code sets. -/
structure Cookie where
  Name : String
  Value : String
  Path : String := ""
  MaxAge : Int := 0
  Secure : Bool := false
  HttpOnly : Bool := false
  SameSite : SameSite := SameSite.Unset
deriving DecidableEq, Repr

/-- Go `http.Request`, the parts the middleware reads.  `Header` is keyed by the
header name as the source spells it (Go canonicalises both sides).  The
`Cookie` header is kept in parsed form in `Cookies`, in the order of the
header line.  `PostForm` is the parsed form of the body (`r.PostForm`);
`Context` is the values carried by `r.Context()`, by key. -/
structure Request where
  Method : String
  Path : String
  RawQuery : String := ""
  Header : List (String × List String) := []
  Cookies : List (String × String) := []
  Body : String := ""
  RemoteAddr : String := ""
  PostForm : List (String × String) := []
  Context : List (String × String) := []
deriving DecidableEq, Repr

/-- Go `Header.Get`: the first value of the header, "" when there is none. -/
def Request.HeaderGet (r : Request) (key : String) : String :=
  match r.Header.lookup key with
  | some (v :: _) => v
  | _ => ""

/-- Go `(*Request).Cookie`: the first cookie of that name, or `ErrNoCookie`
(here `none`). -/
def Request.Cookie (r : Request) (name : String) : Option String :=
  if name = "" then none else r.Cookies.lookup name

/-- Go `(*Request).AddCookie`: the cookie is appended to the `Cookie` header
line, after the ones already there. -/
def Request.AddCookie (r : Request) (name value : String) : Request :=
  { r with Cookies := r.Cookies ++ [(name, value)] }

/-- One chunk written to the response body. -/
inductive Chunk
  | text (s : String)
  | errorJSON (message : String)
  | json (fields : List (String × String))
deriving DecidableEq, Repr

/-- The response as the client receives it, built through `http.ResponseWriter`.
`status` is the status line sent (`none` while nothing was sent);
`writeHeaderCalls` is every explicit call of `WriteHeader`, in order. -/
structure ResponseWriter where
  status : Option Nat := none
  writeHeaderCalls : List Nat := []
  header : List (String × String) := []
  cookies : List Cookie := []
  body : List Chunk := []
deriving DecidableEq, Repr

namespace ResponseWriter

/-- Go `w.Header().Set(k, v)`; without effect on the response once the header
was sent. -/
def HeaderSet (w : ResponseWriter) (k v : String) : ResponseWriter :=
  if w.status.isSome then w
  else { w with header := (w.header.filter (fun p => p.1 ≠ k)) ++ [(k, v)] }

/-- Go `w.Header().Del(k)`. -/
def HeaderDel (w : ResponseWriter) (k : String) : ResponseWriter :=
  if w.status.isSome then w
  else { w with header := w.header.filter (fun p => p.1 ≠ k) }

/-- Go `http.SetCookie(w, c)`: adds one `Set-Cookie` line. -/
def SetCookie (w : ResponseWriter) (c : Cookie) : ResponseWriter :=
  if w.status.isSome then w else { w with cookies := w.cookies ++ [c] }

/-- Go `w.WriteHeader(code)`: the first call sends the status line. -/
def WriteHeader (w : ResponseWriter) (code : Nat) : ResponseWriter :=
  { w with
    writeHeaderCalls := w.writeHeaderCalls ++ [code]
    status := match w.status with
      | some s => some s
      | none => some code }

/-- Go `w.Write(b)`: sends status 200 first when no header was sent yet. -/
def Write (w : ResponseWriter) (b : Chunk) : ResponseWriter :=
  { w with
    status := match w.status with
      | some s => some s
      | none => some 200
    body := w.body ++ [b] }

/-- Go `http.Error(w, error, code)`. -/
def Error (w : ResponseWriter) (error : String) (code : Nat) : ResponseWriter :=
  ((((w.HeaderDel "Content-Length").HeaderSet "Content-Type" "text/plain; charset=utf-8").HeaderSet
    "X-Content-Type-Options" "nosniff").WriteHeader code).Write (Chunk.text (error ++ "\n"))

end ResponseWriter

/-! ## The shared counter store (Redis through go-redis) -/

/-- One key of the store: its integer value and the server time (milliseconds)
at which it expires; `none` is a key without time-to-live. -/
structure Entry where
  value : Int
  expireAt : Option Nat
deriving DecidableEq, Repr

/-- The store: key to entry.  Expired entries are dropped lazily: a command
executed at time `now` sees only the entries that are live at `now`. -/
abbrev Store := String → Option Entry

/-- What the environment does to one store command: the server time at which
the command executes, and whether the call fails before reaching the store
(`some e`: the client gets error `e` and the store is unchanged). -/
structure Call where
  time : Nat
  fail : Option String := none
deriving DecidableEq, Repr

namespace Store

/-- The entry of `key` as seen by a command executed at time `now`. -/
def live (s : Store) (now : Nat) (key : String) : Option Entry :=
  match s key with
  | none => none
  | some e =>
    match e.expireAt with
    | none => some e
    | some t => if now > t then none else some e

/-- Remaining time-to-live of `key` at `now` in milliseconds: `none` when the
key is absent, `some none` when it has no expiry. -/
def ttl (s : Store) (now : Nat) (key : String) : Option (Option Nat) :=
  (s.live now key).map (fun e => e.expireAt.map (fun t => t - now))

/-- Overwrite one key. -/
def put (s : Store) (key : String) (e : Entry) : Store :=
  fun k => if k = key then some e else s k

end Store

/-- Go `time.Second`, `time.Millisecond` as `time.Duration` (nanoseconds). -/
def Second : Int := 1000000000

/-- See `Second`. -/
def Millisecond : Int := 1000000

/-- Two's-complement wrap-around of int64 arithmetic. -/
def wrap64 (x : Int) : Int := (x + 2 ^ 63) % 2 ^ 64 - 2 ^ 63

/-- The Go expression `time.Duration(period)*time.Second`. -/
def periodDuration (period : Int) : Int := wrap64 (period * Second)

/-- The go-redis constant `KeepTTL`. -/
def KeepTTL : Int := -1

/-- The time-to-live in milliseconds go-redis asks for with `Set(..., expiration)`
when `expiration > 0`: `PX formatMs` for a duration that is no whole number
of seconds, `EX formatSec` otherwise. -/
def expirationMs (expiration : Int) : Nat :=
  if expiration < Second ∨ expiration % Second ≠ 0 then
    (if expiration < Millisecond then 1 else expiration / Millisecond).toNat
  else
    (expiration / Second * 1000).toNat

namespace Store

/-- Redis `GET` followed by go-redis `.Int()`. -/
inductive GetReply
  | nil
  | val (n : Int)
  | err (e : String)
deriving DecidableEq, Repr

/-- Execute `GET key` under `c`. -/
def Get (s : Store) (c : Call) (key : String) : GetReply :=
  match c.fail with
  | some e => GetReply.err e
  | none =>
    match s.live c.time key with
    | none => GetReply.nil
    | some e => GetReply.val e.value

/-- Execute go-redis `Set(key, value, expiration)` under `c`: a positive
expiration sets the time-to-live, `KeepTTL` keeps the one the key has, and any
other value ("Zero expiration means the key has no expiration time") stores the
key without expiry. -/
def Set (s : Store) (c : Call) (key : String) (value : Int) (expiration : Int) :
    Option String × Store :=
  match c.fail with
  | some e => (some e, s)
  | none =>
    let exp : Option Nat :=
      if expiration > 0 then some (c.time + expirationMs expiration)
      else if expiration = KeepTTL then (s.live c.time key).bind (fun e => e.expireAt)
      else none
    (none, s.put key { value := value, expireAt := exp })

/-- Execute `INCR key` under `c`: an absent key counts as 0 and is created
without expiry; a live key keeps its expiry. -/
def Incr (s : Store) (c : Call) (key : String) : Option String × Store :=
  match c.fail with
  | some e => (some e, s)
  | none =>
    match s.live c.time key with
    | none => (none, s.put key { value := 1, expireAt := none })
    | some e => (none, s.put key { value := e.value + 1, expireAt := e.expireAt })

end Store

/-! ## The world a handler runs in -/

/-- A value of the `data` map handed to the logger. -/
inductive LogValue
  | str (s : String)
  | int (n : Int)
  | map (m : List (String × String))
  | bool (b : Bool)
deriving DecidableEq, Repr

/-- One call of `utils.Logger` (`Debug`, `Info`, `Warn`, `Error`): the level,
the message and the data map.  Whether the logger writes the entry is decided
by the logging configuration (`Logger.log`). -/
structure LogEntry where
  Level : String
  Message : String
  Data : List (String × LogValue) := []
deriving DecidableEq, Repr

/-- Go `models.User`. -/
structure User where
  ID : Int
  Username : String
  Password : String
deriving DecidableEq, Repr

/-- State threaded through the handlers.  `env n` is what happens to the
`n`-th store command; `clock n` is the `n`-th reading of `time.Now()` in
nanoseconds since the Unix epoch; `rand n` is the `n`-th token
`GenerateCSRFToken` produces (the base64 text of 32 bytes read from
`crypto/rand`); `db` is `storage.DB.GetUser` on the current user table
(`Except.error` for a failing query, `none` for no such user). -/
structure World where
  resp : ResponseWriter := {}
  log : List LogEntry := []
  redis : Store := fun _ => none
  env : Nat → Call := fun _ => { time := 0 }
  calls : Nat := 0
  clock : Nat → Int := fun _ => 0
  reads : Nat := 0
  rand : Nat → String := fun _ => ""
  draws : Nat := 0
  db : String → Except String (Option User) := fun _ => Except.ok none

/-- Go `http.Handler`. -/
abbrev Handler := Request → World → World

namespace World

/-- Call `logger.<level>(message, data)`. -/
def logCall (w : World) (level message : String) (data : List (String × LogValue)) : World :=
  { w with log := w.log ++ [{ Level := level, Message := message, Data := data }] }

/-- Read `time.Now()`. -/
def timeNow (w : World) : Int × World :=
  (w.clock w.reads, { w with reads := w.reads + 1 })

end World

/-! ## Programs over the store

`checkRateLimit` talks to the store in two separate commands; other clients
and the passing of time act between them.  A program is therefore a tree of
store commands, each continued by the reply. -/

/-- A computation that issues store commands. -/
inductive Prog (α : Type)
  | ret (a : α)
  | get (key : String) (k : Store.GetReply → Prog α)
  | set (key : String) (value : Int) (expiration : Int) (k : Option String → Prog α)
  | incr (key : String) (k : Option String → Prog α)

/-- Run a program to its end, each command under the next entry of `env`. -/
def Prog.run {α : Type} : Prog α → World → α × World
  | Prog.ret a, w => (a, w)
  | Prog.get key k, w =>
    (k (w.redis.Get (w.env w.calls) key)).run { w with calls := w.calls + 1 }
  | Prog.set key value expiration k, w =>
    let r := w.redis.Set (w.env w.calls) key value expiration
    (k r.1).run { w with redis := r.2, calls := w.calls + 1 }
  | Prog.incr key k, w =>
    let r := w.redis.Incr (w.env w.calls) key
    (k r.1).run { w with redis := r.2, calls := w.calls + 1 }

/-! ## Configuration (`internal/config`) -/

/-- One rate rule: `Requests` per `Period` seconds. -/
structure Rate where
  Requests : Int
  Period : Int
deriving DecidableEq, Repr

/-- The `rate_limit` section. -/
structure RateLimitConfig where
  Enabled : Bool := true
  RedisURL : String := ""
  DefaultRate : Rate := { Requests := 0, Period := 0 }
  Routes : List (String × Rate) := []
deriving DecidableEq, Repr

/-- The `cors` section. -/
structure CORSConfig where
  Enabled : Bool := false
  AllowedOrigins : List String := []
  AllowedMethods : List String := []
  AllowedHeaders : List String := []
deriving DecidableEq, Repr

/-- The `app` section, the fields this layer reads. -/
structure AppConfig where
  Environment : String := "development"
  JWTSecret : String := ""
  UploadKey : String := ""
deriving DecidableEq, Repr

/-- Go `config.Config`. -/
structure Config where
  App : AppConfig := {}
  CORS : CORSConfig := {}
  RateLimit : RateLimitConfig := {}
deriving DecidableEq, Repr

/-! ## `net` -/

namespace net

/-- Index of the first `c` in `cs`. -/
def IndexByte (cs : List Char) (c : Char) : Option Nat :=
  if cs.indexOf c < cs.length then some (cs.indexOf c) else none

/-- Index of the last `c` in `cs`. -/
def LastIndexByte (cs : List Char) (c : Char) : Option Nat :=
  if cs.reverse.indexOf c < cs.length then some (cs.length - 1 - cs.reverse.indexOf c)
  else none

/-- Go `net.SplitHostPort`: `some (host, port)`, or `none` for an error. -/
def SplitHostPort (hostport : String) : Option (String × String) :=
  let hp := hostport.data
  -- The port starts after the last colon.
  match LastIndexByte hp ':' with
  | none => none
  | some i =>
    let bracket : Option (List Char × Nat × Nat) :=
      if hp.head? = some '[' then
        -- Expect the first ']' just before the last ':'.
        match IndexByte hp ']' with
        | none => none
        | some e =>
          if e + 1 = hp.length then none
          else if e + 1 = i then some ((hp.take e).drop 1, 1, e + 1)
          else none
      else
        if (IndexByte (hp.take i) ':').isSome then none
        else some (hp.take i, 0, 0)
    match bracket with
    | none => none
    | some (host, j, k) =>
      if (IndexByte (hp.drop j) '[').isSome then none
      else if (IndexByte (hp.drop k) ']').isSome then none
      else some (String.mk host, String.mk (hp.drop (i + 1)))

end net

/-! ## `internal/utils/response.go` -/

/-- `utils.SendError`. -/
def SendError (w : ResponseWriter) (message : String) (status : Nat) : ResponseWriter :=
  (((w.HeaderSet "Content-Type" "application/json").WriteHeader status).Write
    (Chunk.errorJSON message))

/-- `utils.SendUnauthorized`. -/
def SendUnauthorized (w : ResponseWriter) (message : String) : ResponseWriter :=
  SendError w message 401

/-- `utils.SendForbidden`. -/
def SendForbidden (w : ResponseWriter) (message : String) : ResponseWriter :=
  SendError w message 403

/-- `utils.SendInternalError`. -/
def SendInternalError (w : ResponseWriter) (message : String) : ResponseWriter :=
  SendError w message 500

/-! ## `internal/middleware/rate_limit.go` -/

/-- Go `RateLimiter`: `hasClient` is `rl.client != nil`. -/
structure RateLimiter where
  hasClient : Bool
  config : Config
deriving DecidableEq, Repr

/-- `RateLimiter.getClientIP`. -/
def getClientIP (r : Request) : String :=
  -- Try X-Forwarded-For first
  if r.HeaderGet "X-Forwarded-For" ≠ "" then
    strings.TrimSpace (strings.SplitFirst (r.HeaderGet "X-Forwarded-For") ',')
  -- Try X-Real-IP
  else if r.HeaderGet "X-Real-IP" ≠ "" then r.HeaderGet "X-Real-IP"
  else
    -- Get from RemoteAddr
    match net.SplitHostPort r.RemoteAddr with
    | none => r.RemoteAddr
    | some (ip, _) => ip

/-- `RateLimiter.getRateConfig`. -/
def RateLimiter.getRateConfig (rl : RateLimiter) (route : String) : Int × Int :=
  match rl.config.RateLimit.Routes.lookup route with
  | some routeConfig => (routeConfig.Requests, routeConfig.Period)
  | none => (rl.config.RateLimit.DefaultRate.Requests, rl.config.RateLimit.DefaultRate.Period)

/-- The store key `fmt.Sprintf("rate_limit:%s:%s", route, clientIP)`. -/
def rateKey (route clientIP : String) : String :=
  "rate_limit:" ++ route ++ ":" ++ clientIP

/-- `RateLimiter.checkRateLimit`: the result is the pair `(allowed, err)`. -/
def checkRateLimit (key : String) (requests : Int) (period : Int) :
    Prog (Bool × Option String) :=
  -- Get current count
  Prog.get key fun r =>
    match r with
    | Store.GetReply.err e => Prog.ret (false, some e)
    | Store.GetReply.nil =>
      -- If key doesn't exist or has expired, set it
      Prog.set key 1 (periodDuration period) fun err =>
        match err with
        | some e => Prog.ret (false, some e)
        | none => Prog.ret (true, none)
    | Store.GetReply.val count =>
      -- Check if limit is exceeded
      if count ≥ requests then Prog.ret (false, none)
      else
        -- Increment counter
        Prog.incr key fun err =>
          match err with
          | some e => Prog.ret (false, some e)
          | none => Prog.ret (true, none)

/-- `RateLimiter.RateLimitMiddleware`. -/
def RateLimiter.RateLimitMiddleware (rl : RateLimiter) (next : Handler) : Handler :=
  fun r w =>
    -- Skip rate limiting if disabled
    if !rl.config.RateLimit.Enabled || !rl.hasClient then next r w
    else
      let route := r.Path
      let requests := (rl.getRateConfig route).1
      let period := (rl.getRateConfig route).2
      let clientIP := getClientIP r
      let key := rateKey route clientIP
      let w1 := w.logCall "DEBUG" "Checking rate limit"
        [("key", LogValue.str key), ("route", LogValue.str route), ("ip", LogValue.str clientIP),
          ("limit", LogValue.int requests), ("period", LogValue.int period)]
      -- Check rate limit
      let res := (checkRateLimit key requests period).run w1
      match res.1.2 with
      | some err =>
        -- On Redis error, allow the request but log the error
        next r (res.2.logCall "ERROR" "Rate limit check failed"
          [("error", LogValue.str err), ("route", LogValue.str route),
            ("ip", LogValue.str clientIP)])
      | none =>
        if !res.1.1 then
          let w2 := res.2.logCall "WARN" "Rate limit exceeded"
            [("route", LogValue.str route), ("ip", LogValue.str clientIP),
              ("limit", LogValue.int requests), ("period", LogValue.int period)]
          { w2 with resp := w2.resp.Error "Too many requests" 429 }
        else next r res.2

/-! ## `internal/middleware/csrf.go` -/

/-- `CSRFMiddleware`. -/
def CSRFMiddleware (next : Handler) : Handler :=
  fun r w =>
    -- Skip CSRF check for GET, HEAD, OPTIONS
    if r.Method = "GET" ∨ r.Method = "HEAD" ∨ r.Method = "OPTIONS" then next r w
    -- Skip CSRF check for public endpoints that don't require prior authentication
    else if r.Path = "/api/login" ∨ r.Path = "/api/upload" then next r w
    else
      -- Get token from header
      let token := r.HeaderGet "X-CSRF-Token"
      if token = "" then { w with resp := SendForbidden w.resp "Missing CSRF token" }
      else
        -- Get token from cookie
        match r.Cookie "csrf_token" with
        | none => { w with resp := SendForbidden w.resp "Invalid CSRF token" }
        | some value =>
          if value = "" then { w with resp := SendForbidden w.resp "Invalid CSRF token" }
          -- Compare tokens
          else if token ≠ value then
            { w with resp := SendForbidden w.resp "Invalid CSRF token" }
          else next r w

/-! ## `internal/middleware/cors.go` -/

/-- `CORSMiddleware`. -/
def CORSMiddleware (cfg : Config) (next : Handler) : Handler :=
  fun r w =>
    -- If CORS is not enabled, just pass through
    if !cfg.CORS.Enabled then next r w
    else
      let origin := r.HeaderGet "Origin"
      -- Check if origin is allowed
      let allowed := cfg.CORS.AllowedOrigins.any (fun allowedOrigin =>
        allowedOrigin = "*" || allowedOrigin = origin)
      if allowed then
        let w1 := (w.resp.HeaderSet "Access-Control-Allow-Origin" origin).HeaderSet
          "Access-Control-Allow-Credentials" "true"
        -- Handle preflight requests
        if r.Method = "OPTIONS" then
          { w with resp :=
              ((((w1.HeaderSet "Access-Control-Allow-Methods"
                (strings.Join cfg.CORS.AllowedMethods ", ")).HeaderSet
                "Access-Control-Allow-Headers"
                (strings.Join cfg.CORS.AllowedHeaders ", ")).HeaderSet
                "Access-Control-Max-Age" "86400").WriteHeader 204) }
        else next r { w with resp := w1 }
      else next r w

/-! ## `internal/middleware/logging.go` -/

/-- The `Cookie` header line of a request. -/
def Request.cookieLine (r : Request) : String :=
  "; ".intercalate (r.Cookies.map (fun c => c.1 ++ "=" ++ c.2))

/-- The header map of the request, `Cookie` line included. -/
def Request.headerMap (r : Request) : List (String × List String) :=
  r.Header ++ (if r.Cookies = [] then [] else [("Cookie", [r.cookieLine])])

/-- `sanitizeHeaders`. -/
def sanitizeHeaders (headers : List (String × List String)) (environment : String) :
    List (String × String) :=
  headers.map (fun kv =>
    -- Only redact in production
    if environment = "production" ∧ (kv.1 = "Authorization" ∨ kv.1 = "Cookie") then
      (kv.1, "[REDACTED]")
    else (kv.1, kv.2.headD ""))

/-- `LoggingMiddleware`.  The wrapper `responseWriter` starts at status 200 and
records the code of every `WriteHeader` call made through it; its final
`statusCode` is the last code recorded while `next` ran. -/
def LoggingMiddleware (cfg : Config) (next : Handler) : Handler :=
  fun r w =>
    let t0 := w.timeNow
    let n := t0.2.resp.writeHeaderCalls.length
    -- Process the request
    let w1 := next r t0.2
    let statusCode := ((w1.resp.writeHeaderCalls.drop n).getLast?).getD 200
    -- Calculate request duration
    let t1 := w1.timeNow
    -- Log the request
    t1.2.logCall "DEBUG" "Incoming request"
      [("method", LogValue.str r.Method), ("path", LogValue.str r.Path),
        ("query", LogValue.str r.RawQuery),
        ("headers", LogValue.map (sanitizeHeaders r.headerMap cfg.App.Environment)),
        ("body", LogValue.str r.Body), ("status", LogValue.int statusCode),
        ("duration", LogValue.int (t1.1 - t0.1)),
        ("remote_ip", LogValue.str r.RemoteAddr),
        ("user_agent", LogValue.str (r.HeaderGet "User-Agent"))]

/-! ## `internal/utils/jwt.go` -/

/-- Go `utils.TokenType`, a string type. -/
abbrev TokenType := String

/-- The constant `utils.AccessToken`. -/
def AccessToken : TokenType := "access"

/-- The constant `utils.RefreshToken`. -/
def RefreshToken : TokenType := "refresh"

/-- Go `utils.Claims`: the two custom claims and, of `jwt.RegisteredClaims`,
the dates (Unix seconds): the two the code sets and `NotBefore`, which the
library checks on a token that carries it. -/
structure Claims where
  Username : String
  TokenType : TokenType
  ExpiresAt : Option Int := none
  IssuedAt : Option Int := none
  NotBefore : Option Int := none
deriving DecidableEq, Repr

/-- Go `jwt.SigningMethod` of a token: of the HMAC family
(`*jwt.SigningMethodHMAC`) or any other. -/
inductive SigningMethod
  | HMAC (alg : String)
  | other (alg : String)
deriving DecidableEq, Repr

/-- Go `*jwt.Token`. -/
structure Token where
  Method : SigningMethod
  Claims : Claims
  Valid : Bool
deriving DecidableEq, Repr

/-- The golang-jwt library, a parameter of the model.
`ParseWithClaims tokenString keyFunc now` is `jwt.ParseWithClaims(tokenString,
&Claims{}, keyFunc)` called at time `now`; `SignedString method claims key` is
`jwt.NewWithClaims(method, claims).SignedString(key)`. -/
structure JwtLib where
  ParseWithClaims : String → (Token → Except String String) → Int → Except String Token
  SignedString : SigningMethod → Claims → String → Except String String

/-- Go `jwt.NewNumericDate`: the time truncated to whole seconds. -/
def NewNumericDate (t : Int) : Int := t / Second

/-- Go `time.Minute`, `time.Hour`. -/
def Minute : Int := 60 * Second

/-- See `Minute`. -/
def Hour : Int := 60 * Minute

/-- `utils.GenerateTokenPair`.  The clock is read once for each of the four
dates, `ExpiresAt` before `IssuedAt` as the struct literals list them. -/
def GenerateTokenPair (jwt : JwtLib) (username secret : String) (w : World) :
    Except String (String × String) × World :=
  -- Generate access token (15 minutes)
  let t1 := w.timeNow
  let t2 := t1.2.timeNow
  let accessClaims : Claims :=
    { Username := username, TokenType := AccessToken,
      ExpiresAt := some (NewNumericDate (t1.1 + 15 * Minute)),
      IssuedAt := some (NewNumericDate t2.1) }
  match jwt.SignedString (SigningMethod.HMAC "HS256") accessClaims secret with
  | Except.error err => (Except.error err, t2.2)
  | Except.ok accessTokenString =>
    -- Generate refresh token (7 days)
    let t3 := t2.2.timeNow
    let t4 := t3.2.timeNow
    let refreshClaims : Claims :=
      { Username := username, TokenType := RefreshToken,
        ExpiresAt := some (NewNumericDate (t3.1 + 7 * 24 * Hour)),
        IssuedAt := some (NewNumericDate t4.1) }
    match jwt.SignedString (SigningMethod.HMAC "HS256") refreshClaims secret with
    | Except.error err => (Except.error err, t4.2)
    | Except.ok refreshTokenString =>
      (Except.ok (accessTokenString, refreshTokenString), t4.2)

/-- `utils.ValidateToken`, called at time `now`. -/
def ValidateToken (jwt : JwtLib) (now : Int) (tokenString secret : String) :
    Except String Claims :=
  match jwt.ParseWithClaims tokenString
    (fun token =>
      match token.Method with
      | SigningMethod.HMAC _ => Except.ok secret
      | SigningMethod.other _ => Except.error "unexpected signing method")
    now with
  | Except.error err => Except.error err
  | Except.ok token =>
    if token.Valid then Except.ok token.Claims else Except.error "invalid token"

/-- `utils.SetTokenCookies`. -/
def SetTokenCookies (w : ResponseWriter) (accessToken refreshToken : String) (secure : Bool) :
    ResponseWriter :=
  (w.SetCookie
    { Name := "access_token", Value := accessToken, Path := "/", HttpOnly := true,
      Secure := secure, SameSite := SameSite.StrictMode, MaxAge := 15 * 60 }).SetCookie
    { Name := "refresh_token", Value := refreshToken, Path := "/", HttpOnly := true,
      Secure := secure, SameSite := SameSite.StrictMode, MaxAge := 7 * 24 * 60 * 60 }

/-- `utils.GetTokenFromCookie`. -/
def GetTokenFromCookie (r : Request) (cookieName : String) : String :=
  match r.Cookie cookieName with
  | none => ""
  | some value => value

/-! ## The golang-jwt library (v5) and `crypto/hmac` -/

/-- A byte string, each byte a number below 256. -/
abbrev Bytes := List Nat

/-- Go `[]byte(s)`: the UTF-8 bytes of `s`. -/
def bytesOf (s : String) : Bytes := (s.data.flatMap String.utf8EncodeChar).map UInt8.toNat

/-- Block size in bytes of the hash behind an HMAC algorithm: 64 for SHA-256
(`HS256`), 128 for SHA-384 and SHA-512. -/
def hmacBlockSize (alg : String) : Nat := if alg = "HS256" then 64 else 128

/-- The key block of `crypto/hmac` (`hmac.New`): a key longer than the block is
hashed, then the key is copied into a zeroed block. -/
def hmacKeyBlock (hash : Bytes → Bytes) (blockSize : Nat) (key : Bytes) : Bytes :=
  ((if key.length > blockSize then hash key else key) ++
    List.replicate blockSize 0).take blockSize

/-- The MAC of `crypto/hmac`: `H(opad ‖ H(ipad ‖ msg))`. -/
def hmacSum (hash : Bytes → Bytes) (blockSize : Nat) (key msg : Bytes) : Bytes :=
  hash ((hmacKeyBlock hash blockSize key).map (fun b => b ^^^ 0x5c) ++
    hash ((hmacKeyBlock hash blockSize key).map (fun b => b ^^^ 0x36) ++ msg))

/-- What the model leaves open of golang-jwt and of the hash functions:
`hash alg` is the hash of the HMAC algorithm `alg`; `signingInput` is the
signing string of a token (the encoded header and claims); `serialize` writes
the token with its signature, `deserialize` reads a token string back into
method, claims, signing string and signature (`none` for a malformed token or
an unknown algorithm); `verifyOther` is `Verify` of the methods outside the
HMAC family. -/
structure JwtPrims where
  hash : String → Bytes → Bytes
  signingInput : SigningMethod → Claims → Bytes
  serialize : SigningMethod → Claims → Bytes → String
  deserialize : String → Option (SigningMethod × Claims × Bytes × Bytes)
  verifyOther : String → Bytes → Bytes → String → Bool

/-- Validation of the registered claims by golang-jwt v5 at time `now`: `exp`
must be after `now`, `nbf` not after `now`; `iat` is not checked by default.
The result is the error, `none` for valid claims. -/
def claimsError (c : Claims) (now : Int) : Option String :=
  if (match c.ExpiresAt with
      | some exp => decide (¬ now < exp * Second)
      | none => false) then some "token is expired"
  else if (match c.NotBefore with
      | some nbf => decide (now < nbf * Second)
      | none => false) then some "token is not valid yet"
  else none

/-- The golang-jwt library over the primitives `p`: signing with an HMAC method
and a `[]byte` key, and `Parser.ParseWithClaims`: decode the token, ask
`keyFunc` for the key, verify the signature, validate the claims. -/
def golangJwt (p : JwtPrims) : JwtLib :=
  { SignedString := fun method claims key =>
      match method with
      | SigningMethod.HMAC alg =>
        Except.ok (p.serialize method claims
          (hmacSum (p.hash alg) (hmacBlockSize alg) (bytesOf key) (p.signingInput method claims)))
      | SigningMethod.other _ => Except.error "key is of invalid type",
    ParseWithClaims := fun tokenString keyFunc now =>
      match p.deserialize tokenString with
      | none => Except.error "token is malformed"
      | some (method, claims, input, sig) =>
        match keyFunc { Method := method, Claims := claims, Valid := false } with
        | Except.error err => Except.error ("error while executing keyfunc: " ++ err)
        | Except.ok key =>
          let verified : Bool :=
            match method with
            | SigningMethod.HMAC alg =>
              decide (sig = hmacSum (p.hash alg) (hmacBlockSize alg) (bytesOf key) input)
            | SigningMethod.other alg => p.verifyOther alg input sig key
          if !verified then Except.error "signature is invalid"
          else
            match claimsError claims now with
            | some err => Except.error err
            | none => Except.ok { Method := method, Claims := claims, Valid := true } }

/-- The serialization reads back what it wrote, for tokens of method HS256. -/
def JwtPrims.RoundTrip (p : JwtPrims) : Prop :=
  ∀ c sig, p.deserialize (p.serialize (SigningMethod.HMAC "HS256") c sig) =
    some (SigningMethod.HMAC "HS256", c, p.signingInput (SigningMethod.HMAC "HS256") c, sig)

/-- The method `jwt.SigningMethodHS256`. -/
def SigningMethodHS256 : SigningMethod := SigningMethod.HMAC "HS256"

/-- The token `golangJwt p` writes for claims `c` signed under `key` with HS256. -/
def signedHS256 (p : JwtPrims) (c : Claims) (key : String) : String :=
  p.serialize SigningMethodHS256 c
    (hmacSum (p.hash "HS256") (hmacBlockSize "HS256") (bytesOf key)
      (p.signingInput SigningMethodHS256 c))

/-! ## `internal/middleware/auth.go` -/

/-- `AuthMiddleware`.  Each call of `ValidateToken` reads the clock once. -/
def AuthMiddleware (jwt : JwtLib) (cfg : Config) (next : Handler) : Handler :=
  fun r w =>
    -- Skip auth for non-API routes (frontend routes)
    if !strings.HasPrefix r.Path "/api/" then next r w
    -- Skip auth for public API routes
    else if r.Path = "/api/login" ∨ r.Path = "/api/verify" ∨ r.Path = "/api/refresh" ∨
        r.Path = "/api/upload" then next r w
    else
      -- Get access token from cookie
      let accessToken := GetTokenFromCookie r "access_token"
      if accessToken = "" then
        { w with resp := SendUnauthorized w.resp "No access token found" }
      else
        -- Validate access token
        let t0 := w.timeNow
        match ValidateToken jwt t0.1 accessToken cfg.App.JWTSecret with
        | Except.error _ =>
          -- Try to refresh the token
          let refreshToken := GetTokenFromCookie r "refresh_token"
          if refreshToken = "" then
            { t0.2 with resp := SendUnauthorized t0.2.resp "No refresh token found" }
          else
            -- Validate refresh token
            let t1 := t0.2.timeNow
            match ValidateToken jwt t1.1 refreshToken cfg.App.JWTSecret with
            | Except.error _ =>
              { t1.2 with resp := SendUnauthorized t1.2.resp "Invalid refresh token" }
            | Except.ok refreshClaims =>
              if refreshClaims.TokenType ≠ RefreshToken then
                { t1.2 with resp := SendUnauthorized t1.2.resp "Invalid refresh token" }
              else
                -- Generate new token pair
                match GenerateTokenPair jwt refreshClaims.Username cfg.App.JWTSecret t1.2 with
                | (Except.error _, w2) =>
                  { w2 with resp := SendInternalError w2.resp "Failed to generate new tokens" }
                | (Except.ok (newAccessToken, newRefreshToken), w2) =>
                  -- Set new cookies, update request with new token
                  let secure : Bool := cfg.App.Environment = "production"
                  let w3 : World :=
                    { w2 with resp := SetTokenCookies w2.resp newAccessToken newRefreshToken secure }
                  next (r.AddCookie "access_token" newAccessToken) w3
        | Except.ok claims =>
          if claims.TokenType ≠ AccessToken then
            { t0.2 with resp := SendUnauthorized t0.2.resp "Invalid token type" }
          -- Token is valid, proceed
          else next r t0.2

/-! ## `internal/middleware/csrf.go`: token generation -/

/-- `GenerateCSRFToken`: the base64 text of 32 fresh random bytes, here the
next value of `rand`. -/
def GenerateCSRFToken (w : World) : String × World :=
  (w.rand w.draws, { w with draws := w.draws + 1 })

/-! ## `internal/utils/jwt.go`: clearing -/

/-- `utils.ClearTokenCookies`. -/
def ClearTokenCookies (w : ResponseWriter) (secure : Bool) : ResponseWriter :=
  (w.SetCookie
    { Name := "access_token", Value := "", Path := "/", HttpOnly := true,
      Secure := secure, SameSite := SameSite.StrictMode, MaxAge := -1 }).SetCookie
    { Name := "refresh_token", Value := "", Path := "/", HttpOnly := true,
      Secure := secure, SameSite := SameSite.StrictMode, MaxAge := -1 }

/-! ## `internal/handlers/handlers.go` -/

/-- Go `models.LoginRequest`. -/
structure LoginRequest where
  Username : String
  Password : String
deriving DecidableEq, Repr

/-- The `csrf_token` cookie `Login` and `RefreshToken` set:
`MaxAge` is `int((24 * time.Hour).Seconds())`. -/
def csrfCookie (csrfToken : String) (secure : Bool) : Cookie :=
  { Name := "csrf_token", Value := csrfToken, Path := "/", HttpOnly := false,
    Secure := secure, SameSite := SameSite.StrictMode, MaxAge := 86400 }

/-- `Handler.Login`.  `decode` is `json.NewDecoder(r.Body).Decode(&req)` of
`encoding/json`, a parameter of the model. -/
def Handler.Login (jwt : JwtLib) (decode : String → Except String LoginRequest) (cfg : Config) :
    Handler :=
  fun r w =>
    match decode r.Body with
    | Except.error err =>
      let w1 := w.logCall "WARN" "Invalid login request" [("error", LogValue.str err)]
      { w1 with resp := w1.resp.Error "Invalid request" 400 }
    | Except.ok req =>
      match w.db req.Username with
      | Except.error err =>
        let w1 := w.logCall "ERROR" "Failed to get user"
          [("error", LogValue.str err), ("username", LogValue.str req.Username)]
        { w1 with resp := w1.resp.Error "Internal server error" 500 }
      | Except.ok user =>
        let invalid : World :=
          let w1 := w.logCall "WARN" "Invalid login attempt"
            [("username", LogValue.str req.Username)]
          { w1 with resp := w1.resp.Error "Invalid credentials" 401 }
        match user with
        | none => invalid
        | some user =>
          if user.Password ≠ req.Password then invalid
          else
            -- Generate token pair
            match GenerateTokenPair jwt user.Username cfg.App.JWTSecret w with
            | (Except.error err, w1) =>
              let w2 := w1.logCall "ERROR" "Failed to generate tokens"
                [("error", LogValue.str err), ("username", LogValue.str user.Username)]
              { w2 with resp := w2.resp.Error "Internal server error" 500 }
            | (Except.ok (accessToken, refreshToken), w1) =>
              let secure : Bool := cfg.App.Environment = "production"
              -- Set secure cookies
              let resp1 := SetTokenCookies w1.resp accessToken refreshToken secure
              -- Generate CSRF token
              let csrf := GenerateCSRFToken w1
              let resp2 := resp1.SetCookie (csrfCookie csrf.1 secure)
              -- Set upload key cookie
              let resp3 := resp2.SetCookie
                { Name := "upload_key", Value := cfg.App.UploadKey, Path := "/",
                  HttpOnly := true, Secure := secure, SameSite := SameSite.StrictMode,
                  MaxAge := 86400 }
              let w3 := csrf.2.logCall "INFO" "User logged in successfully"
                [("username", LogValue.str user.Username)]
              let body := Chunk.json [("username", user.Username)]
              let out := (resp3.HeaderSet "Content-Type" "application/json").Write body
              { w3 with resp := out }

/-- `Handler.Logout`. -/
def Handler.Logout (cfg : Config) : Handler :=
  fun r w =>
    if r.Method ≠ "POST" then { w with resp := w.resp.Error "Method not allowed" 405 }
    else
      let secure : Bool := cfg.App.Environment = "production"
      -- Clear all auth cookies with proper attributes
      let resp1 := ClearTokenCookies w.resp secure
      let resp2 := resp1.SetCookie
        { Name := "csrf_token", Value := "", Path := "/", HttpOnly := false,
          Secure := secure, SameSite := SameSite.StrictMode, MaxAge := -1 }
      -- Clear upload key cookie
      let resp3 := resp2.SetCookie
        { Name := "upload_key", Value := "", Path := "/", HttpOnly := true,
          Secure := secure, SameSite := SameSite.StrictMode, MaxAge := -1 }
      let body := Chunk.json [("message", "Logged out successfully")]
      let out := (resp3.HeaderSet "Content-Type" "application/json").Write body
      { w with resp := out }

/-- `Handler.RefreshToken`. -/
def Handler.RefreshToken (jwt : JwtLib) (cfg : Config) : Handler :=
  fun r w =>
    if r.Method ≠ "POST" then { w with resp := w.resp.Error "Method not allowed" 405 }
    else
      let refreshToken := GetTokenFromCookie r "refresh_token"
      if refreshToken = "" then
        { w with resp := w.resp.Error "No refresh token provided" 401 }
      else
        -- Validate refresh token
        let t0 := w.timeNow
        match ValidateToken jwt t0.1 refreshToken cfg.App.JWTSecret with
        | Except.error _ => { t0.2 with resp := t0.2.resp.Error "Invalid refresh token" 401 }
        | Except.ok claims =>
          if claims.TokenType ≠ Sharex.RefreshToken then
            { t0.2 with resp := t0.2.resp.Error "Invalid refresh token" 401 }
          else
            -- Generate new token pair
            match GenerateTokenPair jwt claims.Username cfg.App.JWTSecret t0.2 with
            | (Except.error _, w1) =>
              { w1 with resp := w1.resp.Error "Failed to generate new tokens" 500 }
            | (Except.ok (accessToken, newRefreshToken), w1) =>
              let secure : Bool := cfg.App.Environment = "production"
              -- Set new cookies
              let resp1 := SetTokenCookies w1.resp accessToken newRefreshToken secure
              -- Generate new CSRF token
              let csrf := GenerateCSRFToken w1
              let resp2 := resp1.SetCookie (csrfCookie csrf.1 secure)
              let body := Chunk.json [("success", "true"), ("username", claims.Username)]
              let out := (resp2.HeaderSet "Content-Type" "application/json").Write body
              { csrf.2 with resp := out }

/-- `Handler.VerifyToken`. -/
def Handler.VerifyToken (jwt : JwtLib) (cfg : Config) : Handler :=
  fun r w =>
    if r.Method ≠ "GET" then { w with resp := w.resp.Error "Method not allowed" 405 }
    else
      -- Get access token from cookie
      let accessToken := GetTokenFromCookie r "access_token"
      if accessToken = "" then
        { w with resp := w.resp.Error "No access token found" 401 }
      else
        -- Validate token
        let t0 := w.timeNow
        match ValidateToken jwt t0.1 accessToken cfg.App.JWTSecret with
        | Except.error _ =>
          let refreshToken := GetTokenFromCookie r "refresh_token"
          if refreshToken ≠ "" then
            -- Try to refresh the token
            let t1 := t0.2.timeNow
            match ValidateToken jwt t1.1 refreshToken cfg.App.JWTSecret with
            | Except.error _ =>
              { t1.2 with resp := t1.2.resp.Error "Invalid refresh token" 401 }
            | Except.ok refreshClaims =>
              if refreshClaims.TokenType ≠ Sharex.RefreshToken then
                { t1.2 with resp := t1.2.resp.Error "Invalid refresh token" 401 }
              else
                -- Generate new token pair
                match GenerateTokenPair jwt refreshClaims.Username cfg.App.JWTSecret t1.2 with
                | (Except.error _, w2) =>
                  { w2 with resp := w2.resp.Error "Failed to generate new tokens" 500 }
                | (Except.ok (newAccessToken, newRefreshToken), w2) =>
                  let secure : Bool := cfg.App.Environment = "production"
                  -- Set new cookies
                  let resp1 := SetTokenCookies w2.resp newAccessToken newRefreshToken secure
                  -- Return the username
                  let body := Chunk.json [("username", refreshClaims.Username)]
                  let out := (resp1.HeaderSet "Content-Type" "application/json").Write body
                  { w2 with resp := out }
          else { t0.2 with resp := t0.2.resp.Error "Invalid access token" 401 }
        | Except.ok claims =>
          if claims.TokenType ≠ AccessToken then
            { t0.2 with resp := t0.2.resp.Error "Invalid token type" 401 }
          else
            -- Return the username in the response
            let body := Chunk.json [("username", claims.Username)]
            let out := (t0.2.resp.HeaderSet "Content-Type" "application/json").Write body
            { t0.2 with resp := out }

/-! ## `cmd/main.go` -/

/-- The handler `main` passes to `http.ListenAndServe`: `mux` wrapped by the
five middlewares in the order of the five assignments. -/
def handlerWithMiddleware (jwt : JwtLib) (cfg : Config) (rateLimiter : RateLimiter)
    (mux : Handler) : Handler :=
  let h0 : Handler := mux
  let h1 := LoggingMiddleware cfg h0
  let h2 := rateLimiter.RateLimitMiddleware h1
  let h3 := CORSMiddleware cfg h2
  let h4 := CSRFMiddleware h3
  AuthMiddleware jwt cfg h4

/-! ## Statements of the specification -/

/-- The two store commands of one check both execute at time `now` and reach
the store: the check is not interleaved with anything and the store works. -/
def World.atomicAt (w : World) (now : Nat) : Prop :=
  w.env w.calls = { time := now } ∧ w.env (w.calls + 1) = { time := now }

/-- The fixed-window step in the words of the specification, for one call of
`checkRateLimit key requests period` made in `w` at time `now`: absent counter:
set to 1 with a time-to-live of `period` seconds, admit; counter below the
limit: add one, keep the time-to-live, admit; counter at or above the limit:
reject, store unchanged. -/
def FixedWindowStep (key : String) (requests period : Int) (w : World) (now : Nat) : Prop :=
  (w.redis.live now key = none →
    ((checkRateLimit key requests period).run w).1 = (true, none) ∧
    ((checkRateLimit key requests period).run w).2.redis =
      w.redis.put key { value := 1, expireAt := some (now + (1000 * period).toNat) }) ∧
  (∀ e, w.redis.live now key = some e → e.value < requests →
    ((checkRateLimit key requests period).run w).1 = (true, none) ∧
    ((checkRateLimit key requests period).run w).2.redis =
      w.redis.put key { value := e.value + 1, expireAt := e.expireAt }) ∧
  (∀ e, w.redis.live now key = some e → e.value ≥ requests →
    ((checkRateLimit key requests period).run w).1 = (false, none) ∧
    ((checkRateLimit key requests period).run w).2.redis = w.redis)

/-- The end of the window opened by a check that finds no counter at time `t`:
the expiry go-redis gives the key for the expiration `checkRateLimit` passes;
`none` when the key is stored without expiry. -/
def windowEnd (period : Int) (t : Nat) : Option Nat :=
  if periodDuration period > 0 then some (t + expirationMs (periodDuration period)) else none

/-- A new request arriving at server time `t`: a fresh response writer, and
every store command of the request executes at `t` and reaches the store. -/
def World.fresh (w : World) (t : Nat) : World :=
  { w with resp := {}, env := fun _ => { time := t } }

/-- Serve one request at server time `t` through the rate limiter. -/
def serveAt (rl : RateLimiter) (next : Handler) (r : Request) (t : Nat) (w : World) : World :=
  rl.RateLimitMiddleware next r (w.fresh t)

/-- Serve the same request once at each of the times `ts`, one after the other. -/
def serveSeq (rl : RateLimiter) (next : Handler) (r : Request) : List Nat → World → World
  | [], w => w
  | t :: ts, w => serveSeq rl next r ts (serveAt rl next r t w)

/-! ## Concrete instances -/

/-- A limiter with the rule 5 requests per 10 seconds for `/api/upload`. -/
def uploadLimiter : RateLimiter :=
  { hasClient := true,
    config := { RateLimit := { Routes := [("/api/upload", { Requests := 5, Period := 10 })] } } }

/-- A request for `/api/upload` from 1.2.3.4. -/
def uploadRequest : Request :=
  { Method := "POST", Path := "/api/upload", RemoteAddr := "1.2.3.4:40000" }

/-- A final handler that answers with the body "ok". -/
def okHandler : Handler :=
  fun _ w => { w with resp := w.resp.Write (Chunk.text "ok") }

/-- The key of `uploadRequest`. -/
def uploadKey : String := "rate_limit:/api/upload:1.2.3.4"

/-- A world whose store cannot be reached: every command fails.  The counter of
`uploadKey` stands at 100, far beyond the limit of 5. -/
def unreachableStore : World :=
  { redis := fun k => if k = uploadKey then some { value := 100, expireAt := none } else none,
    env := fun _ => { time := 0, fail := some "dial tcp 127.0.0.1:6379: connect: connection refused" } }

/-- Two checks on a working store: the first at time 0; the second reads at
10000 ms, the last instant of the 10 s window, and writes at 10001 ms. -/
def raceWorld : World :=
  { env := fun n =>
      if n < 2 then { time := 0 } else if n = 2 then { time := 10000 } else { time := 10001 } }

/-- The world after the two checks of `raceWorld`, limit 5 and window 10 s. -/
def afterRace : World :=
  ((checkRateLimit uploadKey 5 10).run ((checkRateLimit uploadKey 5 10).run raceWorld).2).2

/-- The invariant "no counter outlives its window": every key live at `now`
has an expiry, at most `period` seconds ahead. -/
def TTLWithinWindow (s : Store) (now : Nat) (period : Int) : Prop :=
  ∀ key e, s.live now key = some e →
    ∃ t, e.expireAt = some t ∧ t ≤ now + (1000 * period).toNat

/-- The tokens `demoJwt` knows. -/
def demoToken (tokenString : String) : Option Token :=
  if tokenString = "access-alice" then
    some { Method := SigningMethod.HMAC "HS256", Valid := false,
           Claims := { Username := "alice", TokenType := "access", ExpiresAt := some 2000000000 } }
  else if tokenString = "refresh-alice" then
    some { Method := SigningMethod.HMAC "HS256", Valid := false,
           Claims := { Username := "alice", TokenType := "refresh", ExpiresAt := some 2000000000 } }
  else if tokenString = "expired-alice" then
    some { Method := SigningMethod.HMAC "HS256", Valid := false,
           Claims := { Username := "alice", TokenType := "access", ExpiresAt := some (-1) } }
  else none

/-- A small stand-in for the JWT library, used for concrete instances only:
it knows the tokens of `demoToken`, all signed with the key "secret", and signs
new tokens as "new-<type>-<user>". -/
def demoJwt : JwtLib :=
  { ParseWithClaims := fun tokenString keyFunc now =>
      match demoToken tokenString with
      | none => Except.error "token is malformed"
      | some token =>
        match keyFunc token with
        | Except.error err => Except.error err
        | Except.ok key =>
          if key ≠ "secret" then Except.error "signature is invalid"
          else if ¬ now < token.Claims.ExpiresAt.getD 0 * Second then
            Except.error "token is expired"
          else Except.ok { token with Valid := true },
    SignedString := fun _ claims _ =>
      Except.ok ("new-" ++ claims.TokenType ++ "-" ++ claims.Username) }

/-- The data of a token as numbers, for `toyPrims`. -/
def toyCode (m : SigningMethod) (c : Claims) (sig : Bytes) :
    (Bool × List Nat) × (List Nat × List Nat × Option Int × Option Int × Option Int) × List Nat :=
  ((match m with
    | SigningMethod.HMAC alg => (true, alg.data.map Char.toNat)
    | SigningMethod.other alg => (false, alg.data.map Char.toNat)),
   (c.Username.data.map Char.toNat, c.TokenType.data.map Char.toNat, c.ExpiresAt, c.IssuedAt,
     c.NotBefore),
   sig)

/-- Inverse of `toyCode`. -/
def toyUncode
    (t : (Bool × List Nat) × (List Nat × List Nat × Option Int × Option Int × Option Int) ×
      List Nat) : SigningMethod × Claims × Bytes :=
  ((if t.1.1 then SigningMethod.HMAC (String.mk (t.1.2.map Char.ofNat))
    else SigningMethod.other (String.mk (t.1.2.map Char.ofNat))),
   { Username := String.mk (t.2.1.1.map Char.ofNat),
     TokenType := String.mk (t.2.1.2.1.map Char.ofNat),
     ExpiresAt := t.2.1.2.2.1, IssuedAt := t.2.1.2.2.2.1, NotBefore := t.2.1.2.2.2.2 },
   t.2.2)

/-- The token of `toyPrims`: a run of `a`s whose length encodes the data. -/
def toyWrite (m : SigningMethod) (c : Claims) (sig : Bytes) : String :=
  String.mk (List.replicate (Encodable.encode (toyCode m c sig)) 'a')

/-- Read a token of `toyPrims` back from its length. -/
def toyRead (s : String) : Option (SigningMethod × Claims × Bytes × Bytes) :=
  (Encodable.decode s.data.length).map (fun t =>
    ((toyUncode t).1, (toyUncode t).2.1, [], (toyUncode t).2.2))

/-- A small instance of the primitives, used for concrete instances only: the
token is a run of `a`s whose length encodes its data; the hash is the
identity; the signing string is empty. -/
def toyPrims : JwtPrims :=
  { hash := fun _ b => b,
    signingInput := fun _ _ => [],
    serialize := toyWrite,
    deserialize := toyRead,
    verifyOther := fun _ _ _ _ => false }

/-- Claims of a token for alice that never expires. -/
def aliceClaims : Claims := { Username := "alice", TokenType := "access" }

/-- A world whose clock shows 0.999999999 s at the first reading and advances
by one nanosecond with every reading. -/
def tickWorld : World := { clock := fun n => 999999999 + n }

/-- The configuration of the concrete instances. -/
def demoConfig : Config := { App := { JWTSecret := "secret" } }

/-- A request for the protected path `/api/list` that carries no cookie. -/
def listRequest : Request :=
  { Method := "GET", Path := "/api/list", RemoteAddr := "1.2.3.4:40000" }

/-- The requests the CSRF stage lets pass, in the words of the specification:
a safe method, or a public path, or a non-empty `X-CSRF-Token` header equal to
a non-empty `csrf_token` cookie (the cookie `r.Cookie` returns). -/
def csrfPasses (r : Request) : Prop :=
  r.Method = "GET" ∨ r.Method = "HEAD" ∨ r.Method = "OPTIONS" ∨
  r.Path = "/api/login" ∨ r.Path = "/api/upload" ∨
  (r.HeaderGet "X-CSRF-Token" ≠ "" ∧
    ∃ value, r.Cookie "csrf_token" = some value ∧ value ≠ "" ∧
      value = r.HeaderGet "X-CSRF-Token")

/-- A protected API path: under `/api/` and none of the four public paths. -/
def protectedPath (path : String) : Prop :=
  strings.HasPrefix path "/api/" = true ∧ path ≠ "/api/login" ∧ path ≠ "/api/verify" ∧
    path ≠ "/api/refresh" ∧ path ≠ "/api/upload"

/-- A world in which the counter of `uploadKey` stands at the limit of 5. -/
def limitReached : World :=
  { redis := fun k => if k = uploadKey then some { value := 5, expireAt := none } else none }

/-- A request for `/api/list` with a valid refresh token and no access token. -/
def refreshOnlyRequest : Request :=
  { Method := "GET", Path := "/api/list", Cookies := [("refresh_token", "refresh-alice")] }

/-- A request for `/api/list` with an expired access token and a valid refresh
token. -/
def staleAccessRequest : Request :=
  { Method := "GET", Path := "/api/list",
    Cookies := [("access_token", "expired-alice"), ("refresh_token", "refresh-alice")] }

/-- A final handler that answers with the `access_token` cookie it reads from
the request (`GetTokenFromCookie`). -/
def echoAccessToken : Handler :=
  fun r w => { w with resp := w.resp.Write (Chunk.text (GetTokenFromCookie r "access_token")) }

/-- A request for `/api/list` whose `access_token` cookie holds a valid refresh
token. -/
def misusedRefreshRequest : Request :=
  { Method := "GET", Path := "/api/list", Cookies := [("access_token", "refresh-alice")] }

/-- A POST to a non-public path with a `csrf_token` cookie and no
`X-CSRF-Token` header. -/
def postWithoutToken : Request :=
  { Method := "POST", Path := "/api/logout", Cookies := [("csrf_token", "t0k3n")] }

/-- A request for the public path `/api/upload` with a meaningless access
token. -/
def garbageUploadRequest : Request :=
  { Method := "DELETE", Path := "/api/upload", Cookies := [("access_token", "garbage")] }

/-- A request whose `X-Forwarded-For` header starts with an empty entry. -/
def emptyForwardedRequest : Request :=
  { Method := "GET", Path := "/api/upload",
    Header := [("X-Forwarded-For", [",10.0.0.1"]), ("X-Real-IP", ["10.0.0.2"])],
    RemoteAddr := "1.2.3.4:40000" }

/-- Every cookie of `w` is an old one or carries the flag `secure`. -/
def newCookiesSecure (secure : Bool) (old : List Cookie) (w : ResponseWriter) : Prop :=
  ∀ c ∈ w.cookies, c ∈ old ∨ c.Secure = secure

/-- A GET request for `/api/refresh` that carries no cookie. -/
def getRefreshRequest : Request := { Method := "GET", Path := "/api/refresh" }

/-- A POST request for `/api/refresh` with a valid refresh token. -/
def postRefreshRequest : Request :=
  { Method := "POST", Path := "/api/refresh", Cookies := [("refresh_token", "refresh-alice")] }

/-- A POST request for `/api/refresh` whose `refresh_token` cookie holds a valid
access token. -/
def postRefreshWithAccess : Request :=
  { Method := "POST", Path := "/api/refresh", Cookies := [("refresh_token", "access-alice")] }

/-- A GET request for `/api/verify` with an expired access token and a valid
refresh token. -/
def staleVerifyRequest : Request :=
  { Method := "GET", Path := "/api/verify",
    Cookies := [("access_token", "expired-alice"), ("refresh_token", "refresh-alice")] }

/-- A login request of alice; the body stands for her JSON credentials. -/
def loginRequest : Request := { Method := "POST", Path := "/api/login", Body := "alice:pw" }

/-- A decoder that reads the body of `loginRequest`. -/
def demoDecode (body : String) : Except String LoginRequest :=
  if body = "alice:pw" then Except.ok { Username := "alice", Password := "pw" }
  else Except.error "invalid character"

/-- A world whose user table holds alice with password "pw". -/
def aliceWorld : World :=
  { db := fun u =>
      if u = "alice" then Except.ok (some { ID := 1, Username := "alice", Password := "pw" })
      else Except.ok none,
    rand := fun _ => "c3JmLXRva2Vu" }

/-- The refresh token of a request is unusable at the time `now`: the cookie is
absent or empty, or the token fails validation, or it validates with a
tokenType other than refresh (access in particular). -/
def refreshFails (jwt : JwtLib) (cfg : Config) (r : Request) (now : Int) : Prop :=
  GetTokenFromCookie r "refresh_token" = "" ∨
  (∃ err, ValidateToken jwt now (GetTokenFromCookie r "refresh_token") cfg.App.JWTSecret =
    Except.error err) ∨
  (∃ claims, ValidateToken jwt now (GetTokenFromCookie r "refresh_token") cfg.App.JWTSecret =
    Except.ok claims ∧ claims.TokenType ≠ RefreshToken)

/-- A POST request for `/api/logout`. -/
def logoutRequest : Request := { Method := "POST", Path := "/api/logout" }

/-! ## Request context, concurrent checks, and their instances -/

/-- Go `r.Context().Value(key)`: the value the request context carries under
`key`, `none` when there is none. -/
def Request.ContextValue (r : Request) (key : String) : Option String :=
  r.Context.lookup key

/-- A configuration with CORS on and one allowed origin. -/
def corsConfig : Config :=
  { CORS := { Enabled := true, AllowedOrigins := ["https://app.example"],
              AllowedMethods := ["GET", "POST"], AllowedHeaders := ["Content-Type"] } }

/-- A preflight request from an origin that is not on the list of `corsConfig`. -/
def foreignPreflight : Request :=
  { Method := "OPTIONS", Path := "/api/list", Header := [("Origin", ["https://evil.example"])] }

/-- A request for `/api/list` with a valid access token of alice and an empty
request context. -/
def validAccessRequest : Request :=
  { Method := "GET", Path := "/api/list", Cookies := [("access_token", "access-alice")] }

/-- A final handler that answers with every value of the request context. -/
def echoContext : Handler :=
  fun r w => { w with resp := w.resp.Write (Chunk.json r.Context) }

/-- A login request of alice with a wrong password. -/
def wrongPasswordRequest : Request := { Method := "POST", Path := "/api/login", Body := "alice:PW" }

/-- A decoder that reads the bodies of `loginRequest` and
`wrongPasswordRequest`. -/
def pairDecode (body : String) : Except String LoginRequest :=
  if body = "alice:pw" then Except.ok { Username := "alice", Password := "pw" }
  else if body = "alice:PW" then Except.ok { Username := "alice", Password := "PW" }
  else Except.error "invalid character"

/-- Execute the next store command of a program under the next entry of `env`;
a finished program stays as it is. -/
def Prog.step {α : Type} : Prog α → World → Prog α × World
  | Prog.ret a, w => (Prog.ret a, w)
  | Prog.get key k, w =>
    (k (w.redis.Get (w.env w.calls) key), { w with calls := w.calls + 1 })
  | Prog.set key value expiration k, w =>
    let r := w.redis.Set (w.env w.calls) key value expiration
    (k r.1, { w with redis := r.2, calls := w.calls + 1 })
  | Prog.incr key k, w =>
    let r := w.redis.Incr (w.env w.calls) key
    (k r.1, { w with redis := r.2, calls := w.calls + 1 })

/-- The result of a finished program, `none` while commands remain. -/
def Prog.result? {α : Type} : Prog α → Option α
  | Prog.ret a => some a
  | _ => none

/-- Two programs running concurrently against the same store: the schedule
says, command by command, which of the two executes its next command (`true`:
the first, `false`: the second). -/
def interleave {α β : Type} : List Bool → Prog α → Prog β → World → (Prog α × Prog β) × World
  | [], a, b, w => ((a, b), w)
  | true :: s, a, b, w => interleave s (a.step w).1 b (a.step w).2
  | false :: s, a, b, w => interleave s a (b.step w).1 (b.step w).2

/-- A limiter with the rule 0 requests per 10 seconds for `/api/upload`. -/
def closedLimiter : RateLimiter :=
  { hasClient := true,
    config := { RateLimit := { Routes := [("/api/upload", { Requests := 0, Period := 10 })] } } }

/-! ## `float64`

The values of Go's `float64` and the operations the code uses, after IEEE 754:
every operation gives the exact result rounded to the nearest `float64`. -/

/-- A `float64` value: a finite number, an infinity, or not-a-number.  The
sign of zero is not kept. -/
inductive Float64
  | finite (v : ℚ)
  | inf (negative : Bool)
  | nan
deriving DecidableEq, Repr

/-- Round to the nearest integer, a tie to the even one. -/
def roundHalfEven (m : ℚ) : Int :=
  if m - ⌊m⌋ < 1 / 2 then ⌊m⌋
  else if 1 / 2 < m - ⌊m⌋ then ⌊m⌋ + 1
  else if ⌊m⌋ % 2 = 0 then ⌊m⌋
  else ⌊m⌋ + 1

/-- IEEE 754 binary64 rounding of a positive number, to nearest, ties to even:
53 significant bits, the exponent not below that of the subnormal numbers,
`+Inf` from `2^1024` on. -/
def roundPositive (q : ℚ) : Float64 :=
  let e : Int := max (Int.log 2 q) (-1022)
  let ulp : ℚ := 2 ^ (e - 52)
  let v : ℚ := roundHalfEven (q / ulp) * ulp
  if 2 ^ 1024 ≤ v then Float64.inf false else Float64.finite v

/-- The `float64` nearest to `q`. -/
def roundFloat64 (q : ℚ) : Float64 :=
  if q = 0 then Float64.finite 0
  else if 0 < q then roundPositive q
  else
    match roundPositive (-q) with
    | Float64.finite v => Float64.finite (-v)
    | _ => Float64.inf true

namespace Float64

/-- Go `x * y` on `float64`. -/
def mul : Float64 → Float64 → Float64
  | finite a, finite b => roundFloat64 (a * b)
  | finite a, inf s => if a = 0 then nan else inf (s != decide (a < 0))
  | inf s, finite b => if b = 0 then nan else inf (s != decide (b < 0))
  | inf s, inf t => inf (s != t)
  | _, _ => nan

/-- Go `x / y` on `float64`. -/
def div : Float64 → Float64 → Float64
  | finite a, finite b =>
    if b = 0 then (if a = 0 then nan else inf (decide (a < 0))) else roundFloat64 (a / b)
  | finite _, inf _ => finite 0
  | inf s, finite b => inf (s != decide (b < 0))
  | _, _ => nan

/-- Go `float64(i)` for an integer `i`. -/
def ofInt (i : Int) : Float64 := roundFloat64 i

/-- Go `int64(x)`: the value truncated toward zero when that is an `int64`;
the result of every other conversion is implementation-dependent (the Go
specification), here the parameter `indefinite`. -/
def toInt64 (indefinite : Int) : Float64 → Int
  | finite v =>
    if -2 ^ 63 ≤ (if 0 ≤ v then ⌊v⌋ else ⌈v⌉) ∧ (if 0 ≤ v then ⌊v⌋ else ⌈v⌉) < 2 ^ 63 then
      (if 0 ≤ v then ⌊v⌋ else ⌈v⌉)
    else indefinite
  | _ => indefinite

end Float64

/-! ## `strings`, `strconv` and `fmt` for sizes -/

namespace strings

/-- Go `unicode.ToUpper` as far as the code depends on it: the mapping on
ASCII, and the two code points outside ASCII whose upper case is an ASCII
letter (U+0131 to `I`, U+017F to `S`).  The upper case of every other code
point lies outside ASCII; it is left in place here, the code only compares the
result with ASCII texts. -/
def ToUpperRune (c : Char) : Char :=
  if c.val = 0x131 then 'I' else if c.val = 0x17F then 'S' else c.toUpper

/-- Go `strings.ToUpper`. -/
def ToUpper (s : String) : String := String.mk (s.data.map ToUpperRune)

end strings

/-- The number a run of decimal digits writes. -/
def digitsValue (ds : List Char) : Nat :=
  ds.foldl (fun n c => 10 * n + (c.toNat - '0'.toNat)) 0

namespace strconv

/-- The integer digits and the fraction digits of a decimal text: at least one
digit, at most one `.`; `none` for any other text. -/
def decimalParts (cs : List Char) : Option (List Char × List Char) :=
  match cs.dropWhile Char.isDigit with
  | [] => if cs.takeWhile Char.isDigit = [] then none else some (cs.takeWhile Char.isDigit, [])
  | c :: f =>
    if c = '.' ∧ f.all Char.isDigit = true ∧ ¬ (cs.takeWhile Char.isDigit = [] ∧ f = []) then
      some (cs.takeWhile Char.isDigit, f)
    else none

/-- The number a decimal text writes, 0 for any other text. -/
def decimalValue (cs : List Char) : ℚ :=
  match decimalParts cs with
  | some (i, f) => (digitsValue (i ++ f) : ℚ) / 10 ^ f.length
  | none => 0

/-- Go `strconv.ParseFloat(s, 64)` on the texts `size.Parse` passes, which hold
digits and `.` only: a decimal number gives the nearest `float64`; a number
that rounds to infinity is the error `ErrRange`, a text that is no decimal
number the error `ErrSyntax`. -/
def ParseFloat (s : String) : Except String Float64 :=
  match decimalParts s.data with
  | none => Except.error ("strconv.ParseFloat: parsing \"" ++ s ++ "\": invalid syntax")
  | some _ =>
    match roundFloat64 (decimalValue s.data) with
    | Float64.finite v => Except.ok (Float64.finite v)
    | _ => Except.error ("strconv.ParseFloat: parsing \"" ++ s ++ "\": value out of range")

end strconv

namespace fmt

/-- Go `fmt.Sprintf("%.1f", x)`: one decimal, correctly rounded, a tie to the
even digit. -/
def SprintfF1 : Float64 → String
  | Float64.nan => "NaN"
  | Float64.inf false => "+Inf"
  | Float64.inf true => "-Inf"
  | Float64.finite v =>
    (if v < 0 then "-" else "") ++ toString ((roundHalfEven (|v| * 10)).toNat / 10) ++ "." ++
      toString ((roundHalfEven (|v| * 10)).toNat % 10)

end fmt

/-! ## `internal/size/size.go` -/

namespace size

/-- `isNumeric`. -/
def isNumeric (b : Char) : Bool :=
  (b ≥ '0' && b ≤ '9') || b = '.'

/-- `size.Parse`.  The loop stops at the first byte that is not numeric; the
numeric bytes are ASCII, so the run is the longest prefix of numeric
characters.  `indefinite` is what `int64(x)` gives outside the `int64` range. -/
def Parse (indefinite : Int) (sizeStr : String) : Except String Int :=
  -- Remove any whitespace
  let sizeStr := strings.TrimSpace sizeStr
  -- Find where the numeric part ends
  let number := sizeStr.data.takeWhile isNumeric
  if number = [] then Except.error "invalid size value: no numeric part found"
  else
    -- Split into number and unit
    let unit := strings.ToUpper (strings.TrimSpace (String.mk (sizeStr.data.dropWhile isNumeric)))
    -- Parse the number
    match strconv.ParseFloat (String.mk number) with
    | Except.error err => Except.error ("invalid size value: " ++ err)
    | Except.ok value =>
      -- Convert to bytes based on unit
      let k : Float64 := Float64.finite 1024
      if unit = "B" then Except.ok (value.toInt64 indefinite)
      else if unit = "KB" then Except.ok ((value.mul k).toInt64 indefinite)
      else if unit = "MB" then Except.ok (((value.mul k).mul k).toInt64 indefinite)
      else if unit = "GB" then Except.ok ((((value.mul k).mul k).mul k).toInt64 indefinite)
      else if unit = "TB" then
        Except.ok (((((value.mul k).mul k).mul k).mul k).toInt64 indefinite)
      else Except.error ("unknown size unit: " ++ unit)

/-- The loop of `Format` and of `formatBytes`: `n /= unit` while `n >= unit`,
each round multiplying the `int64` `div` by `unit` and counting in `exp`.  The
result is the final `(div, exp)`. -/
def unitLoop (n div : Int) (exp : Nat) : Int × Nat :=
  if 1024 ≤ n then unitLoop (n / 1024) (wrap64 (div * 1024)) (exp + 1) else (div, exp)
termination_by n.toNat
decreasing_by omega

/-- `size.Format`; `none` is the run-time panic of an index out of range. -/
def Format (bytes : Int) : Option String :=
  if bytes < 1024 then some (toString bytes ++ " B")
  else
    let de := unitLoop (bytes / 1024) 1024 0
    match "KMGTPE".data.get? de.2 with
    | none => none
    | some c =>
      some (fmt.SprintfF1 ((Float64.ofInt bytes).div (Float64.ofInt de.1)) ++ " " ++
        String.mk [c] ++ "B")

end size

/-! ## `internal/utils/logger.go` -/

/-- `formatBytes` of `internal/utils/logger.go`, for a `uint64`. -/
def formatBytes (bytes : Nat) : Option String :=
  if bytes < 1024 then some (toString bytes ++ " B")
  else
    let de := size.unitLoop (bytes / 1024 : Nat) 1024 0
    match "KMGTPE".data.get? de.2 with
    | none => none
    | some c =>
      some (fmt.SprintfF1 ((Float64.ofInt bytes).div (Float64.ofInt de.1)) ++ " " ++
        String.mk [c] ++ "B")

/-! ## Statements and instances for sizes -/

/-- The value `roundPositive` compares with `2^1024`. -/
def roundedValue (q : ℚ) : ℚ :=
  roundHalfEven (q / 2 ^ (max (Int.log 2 q) (-1022) - 52)) * 2 ^ (max (Int.log 2 q) (-1022) - 52)

/-- The unit names `Parse` knows; the unit at index `k` stands for `1024^k`
bytes. -/
def size.unitNames : List String := ["B", "KB", "MB", "GB", "TB"]

/-- Every way of writing a text of letters in upper and lower case. -/
def caseVariants : List Char → List (List Char)
  | [] => [[]]
  | c :: cs => (caseVariants cs).flatMap (fun t => [c.toUpper :: t, c.toLower :: t])

/-- A decimal number in the words of the specification, for a run of digits
and `.`: at most one `.` and at least one digit. -/
def validDecimal (run : List Char) : Prop :=
  run.count '.' ≤ 1 ∧ ∃ c ∈ run, c.isDigit = true

/-- The inputs `Parse` rejects, in the words of the specification, with the
range of `float64` added: after trimming, the input does not begin with a
digit or `.`; or its leading run of digits and `.` is no decimal number; or the
number is at least `2^1024 - 2^970`; or the rest, trimmed and in upper case, is
no unit name. -/
def size.parseRejects (s : String) : Prop :=
  (∀ c, (strings.TrimSpace s).data.head? = some c → ¬ (c.isDigit = true ∨ c = '.')) ∨
  ¬ validDecimal ((strings.TrimSpace s).data.takeWhile size.isNumeric) ∨
  (2 : ℚ) ^ 1024 - 2 ^ 970 ≤
    strconv.decimalValue ((strings.TrimSpace s).data.takeWhile size.isNumeric) ∨
  strings.ToUpper (strings.TrimSpace
    (String.mk ((strings.TrimSpace s).data.dropWhile size.isNumeric))) ∉ size.unitNames

/-- The inputs `Parse` rejects in the words of the specification: after
trimming, the input does not begin with a digit or `.`; or its leading run of
digits and `.` is no decimal number; or the rest, trimmed and in upper case, is
no unit name. -/
def size.parseRejectsClaimed (s : String) : Prop :=
  (∀ c, (strings.TrimSpace s).data.head? = some c → ¬ (c.isDigit = true ∨ c = '.')) ∨
  ¬ validDecimal ((strings.TrimSpace s).data.takeWhile size.isNumeric) ∨
  strings.ToUpper (strings.TrimSpace
    (String.mk ((strings.TrimSpace s).data.dropWhile size.isNumeric))) ∉ size.unitNames

/-- The digits of `10^309`, a number above every `float64`. -/
def hugeDigits : List Char := '1' :: List.replicate 309 '0'

/-- The size text `10^309` bytes. -/
def hugeSize : String := String.mk (hugeDigits ++ ['B'])

/-! ## `encoding/base64`, `strings` and `net/url` -/

namespace base64

/-- The alphabet of `base64.StdEncoding`. -/
def encodeStd : List Char :=
  "ABCDEFGHIJKLMNOPQRSTUVWXYZabcdefghijklmnopqrstuvwxyz0123456789+/".data

/-- The character of a 6-bit value. -/
def enc6 (n : Nat) : Char := encodeStd.getD n 'A'

/-- The 6-bit value of a character of the alphabet. -/
def dec6 (c : Char) : Option Nat :=
  if encodeStd.indexOf c < 64 then some (encodeStd.indexOf c) else none

/-- Go `base64.StdEncoding.EncodeToString`, as a list of characters: three
bytes give four characters, the last group is padded with `=`. -/
def encode : Bytes → List Char
  | [] => []
  | [a] => [enc6 (a / 4), enc6 (a % 4 * 16), '=', '=']
  | [a, b] => [enc6 (a / 4), enc6 (a % 4 * 16 + b / 16), enc6 (b % 16 * 4), '=']
  | a :: b :: c :: rest =>
    enc6 (a / 4) :: enc6 (a % 4 * 16 + b / 16) :: enc6 (b % 16 * 4 + c / 64) :: enc6 (c % 64) ::
      encode rest

/-- Go `base64.StdEncoding.EncodeToString`. -/
def EncodeToString (src : Bytes) : String := String.mk (encode src)

/-- Decoding of the last group of four characters, which may end in one or
two `=`. -/
def decodeLast (a b c d : Char) : Option Bytes :=
  match dec6 a, dec6 b with
  | some x, some y =>
    if c = '=' ∧ d = '=' then some [x * 4 + y / 16]
    else
      match dec6 c with
      | none => none
      | some z =>
        if d = '=' then some [x * 4 + y / 16, y % 16 * 16 + z / 4]
        else
          match dec6 d with
          | none => none
          | some v => some [x * 4 + y / 16, y % 16 * 16 + z / 4, z % 4 * 64 + v]
  | _, _ => none

/-- Decoding of a group of four characters that is not the last. -/
def decodeFull (a b c d : Char) : Option Bytes :=
  match dec6 a, dec6 b, dec6 c, dec6 d with
  | some x, some y, some z, some v =>
    some [x * 4 + y / 16, y % 16 * 16 + z / 4, z % 4 * 64 + v]
  | _, _, _, _ => none

/-- Decoding of the groups of four characters; padding is accepted in the last
group only, and required there. -/
def decode : List Char → Option Bytes
  | [] => some []
  | a :: b :: c :: d :: rest =>
    if rest = [] then decodeLast a b c d
    else
      match decodeFull a b c d, decode rest with
      | some g, some tail => some (g ++ tail)
      | _, _ => none
  | _ => none

/-- Go `base64.StdEncoding.DecodeString`: line breaks are skipped; `none` is
the error `CorruptInputError`. -/
def DecodeString (s : String) : Option Bytes :=
  decode (s.data.filter (fun c => c ≠ '\r' ∧ c ≠ '\n'))

end base64

namespace strings

/-- Go `strings.Split(s, sep)` for a one-character separator, on lists of
characters. -/
def splitChars (sep : Char) : List Char → List (List Char)
  | [] => [[]]
  | c :: cs =>
    if c = sep then [] :: splitChars sep cs
    else
      match splitChars sep cs with
      | [] => [[c]]
      | h :: t => (c :: h) :: t

/-- Go `strings.Split(s, sep)` for a one-character separator. -/
def Split (s : String) (sep : Char) : List String := (splitChars sep s.data).map String.mk

/-- Go `strings.TrimPrefix`. -/
def TrimPrefix (s pre : String) : String :=
  if pre.data.isPrefixOf s.data then String.mk (s.data.drop pre.data.length) else s

/-- Go `strings.Trim(s, cutset)`. -/
def Trim (s cutset : String) : String :=
  String.mk ((s.data.dropWhile (fun c => c ∈ cutset.data)).reverse.dropWhile
    (fun c => c ∈ cutset.data)).reverse

end strings

namespace url

/-- The value of a hexadecimal digit. -/
def unhex (c : Char) : Option Nat :=
  if '0' ≤ c ∧ c ≤ '9' then some (c.toNat - '0'.toNat)
  else if 'a' ≤ c ∧ c ≤ 'f' then some (c.toNat - 'a'.toNat + 10)
  else if 'A' ≤ c ∧ c ≤ 'F' then some (c.toNat - 'A'.toNat + 10)
  else none

/-- Go `url.QueryUnescape` on a list of characters: `+` becomes a blank, `%XX`
the byte `XX`; `none` is the error of a `%` that is not followed by two
hexadecimal digits.  Escaped bytes from `0x80` on, parts of the UTF-8 form of
a character outside ASCII, are outside this model and answered like an
error. -/
def unescape : List Char → Option (List Char)
  | [] => some []
  | '%' :: a :: b :: rest =>
    match unhex a, unhex b, unescape rest with
    | some x, some y, some tail =>
      if 16 * x + y < 128 then some (Char.ofNat (16 * x + y) :: tail) else none
    | _, _, _ => none
  | '%' :: _ => none
  | '+' :: rest => (unescape rest).map (fun tail => ' ' :: tail)
  | c :: rest => (unescape rest).map (fun tail => c :: tail)

/-- Go `url.QueryUnescape`. -/
def QueryUnescape (s : String) : Option String := (unescape s.data).map String.mk

/-- One `key=value` setting of a query, as `url.ParseQuery` reads it; `none`
for a setting it discards. -/
def parsePair (pair : List Char) : Option (String × String) :=
  if ';' ∈ pair then none
  else if pair = [] then none
  else
    match unescape (pair.takeWhile (fun c => c ≠ '=')),
      unescape ((pair.dropWhile (fun c => c ≠ '=')).drop 1) with
    | some key, some value => some (String.mk key, String.mk value)
    | _, _ => none

/-- Go `url.ParseQuery` as `URL.Query()` uses it: the settings are separated by
`&`, key and value by the first `=`; malformed settings are discarded. -/
def ParseQuery (query : String) : List (String × String) :=
  (strings.splitChars '&' query.data).filterMap parsePair

end url

/-! ## `internal/models` and the links of `Handler.ListImages` -/

/-- Go `models.Image`, the fields this layer reads. -/
structure Image where
  ID : Int := 0
  UUID : String
  Filename : String := ""
  Extension : String
  Size : Int := 0
  IsPrivate : Bool := false
  PrivateKey : String := ""
  Views : Int := 0
deriving DecidableEq, Repr

/-- The `url` of an image as `Handler.ListImages` builds it (and `GetImage`
after it): `/<uuid>.<ext>`, for a private image with a key followed by
`?key=` and the standard base64 text of the key. -/
def imageURL (img : Image) : String :=
  -- Create base URL
  let baseURL := "/" ++ img.UUID ++ "." ++ img.Extension
  -- Add private key to URL if image is private
  if img.IsPrivate = true ∧ img.PrivateKey ≠ "" then
    baseURL ++ "?key=" ++ base64.EncodeToString (bytesOf img.PrivateKey)
  else baseURL

/-- The query of a request target: the text after the first `?`
(`url.ParseRequestURI`). -/
def url.rawQuery (target : String) : String :=
  String.mk ((target.data.dropWhile (fun c => c ≠ '?')).drop 1)

/-- The path of a request target: the text before the first `?`, as written. -/
def url.path (target : String) : String :=
  String.mk (target.data.takeWhile (fun c => c ≠ '?'))

/-- Go `Values.Get`: the first value of the key, "" when there is none. -/
def url.Get (values : List (String × String)) (key : String) : String :=
  (values.lookup key).getD ""

/-! ## `net/http`: cookies on the wire, queries and forms -/

/-- Go `validCookieValueByte` of `net/http`. -/
def validCookieValueByte (c : Char) : Bool :=
  0x20 ≤ c.val && c.val < 0x7f && c ≠ '"' && c ≠ ';' && c ≠ '\\'

/-- Go `sanitizeCookieValue` of `net/http`, the value `http.SetCookie` writes
into the `Set-Cookie` line: the invalid bytes are dropped (every byte of a
character outside ASCII is invalid), and a value with a blank or a comma is put
in double quotes. -/
def sanitizeCookieValue (v : String) : String :=
  if ' ' ∈ v.data.filter validCookieValueByte ∨ ',' ∈ v.data.filter validCookieValueByte then
    String.mk ('"' :: v.data.filter validCookieValueByte ++ ['"'])
  else String.mk (v.data.filter validCookieValueByte)

/-- Go `parseCookieValue` of `net/http` as `(*Request).Cookie` uses it: double
quotes around the value are stripped; `none` for a value with an invalid byte,
whose cookie is skipped. -/
def parseCookieValue (raw : String) : Option String :=
  if raw.data.length > 1 ∧ raw.data.head? = some '"' ∧ raw.data.getLast? = some '"' then
    (if ((raw.data.drop 1).dropLast).all validCookieValueByte then
      some (String.mk ((raw.data.drop 1).dropLast)) else none)
  else if raw.data.all validCookieValueByte then some raw
  else none

/-- The cookies a client sends with its next request after it stored the
cookies of a response that sets each name once, each value returned as it was
received. -/
def returnedCookies (resp : ResponseWriter) : List (String × String) :=
  resp.cookies.filterMap (fun c =>
    (parseCookieValue (sanitizeCookieValue c.Value)).map (fun v => (c.Name, v)))

/-- The request a client sends to get a request target. -/
def getRequest (target : String) : Request :=
  { Method := "GET", Path := url.path target, RawQuery := url.rawQuery target }

/-- Go `r.URL.Query().Get(key)`. -/
def Request.QueryGet (r : Request) (key : String) : String :=
  url.Get (url.ParseQuery r.RawQuery) key

/-- Go `r.FormValue(key)`: the first value of the key, the parameters of the
body before those of the URL query. -/
def Request.FormValue (r : Request) (key : String) : String :=
  url.Get (r.PostForm ++ url.ParseQuery r.RawQuery) key

/-! ## `internal/handlers/handlers.go`: images -/

/-- `Handler.ServeImage` up to the decision to serve the file.  `getImage` is
`h.db.GetImage`, `notFound` is `h.serveStaticFile(w, "404.html")`, and
`serveFile image ext` is the rest of the function, which looks the file up and
writes it. -/
def Handler.ServeImage (getImage : String → Except String (Option Image)) (notFound : Handler)
    (serveFile : Image → String → Handler) : Handler :=
  fun r w =>
    -- Extract UUID and extension from path
    match strings.Split (strings.TrimPrefix r.Path "/") '.' with
    | [uuid, ext] =>
      -- Get image metadata from database
      match getImage uuid with
      | Except.error err =>
        notFound r (w.logCall "ERROR" "Failed to get image"
          [("error", LogValue.str err), ("uuid", LogValue.str uuid)])
      -- Check if image exists
      | Except.ok none => notFound r w
      | Except.ok (some image) =>
        -- Handle private image access
        if image.IsPrivate then
          let key := r.QueryGet "key"
          -- No key provided for private image
          if key = "" then notFound r w
          else
            -- Decode base64 key
            match base64.DecodeString key with
            | none => notFound r w
            | some decodedKey =>
              -- Compare keys
              if decodedKey ≠ bytesOf image.PrivateKey then notFound r w
              else serveFile image ext r w
        else serveFile image ext r w
    | _ => notFound r w

/-- `Handler.Upload` up to the check of the upload key; `store` is the rest of
the function, which reads the file of the form and stores it. -/
def Handler.Upload (cfg : Config) (store : Handler) : Handler :=
  fun r w =>
    if r.Method ≠ "POST" then
      let w1 := w.logCall "WARN" "Invalid method for upload" [("method", LogValue.str r.Method)]
      { w1 with resp := w1.resp.Error "Method not allowed" 405 }
    else
      -- Check upload key from both cookie and form value
      let uploadKeyCookie := r.Cookie "upload_key"
      let formKey := strings.TrimSpace (r.FormValue "key")
      let expectedKey := strings.TrimSpace (strings.Trim cfg.App.UploadKey "\"'")
      -- Validate either cookie or form key matches
      let validCookie : Bool :=
        match uploadKeyCookie with
        | some value => value = expectedKey
        | none => false
      let validFormKey : Bool := formKey = expectedKey
      if !validCookie && !validFormKey then
        let w1 := w.logCall "WARN" "Invalid upload key"
          [("provided_form_key", LogValue.str formKey),
            ("has_cookie", LogValue.bool uploadKeyCookie.isSome),
            ("expected_key", LogValue.str expectedKey)]
        { w1 with resp := w1.resp.Error "Invalid upload key" 401 }
      else store r w

/-! ## Statements and instances for image links and upload keys -/

/-- What `QueryUnescape` does to one character of a text without `%`. -/
def plusToBlank (c : Char) : Char := if c = '+' then ' ' else c

/-- The start of the query of the link of a private image: `key=`. -/
def keyParam : List Char := ['k', 'e', 'y', '=']

/-- A private image whose key is written with a `+` in base64. -/
def tildeImage : Image :=
  { UUID := "Zx81kQ", Extension := "png", IsPrivate := true, PrivateKey := "ab~" }

/-- A private image whose key is written with letters and digits in base64. -/
def plainImage : Image :=
  { UUID := "Zx81kQ", Extension := "png", IsPrivate := true, PrivateKey := "secret" }

/-- An image table that holds one image. -/
def oneImage (image : Image) (uuid : String) : Except String (Option Image) :=
  if uuid = image.UUID then Except.ok (some image) else Except.ok none

/-- The answer that stands for the page 404. -/
def notFoundHandler : Handler :=
  fun _ w => { w with resp := (w.resp.WriteHeader 404).Write (Chunk.text "404.html") }

/-- The answer that stands for the file of the image. -/
def fileHandler (image : Image) (ext : String) : Handler :=
  fun _ w => { w with resp := w.resp.Write (Chunk.text (image.UUID ++ "." ++ ext)) }

/-- A configuration whose upload key is written in single quotes. -/
def quotedKeyConfig : Config := { App := { JWTSecret := "secret", UploadKey := "'abc'" } }

/-- A configuration with a plain upload key. -/
def plainKeyConfig : Config := { App := { JWTSecret := "secret", UploadKey := "abc" } }

/-- The upload request of a client that returns the cookies of a response and
sends no form key. -/
def uploadWithCookies (resp : ResponseWriter) : Request :=
  { Method := "POST", Path := "/api/upload", Cookies := returnedCookies resp }

/-! ## Lemmas on durations -/

/-- A window of 1 to 9223372036 seconds is a positive `time.Duration`. -/
lemma periodDuration_eq (period : Int) (h0 : 0 < period) (h1 : period ≤ 9223372036) :
    periodDuration period = period * 1000000000 := by
  unfold periodDuration wrap64 Second
  have e63 : (2 : Int) ^ 63 = 9223372036854775808 := by norm_num
  have e64 : (2 : Int) ^ 64 = 18446744073709551616 := by norm_num
  rw [e63, e64, Int.emod_eq_of_lt (by omega) (by omega)]
  omega

/-- A whole number of seconds is sent as `EX seconds`. -/
lemma expirationMs_seconds (period : Int) (h0 : 0 < period) :
    expirationMs (period * 1000000000) = (1000 * period).toNat := by
  unfold expirationMs Second Millisecond
  have h1 : ¬ (period * 1000000000 < 1000000000 ∨ period * 1000000000 % 1000000000 ≠ 0) := by
    omega
  rw [if_neg h1]
  congr 1
  omega

/-- The time-to-live `checkRateLimit` asks for is `period` seconds. -/
lemma set_expiration (period : Int) (h0 : 0 < period) (h1 : period ≤ 9223372036) :
    0 < periodDuration period ∧
      expirationMs (periodDuration period) = (1000 * period).toNat := by
  rw [periodDuration_eq period h0 h1]
  exact ⟨by omega, expirationMs_seconds period h0⟩

/-! ## Lemmas on the rate limiter -/

/-- For a window of 1 to 9223372036 seconds the window ends `period` seconds
after it was opened. -/
lemma windowEnd_seconds (period : Int) (t : Nat) (h0 : 0 < period) (h1 : period ≤ 9223372036) :
    windowEnd period t = some (t + (1000 * period).toNat) := by
  obtain ⟨hd, hx⟩ := set_expiration period h0 h1
  simp [windowEnd, hd, hx]

/-- One request on an absent counter is handed on and opens a window. -/
lemma serveAt_absent (rl : RateLimiter) (next : Handler) (r : Request) (N p : Int) (t : Nat)
    (w : World) (hen : rl.config.RateLimit.Enabled = true) (hc : rl.hasClient = true)
    (hrule : rl.getRateConfig r.Path = (N, p))
    (habs : w.redis.live t (rateKey r.Path (getClientIP r)) = none) :
    ∃ w', serveAt rl next r t w = next r w' ∧ w'.resp = {} ∧
      w'.redis = w.redis.put (rateKey r.Path (getClientIP r))
        { value := 1, expireAt := windowEnd p t } := by
  unfold serveAt RateLimiter.RateLimitMiddleware
  by_cases hd : periodDuration p > 0
  · simp [hen, hc, hrule, checkRateLimit, Prog.run, Store.Get, Store.Set, World.fresh,
      World.logCall, habs, hd, windowEnd]
    exact ⟨_, rfl, rfl, rfl⟩
  · simp [hen, hc, hrule, checkRateLimit, Prog.run, Store.Get, Store.Set, World.fresh,
      World.logCall, habs, hd, windowEnd]
    exact ⟨_, rfl, rfl, rfl⟩

/-- One request on a counter below the limit is handed on and counted. -/
lemma serveAt_below (rl : RateLimiter) (next : Handler) (r : Request) (N p : Int) (t : Nat)
    (w : World) (e : Entry) (hen : rl.config.RateLimit.Enabled = true)
    (hc : rl.hasClient = true) (hrule : rl.getRateConfig r.Path = (N, p))
    (hlive : w.redis.live t (rateKey r.Path (getClientIP r)) = some e) (hlt : e.value < N) :
    ∃ w', serveAt rl next r t w = next r w' ∧ w'.resp = {} ∧
      w'.redis = w.redis.put (rateKey r.Path (getClientIP r))
        { value := e.value + 1, expireAt := e.expireAt } := by
  have hn : ¬ N ≤ e.value := by omega
  unfold serveAt RateLimiter.RateLimitMiddleware
  simp [hen, hc, hrule, checkRateLimit, Prog.run, Store.Get, Store.Incr, World.fresh,
    World.logCall, hlive, hn]
  exact ⟨_, rfl, rfl, rfl⟩

/-- One request on a counter at the limit is answered 429 by the limiter. -/
lemma serveAt_reached (rl : RateLimiter) (next : Handler) (r : Request) (N p : Int) (t : Nat)
    (w : World) (e : Entry) (hen : rl.config.RateLimit.Enabled = true)
    (hc : rl.hasClient = true) (hrule : rl.getRateConfig r.Path = (N, p))
    (hlive : w.redis.live t (rateKey r.Path (getClientIP r)) = some e) (hge : N ≤ e.value) :
    (serveAt rl next r t w).resp = ResponseWriter.Error {} "Too many requests" 429 ∧
      (serveAt rl next r t w).redis = w.redis ∧
      ∀ next', serveAt rl next' r t w = serveAt rl next r t w := by
  unfold serveAt RateLimiter.RateLimitMiddleware
  simp [hen, hc, hrule, checkRateLimit, Prog.run, Store.Get, World.fresh,
    World.logCall, hlive, hge]

/-- A key is live before its expiry time, and at all times when it has none. -/
lemma live_of_entry (s : Store) (key : String) (v : Int) (exp : Option Nat) (t : Nat)
    (h : s key = some { value := v, expireAt := exp }) (ht : ∀ E, exp = some E → t < E) :
    s.live t key = some { value := v, expireAt := exp } := by
  cases exp with
  | none => simp [Store.live, h]
  | some E =>
    have : ¬ E < t := by have := ht E rfl; omega
    simp [Store.live, h, this]

/-- A key is absent after its expiry time. -/
lemma live_expired (s : Store) (key : String) (v : Int) (E t : Nat)
    (h : s key = some { value := v, expireAt := some E }) (ht : E < t) :
    s.live t key = none := by
  simp [Store.live, h, ht]

/-- Inside one window the counter of the key is the number of requests served,
capped at the limit. -/
lemma serveSeq_counter (rl : RateLimiter) (next : Handler) (r : Request) (N p : Int)
    (exp : Option Nat)
    (hen : rl.config.RateLimit.Enabled = true) (hc : rl.hasClient = true)
    (hrule : rl.getRateConfig r.Path = (N, p))
    (hnext : ∀ r w, (next r w).redis = w.redis) (ts : List Nat) :
    ∀ (w : World) (k : Nat),
      w.redis (rateKey r.Path (getClientIP r)) =
        some { value := min (k : Int) N, expireAt := exp } →
      (∀ t ∈ ts, ∀ E, exp = some E → t < E) →
      (serveSeq rl next r ts w).redis (rateKey r.Path (getClientIP r)) =
        some { value := min ((k + ts.length : Nat) : Int) N, expireAt := exp } := by
  induction ts with
  | nil => intro w k h _; simpa [serveSeq] using h
  | cons t ts ih =>
    intro w k h hts
    have hl := live_of_entry w.redis _ _ exp t h (hts t (List.mem_cons_self _ _))
    have hstep : (serveAt rl next r t w).redis (rateKey r.Path (getClientIP r)) =
        some { value := min ((k + 1 : Nat) : Int) N, expireAt := exp } := by
      by_cases hk : (k : Int) < N
      · obtain ⟨w', hw, _, hr⟩ := serveAt_below rl next r N p t w _ hen hc hrule hl
          (by simp only; omega)
        rw [hw, hnext, hr]
        simp only [Store.put, if_true]
        congr 2
        push_cast
        omega
      · obtain ⟨_, hr, _⟩ := serveAt_reached rl next r N p t w _ hen hc hrule hl
          (by simp only; omega)
        rw [hr, h]
        congr 2
        push_cast
        omega
    have := ih (serveAt rl next r t w) (k + 1) hstep
      (fun t' ht' => hts t' (List.mem_cons_of_mem _ ht'))
    simp only [serveSeq, List.length_cons]
    rw [this]
    congr 3
    omega

/-! ## Lemmas on responses and tokens -/

/-- `SendError` on a response not yet begun sends the given status. -/
lemma sendError_status (w : ResponseWriter) (message : String) (status : Nat)
    (h : w.status = none) : (SendError w message status).status = some status := by
  simp [SendError, ResponseWriter.Write, ResponseWriter.WriteHeader, ResponseWriter.HeaderSet, h]

/-- `GenerateTokenPair` does not write to the response. -/
lemma generateTokenPair_resp (jwt : JwtLib) (username secret : String) (w : World) :
    (GenerateTokenPair jwt username secret w).2.resp = w.resp := by
  unfold GenerateTokenPair
  dsimp only
  split
  · rfl
  · split <;> rfl

/-- The path `/api/list` is protected. -/
lemma protectedPath_list : protectedPath "/api/list" := by
  unfold protectedPath
  decide

/-- The two cases of `CSRFMiddleware`: pass, or the 403 answer. -/
lemma csrf_cases (next : Handler) (r : Request) (w : World) :
    (csrfPasses r → CSRFMiddleware next r w = next r w) ∧
    (¬ csrfPasses r →
      (∃ message, CSRFMiddleware next r w = { w with resp := SendForbidden w.resp message }) ∧
      (w.resp.status = none → (CSRFMiddleware next r w).resp.status = some 403)) := by
  unfold csrfPasses
  constructor
  · intro h
    unfold CSRFMiddleware
    rcases h with h | h | h | h | h | ⟨h1, value, h2, h3, h4⟩
    · simp [h]
    · simp [h]
    · simp [h]
    · simp [h]
    · simp [h]
    · by_cases hm : r.Method = "GET" ∨ r.Method = "HEAD" ∨ r.Method = "OPTIONS"
      · simp [hm]
      · by_cases hq : r.Path = "/api/login" ∨ r.Path = "/api/upload"
        · simp [hm, hq]
        · rw [if_neg hm, if_neg hq]
          simp only [h2, if_neg h1, if_neg h3]
          simp [h4]
  · intro h
    simp only [not_or, not_and, not_exists] at h
    obtain ⟨hG, hH, hO, hL, hU, hT⟩ := h
    have hm : ¬ (r.Method = "GET" ∨ r.Method = "HEAD" ∨ r.Method = "OPTIONS") := by
      simp [hG, hH, hO]
    have hq : ¬ (r.Path = "/api/login" ∨ r.Path = "/api/upload") := by simp [hL, hU]
    have key : ∃ message,
        CSRFMiddleware next r w = { w with resp := SendForbidden w.resp message } := by
      unfold CSRFMiddleware
      rw [if_neg hm, if_neg hq]
      by_cases ht : r.HeaderGet "X-CSRF-Token" = ""
      · exact ⟨"Missing CSRF token", by simp [ht]⟩
      · simp only [if_neg ht]
        cases hc : r.Cookie "csrf_token" with
        | none => exact ⟨"Invalid CSRF token", rfl⟩
        | some value =>
          by_cases hv : value = ""
          · exact ⟨"Invalid CSRF token", by simp [hv]⟩
          · have hne : r.HeaderGet "X-CSRF-Token" ≠ value :=
              fun heq => hT ht value hc hv heq.symm
            exact ⟨"Invalid CSRF token", by simp [hv, hne]⟩
    refine ⟨key, fun hs => ?_⟩
    obtain ⟨message, hmsg⟩ := key
    rw [hmsg]
    exact sendError_status _ _ _ hs


/-! ## Lemmas on tokens -/

/-- `toyUncode` inverts `toyCode`. -/
lemma toyUncode_toyCode (m : SigningMethod) (c : Claims) (sig : Bytes) :
    toyUncode (toyCode m c sig) = (m, c, sig) := by
  have hc : ∀ l : List Char, (l.map Char.toNat).map Char.ofNat = l := by
    intro l
    induction l with
    | nil => rfl
    | cons a l ih => simp [ih]
  cases m <;> simp [toyUncode, toyCode, hc]

/-- `toyRead` reads back what `toyWrite` wrote. -/
lemma toyRead_toyWrite (m : SigningMethod) (c : Claims) (sig : Bytes) :
    toyRead (toyWrite m c sig) = some (m, c, [], sig) := by
  unfold toyRead toyWrite
  simp only [List.length_replicate]
  rw [Encodable.encodek]
  simp [toyUncode_toyCode]

/-- The primitives `toyPrims` round-trip. -/
lemma toyPrims_roundTrip : toyPrims.RoundTrip := by
  unfold JwtPrims.RoundTrip
  intro c sig
  simp only [toyPrims]
  exact toyRead_toyWrite _ _ _

/-- Signing with HS256 over `golangJwt p` writes `signedHS256`. -/
lemma signedString_HS256 (p : JwtPrims) (c : Claims) (key : String) :
    (golangJwt p).SignedString (SigningMethod.HMAC "HS256") c key =
      Except.ok (signedHS256 p c key) := rfl

/-- The pair `GenerateTokenPair` returns over `golangJwt p`. -/
lemma generateTokenPair_golang (p : JwtPrims) (username secret : String) (w : World) :
    GenerateTokenPair (golangJwt p) username secret w =
      (Except.ok
        (signedHS256 p
          { Username := username, TokenType := AccessToken,
            ExpiresAt := some ((w.clock w.reads + 15 * Minute) / Second),
            IssuedAt := some (w.clock (w.reads + 1) / Second) } secret,
         signedHS256 p
          { Username := username, TokenType := RefreshToken,
            ExpiresAt := some ((w.clock (w.reads + 2) + 7 * 24 * Hour) / Second),
            IssuedAt := some (w.clock (w.reads + 3) / Second) } secret),
       { w with reads := w.reads + 4 }) := by
  simp [GenerateTokenPair, signedString_HS256, World.timeNow, NewNumericDate]

/-- A token signed with HS256 under a key with the same HMAC key block as the
secret validates under the secret while its claims are valid. -/
lemma validateToken_signed (p : JwtPrims) (hrt : p.RoundTrip) (c : Claims)
    (key secret : String) (now : Int)
    (hkey : hmacKeyBlock (p.hash "HS256") (hmacBlockSize "HS256") (bytesOf key) =
      hmacKeyBlock (p.hash "HS256") (hmacBlockSize "HS256") (bytesOf secret))
    (hvalid : claimsError c now = none) :
    ValidateToken (golangJwt p) now (signedHS256 p c key) secret = Except.ok c := by
  have hd := hrt c (hmacSum (p.hash "HS256") (hmacBlockSize "HS256") (bytesOf key)
      (p.signingInput SigningMethodHS256 c))
  have hmac : hmacSum (p.hash "HS256") (hmacBlockSize "HS256") (bytesOf key)
        (p.signingInput (SigningMethod.HMAC "HS256") c) =
      hmacSum (p.hash "HS256") (hmacBlockSize "HS256") (bytesOf secret)
        (p.signingInput (SigningMethod.HMAC "HS256") c) := by
    unfold hmacSum
    rw [hkey]
  simp only [SigningMethodHS256] at hd
  rw [hmac] at hd
  simp [ValidateToken, golangJwt, signedHS256, SigningMethodHS256, hd, hmac, hvalid]

/-- Claims with an expiry after `now` and no `nbf` are valid at `now`. -/
lemma claimsError_none (c : Claims) (now e : Int) (he : c.ExpiresAt = some e)
    (hn : c.NotBefore = none) (hnow : now < e * Second) : claimsError c now = none := by
  simp [claimsError, he, hn, hnow]

/-- A key shorter than the block and the same key followed by a zero byte have
the same HMAC key block. -/
lemma hmacKeyBlock_zero (hash : Bytes → Bytes) (blockSize : Nat) (key : Bytes)
    (h : key.length < blockSize) :
    hmacKeyBlock hash blockSize (key ++ [0]) = hmacKeyBlock hash blockSize key := by
  have h1 : ¬ (key ++ [0]).length > blockSize := by simp; omega
  have h2 : ¬ key.length > blockSize := by omega
  unfold hmacKeyBlock
  rw [if_neg h1, if_neg h2]
  have e : (key ++ [0]) ++ List.replicate blockSize (0 : Nat) =
      (key ++ List.replicate blockSize 0) ++ [0] := by
    rw [List.append_assoc, List.append_assoc]
    congr 1
    rw [← List.replicate_succ']
    rfl
  rw [e, List.take_append_of_le_length (by simp)]

/-- The bytes of "secret" followed by a NUL character. -/
lemma bytesOf_padded : bytesOf "secret\x00" = bytesOf "secret" ++ [0] := by decide

/-- Splitting at a separator that occurs in neither left part is unique. -/
lemma append_sep_inj (sep : Char) (l1 l2 m1 m2 : List Char)
    (h1 : sep ∉ l1) (h2 : sep ∉ l2) (h : l1 ++ sep :: m1 = l2 ++ sep :: m2) :
    l1 = l2 ∧ m1 = m2 := by
  induction l1 generalizing l2 with
  | nil =>
    cases l2 with
    | nil => simpa using h
    | cons b l2 =>
      simp only [List.nil_append, List.cons_append, List.cons.injEq] at h
      exact absurd (h.1 ▸ List.mem_cons_self _ _) h2
  | cons a l1 ih =>
    cases l2 with
    | nil =>
      simp only [List.nil_append, List.cons_append, List.cons.injEq] at h
      exact absurd (h.1 ▸ List.mem_cons_self _ _) h1
    | cons b l2 =>
      simp only [List.cons_append, List.cons.injEq] at h
      obtain ⟨hab, ht⟩ := h
      have := ih l2 (fun hm => h1 (List.mem_cons_of_mem _ hm))
        (fun hm => h2 (List.mem_cons_of_mem _ hm)) ht
      exact ⟨by rw [hab, this.1], this.2⟩

/-- The characters of a rate-limit key. -/
lemma rateKey_data (route clientIP : String) :
    (rateKey route clientIP).data = "rate_limit:".data ++ (route.data ++ ':' :: clientIP.data) := by
  simp [rateKey, String.data_append]

/-- Cookies are not touched by `HeaderSet`. -/
@[simp] lemma cookies_HeaderSet (w : ResponseWriter) (k v : String) :
    (w.HeaderSet k v).cookies = w.cookies := by
  unfold ResponseWriter.HeaderSet; split <;> rfl

/-- Cookies are not touched by `HeaderDel`. -/
@[simp] lemma cookies_HeaderDel (w : ResponseWriter) (k : String) :
    (w.HeaderDel k).cookies = w.cookies := by
  unfold ResponseWriter.HeaderDel; split <;> rfl

/-- Cookies are not touched by `WriteHeader`. -/
@[simp] lemma cookies_WriteHeader (w : ResponseWriter) (code : Nat) :
    (w.WriteHeader code).cookies = w.cookies := rfl

/-- Cookies are not touched by `Write`. -/
@[simp] lemma cookies_Write (w : ResponseWriter) (b : Chunk) :
    (w.Write b).cookies = w.cookies := rfl

/-- Cookies are not touched by `http.Error`. -/
@[simp] lemma cookies_Error (w : ResponseWriter) (error : String) (code : Nat) :
    (w.Error error code).cookies = w.cookies := by
  simp [ResponseWriter.Error]

/-- Cookies are not touched by `SendError`. -/
@[simp] lemma cookies_SendError (w : ResponseWriter) (message : String) (status : Nat) :
    (SendError w message status).cookies = w.cookies := by
  simp [SendError]

/-- The status is not touched by `SetCookie`. -/
@[simp] lemma status_SetCookie (w : ResponseWriter) (c : Cookie) :
    (w.SetCookie c).status = w.status := by
  unfold ResponseWriter.SetCookie; split <;> rfl

/-- On a response not yet begun `SetCookie` appends the cookie. -/
lemma cookies_SetCookie (w : ResponseWriter) (c : Cookie) (h : w.status = none) :
    (w.SetCookie c).cookies = w.cookies ++ [c] := by
  simp [ResponseWriter.SetCookie, h]

/-- Every cookie after `SetCookie c` is an old one or `c`. -/
lemma mem_cookies_SetCookie (w : ResponseWriter) (c d : Cookie)
    (h : d ∈ (w.SetCookie c).cookies) : d ∈ w.cookies ∨ d = c := by
  unfold ResponseWriter.SetCookie at h
  split at h
  · exact Or.inl h
  · simpa using h

/-- A response whose cookies are the old ones satisfies `newCookiesSecure`. -/
lemma newCookiesSecure_of_eq (secure : Bool) (old : List Cookie) (w : ResponseWriter)
    (h : w.cookies = old) : newCookiesSecure secure old w := by
  intro c hc
  rw [h] at hc
  exact Or.inl hc

/-- `SetCookie` of a cookie with the flag keeps `newCookiesSecure`. -/
lemma newCookiesSecure_SetCookie (secure : Bool) (old : List Cookie) (w : ResponseWriter)
    (c : Cookie) (hw : newCookiesSecure secure old w) (hc : c.Secure = secure) :
    newCookiesSecure secure old (w.SetCookie c) := by
  intro d hd
  rcases mem_cookies_SetCookie w c d hd with h | h
  · exact hw d h
  · exact Or.inr (h ▸ hc)

/-- `SetTokenCookies` keeps `newCookiesSecure`. -/
lemma newCookiesSecure_SetTokenCookies (secure : Bool) (old : List Cookie)
    (w : ResponseWriter) (a b : String) (hw : newCookiesSecure secure old w) :
    newCookiesSecure secure old (SetTokenCookies w a b secure) := by
  unfold SetTokenCookies
  exact newCookiesSecure_SetCookie _ _ _ _ (newCookiesSecure_SetCookie _ _ _ _ hw rfl) rfl

/-- `newCookiesSecure` depends on the cookies only. -/
lemma newCookiesSecure_congr (secure : Bool) (old : List Cookie) (w w2 : ResponseWriter)
    (h : w2.cookies = w.cookies) (hw : newCookiesSecure secure old w) :
    newCookiesSecure secure old w2 := by
  intro c hc
  rw [h] at hc
  exact hw c hc

/-- The cookies `RefreshToken` sets carry the production flag. -/
lemma refreshToken_secure (jwt : JwtLib) (cfg : Config) (r : Request) (x : World) :
    newCookiesSecure (decide (cfg.App.Environment = "production")) x.resp.cookies
      (Handler.RefreshToken jwt cfg r x).resp := by
  unfold Handler.RefreshToken
  dsimp only
  split
  · exact newCookiesSecure_of_eq _ _ _ (by simp)
  · split
    · exact newCookiesSecure_of_eq _ _ _ (by simp)
    · split
      · exact newCookiesSecure_of_eq _ _ _ (by simp [World.timeNow])
      · split
        · exact newCookiesSecure_of_eq _ _ _ (by simp [World.timeNow])
        · split
          · rename_i w1 heq
            have hr : w1.resp = x.timeNow.2.resp := by
              simpa [generateTokenPair_resp] using (congrArg (fun q => q.2.resp) heq).symm
            exact newCookiesSecure_of_eq _ _ _ (by simp [hr, World.timeNow])
          · rename_i a b w1 heq
            have hr : w1.resp = x.timeNow.2.resp := by
              simpa [generateTokenPair_resp] using (congrArg (fun q => q.2.resp) heq).symm
            apply newCookiesSecure_congr _ _
              ((SetTokenCookies w1.resp a b (decide (cfg.App.Environment = "production"))).SetCookie
                (csrfCookie (GenerateCSRFToken w1).1 (decide (cfg.App.Environment = "production"))))
            · simp
            · apply newCookiesSecure_SetCookie _ _ _ _ _ rfl
              apply newCookiesSecure_SetTokenCookies
              exact newCookiesSecure_of_eq _ _ _ (by rw [hr]; rfl)

/-- The cookies `VerifyToken` sets carry the production flag. -/
lemma verifyToken_secure (jwt : JwtLib) (cfg : Config) (r : Request) (x : World) :
    newCookiesSecure (decide (cfg.App.Environment = "production")) x.resp.cookies
      (Handler.VerifyToken jwt cfg r x).resp := by
  unfold Handler.VerifyToken
  dsimp only
  split
  · exact newCookiesSecure_of_eq _ _ _ (by simp)
  · split
    · exact newCookiesSecure_of_eq _ _ _ (by simp)
    · split
      · split
        · split
          · exact newCookiesSecure_of_eq _ _ _ (by simp [World.timeNow])
          · split
            · exact newCookiesSecure_of_eq _ _ _ (by simp [World.timeNow])
            · split
              · rename_i w2 heq
                have hr : w2.resp = x.timeNow.2.timeNow.2.resp := by
                  simpa [generateTokenPair_resp] using (congrArg (fun q => q.2.resp) heq).symm
                exact newCookiesSecure_of_eq _ _ _ (by simp [hr, World.timeNow])
              · rename_i a b w2 heq
                have hr : w2.resp = x.timeNow.2.timeNow.2.resp := by
                  simpa [generateTokenPair_resp] using (congrArg (fun q => q.2.resp) heq).symm
                apply newCookiesSecure_congr _ _
                  (SetTokenCookies w2.resp a b (decide (cfg.App.Environment = "production")))
                · simp
                · apply newCookiesSecure_SetTokenCookies
                  exact newCookiesSecure_of_eq _ _ _ (by rw [hr]; rfl)
        · exact newCookiesSecure_of_eq _ _ _ (by simp [World.timeNow])
      · split
        · exact newCookiesSecure_of_eq _ _ _ (by simp [World.timeNow])
        · exact newCookiesSecure_of_eq _ _ _ (by simp [World.timeNow])

/-- The cookies `AuthMiddleware` has set when it hands over carry the
production flag. -/
lemma authMiddleware_secure (jwt : JwtLib) (cfg : Config) (r : Request) (x : World) :
    newCookiesSecure (decide (cfg.App.Environment = "production")) x.resp.cookies
      (AuthMiddleware jwt cfg (fun _ w => w) r x).resp := by
  unfold AuthMiddleware
  dsimp only
  split
  · exact newCookiesSecure_of_eq _ _ _ rfl
  · split
    · exact newCookiesSecure_of_eq _ _ _ rfl
    · split
      · exact newCookiesSecure_of_eq _ _ _ (by simp [SendUnauthorized])
      · split
        · split
          · exact newCookiesSecure_of_eq _ _ _ (by simp [SendUnauthorized, World.timeNow])
          · split
            · exact newCookiesSecure_of_eq _ _ _ (by simp [SendUnauthorized, World.timeNow])
            · split
              · exact newCookiesSecure_of_eq _ _ _ (by simp [SendUnauthorized, World.timeNow])
              · split
                · rename_i w2 heq
                  have hr : w2.resp = x.timeNow.2.timeNow.2.resp := by
                    simpa [generateTokenPair_resp] using (congrArg (fun q => q.2.resp) heq).symm
                  exact newCookiesSecure_of_eq _ _ _
                    (by simp [SendInternalError, hr, World.timeNow])
                · rename_i a b w2 heq
                  have hr : w2.resp = x.timeNow.2.timeNow.2.resp := by
                    simpa [generateTokenPair_resp] using (congrArg (fun q => q.2.resp) heq).symm
                  apply newCookiesSecure_SetTokenCookies
                  exact newCookiesSecure_of_eq _ _ _ (by rw [hr]; rfl)
        · split
          · exact newCookiesSecure_of_eq _ _ _ (by simp [SendUnauthorized, World.timeNow])
          · exact newCookiesSecure_of_eq _ _ _ (by simp [World.timeNow])

/-- The cookies `Login` sets carry the production flag. -/
lemma login_secure (jwt : JwtLib) (decode : String → Except String LoginRequest)
    (cfg : Config) (r : Request) (x : World) :
    newCookiesSecure (decide (cfg.App.Environment = "production")) x.resp.cookies
      (Handler.Login jwt decode cfg r x).resp := by
  unfold Handler.Login
  dsimp only
  split
  · exact newCookiesSecure_of_eq _ _ _ (by simp [World.logCall])
  · split
    · exact newCookiesSecure_of_eq _ _ _ (by simp [World.logCall])
    · split
      · exact newCookiesSecure_of_eq _ _ _ (by simp [World.logCall])
      · split
        · exact newCookiesSecure_of_eq _ _ _ (by simp [World.logCall])
        · split
          · rename_i w1 heq
            have hr : w1.resp = x.resp := by
              simpa [generateTokenPair_resp] using (congrArg (fun q => q.2.resp) heq).symm
            exact newCookiesSecure_of_eq _ _ _ (by simp [hr, World.logCall])
          · rename_i a b w1 heq
            have hr : w1.resp = x.resp := by
              simpa [generateTokenPair_resp] using (congrArg (fun q => q.2.resp) heq).symm
            apply newCookiesSecure_congr _ _
              (((SetTokenCookies w1.resp a b
                  (decide (cfg.App.Environment = "production"))).SetCookie
                (csrfCookie (GenerateCSRFToken w1).1
                  (decide (cfg.App.Environment = "production")))).SetCookie
                { Name := "upload_key", Value := cfg.App.UploadKey, Path := "/",
                  HttpOnly := true, Secure := decide (cfg.App.Environment = "production"),
                  SameSite := SameSite.StrictMode, MaxAge := 86400 })
            · simp [World.logCall]
            · apply newCookiesSecure_SetCookie _ _ _ _ _ rfl
              apply newCookiesSecure_SetCookie _ _ _ _ _ rfl
              apply newCookiesSecure_SetTokenCookies
              exact newCookiesSecure_of_eq _ _ _ (by rw [hr])

/-- The status is not touched by `HeaderSet`. -/
@[simp] lemma status_HeaderSet (w : ResponseWriter) (k v : String) :
    (w.HeaderSet k v).status = w.status := by
  unfold ResponseWriter.HeaderSet; split <;> rfl

/-- The status is not touched by `HeaderDel`. -/
@[simp] lemma status_HeaderDel (w : ResponseWriter) (k : String) :
    (w.HeaderDel k).status = w.status := by
  unfold ResponseWriter.HeaderDel; split <;> rfl

/-- `http.Error` on a response not yet begun sends the given status. -/
lemma status_Error (w : ResponseWriter) (error : String) (code : Nat) (h : w.status = none) :
    (w.Error error code).status = some code := by
  simp [ResponseWriter.Error, ResponseWriter.Write, ResponseWriter.WriteHeader, h]

/-- The primitives `toyPrims` read back every token they wrote. -/
lemma toyPrims_deserialize (m : SigningMethod) (c : Claims) (sig : Bytes) :
    toyPrims.deserialize (toyPrims.serialize m c sig) =
      some (m, c, toyPrims.signingInput m c, sig) := by
  simp only [toyPrims]
  exact toyRead_toyWrite _ _ _

/-- Running a program is executing its next command and running the rest. -/
lemma run_step {α : Type} (p : Prog α) (w : World) :
    p.run w = (p.step w).1.run (p.step w).2 := by
  cases p <;> rfl

/-- A check is finished after two commands: the state after two steps is the
state after the run, and the program left is the result. -/
lemma check_two_steps (key : String) (N p : Int) (w : World) :
    (((checkRateLimit key N p).step w).1.step ((checkRateLimit key N p).step w).2).1 =
        Prog.ret ((checkRateLimit key N p).run w).1 ∧
      (((checkRateLimit key N p).step w).1.step ((checkRateLimit key N p).step w).2).2 =
        ((checkRateLimit key N p).run w).2 := by
  unfold checkRateLimit
  simp only [Prog.step, Prog.run]
  cases hg : w.redis.Get (w.env w.calls) key with
  | err e => exact ⟨rfl, rfl⟩
  | nil =>
    simp only [Prog.step, Prog.run]
    cases hs : (w.redis.Set (w.env (w.calls + 1)) key 1 (periodDuration p)).1 with
    | none => exact ⟨rfl, rfl⟩
    | some e => exact ⟨rfl, rfl⟩
  | val count =>
    simp only
    by_cases hc : count ≥ N
    · simp only [hc, if_true, Prog.step, Prog.run]
      exact ⟨trivial, trivial⟩
    · simp only [hc, if_false, Prog.step, Prog.run]
      cases hs : (w.redis.Incr (w.env (w.calls + 1)) key).1 with
      | none => exact ⟨rfl, rfl⟩
      | some e => exact ⟨rfl, rfl⟩

/-- The schedule that lets the first check finish before the second starts is
the sequential run of the two checks. -/
lemma interleave_sequential (key : String) (N1 p1 N2 p2 : Int) (w : World) :
    interleave [true, true, false, false] (checkRateLimit key N1 p1)
        (checkRateLimit key N2 p2) w =
      ((Prog.ret ((checkRateLimit key N1 p1).run w).1,
        Prog.ret ((checkRateLimit key N2 p2).run ((checkRateLimit key N1 p1).run w).2).1),
       ((checkRateLimit key N2 p2).run ((checkRateLimit key N1 p1).run w).2).2) := by
  obtain ⟨h1, h2⟩ := check_two_steps key N1 p1 w
  obtain ⟨h3, h4⟩ := check_two_steps key N2 p2 ((checkRateLimit key N1 p1).run w).2
  simp only [interleave, h1, h2, h3, h4]

/-- Inside one window, after the first request, the counter of the key is the
number of requests served, capped at `max N 1`. -/
lemma serveSeq_counter_max (rl : RateLimiter) (next : Handler) (r : Request) (N p : Int)
    (exp : Option Nat)
    (hen : rl.config.RateLimit.Enabled = true) (hc : rl.hasClient = true)
    (hrule : rl.getRateConfig r.Path = (N, p))
    (hnext : ∀ r w, (next r w).redis = w.redis) (ts : List Nat) :
    ∀ (w : World) (k : Nat), 1 ≤ k →
      w.redis (rateKey r.Path (getClientIP r)) =
        some { value := min (k : Int) (max N 1), expireAt := exp } →
      (∀ t ∈ ts, ∀ E, exp = some E → t < E) →
      (serveSeq rl next r ts w).redis (rateKey r.Path (getClientIP r)) =
        some { value := min ((k + ts.length : Nat) : Int) (max N 1), expireAt := exp } := by
  induction ts with
  | nil => intro w k _ h _; simpa [serveSeq] using h
  | cons t ts ih =>
    intro w k hk1 h hts
    have hl := live_of_entry w.redis _ _ exp t h (hts t (List.mem_cons_self _ _))
    have hstep : (serveAt rl next r t w).redis (rateKey r.Path (getClientIP r)) =
        some { value := min ((k + 1 : Nat) : Int) (max N 1), expireAt := exp } := by
      by_cases hk : (k : Int) < N
      · obtain ⟨w', hw, _, hr⟩ := serveAt_below rl next r N p t w _ hen hc hrule hl
          (by simp only; omega)
        rw [hw, hnext, hr]
        simp only [Store.put, if_true]
        congr 2
        push_cast
        omega
      · obtain ⟨_, hr, _⟩ := serveAt_reached rl next r N p t w _ hen hc hrule hl
          (by simp only; omega)
        rw [hr, h]
        congr 2
        push_cast
        omega
    have := ih (serveAt rl next r t w) (k + 1) (by omega) hstep
      (fun t' ht' => hts t' (List.mem_cons_of_mem _ ht'))
    simp only [serveSeq, List.length_cons]
    rw [this]
    congr 3
    omega

/-- An integer rounds to itself. -/
lemma roundHalfEven_int (k : Int) : roundHalfEven (k : ℚ) = k := by
  simp [roundHalfEven]

/-- The rounded value lies between the floor and the floor plus one. -/
lemma roundHalfEven_floor (m : ℚ) : ⌊m⌋ ≤ roundHalfEven m ∧ roundHalfEven m ≤ ⌊m⌋ + 1 := by
  unfold roundHalfEven
  split_ifs <;> constructor <;> omega

/-- Rounding moves a number by at most one half. -/
lemma roundHalfEven_near (m : ℚ) :
    (roundHalfEven m : ℚ) ≤ m + 1 / 2 ∧ m - 1 / 2 ≤ (roundHalfEven m : ℚ) := by
  have h1 := Int.floor_le m
  have h2 := Int.lt_floor_add_one m
  unfold roundHalfEven
  split_ifs with a b c
  · constructor <;> linarith
  · constructor <;> push_cast <;> linarith
  · constructor <;> linarith
  · constructor <;> push_cast <;> linarith

/-- Rounding is monotone against integers: below. -/
lemma roundHalfEven_ge (m : ℚ) (k : Int) (h : (k : ℚ) ≤ m) : k ≤ roundHalfEven m := by
  have := (roundHalfEven_floor m).1
  have : k ≤ ⌊m⌋ := Int.le_floor.mpr h
  omega

/-- Rounding is monotone against integers: above. -/
lemma roundHalfEven_le (m : ℚ) (k : Int) (h : m ≤ (k : ℚ)) : roundHalfEven m ≤ k := by
  rcases eq_or_lt_of_le h with h | h
  · rw [h, roundHalfEven_int]
  · have h2 := (roundHalfEven_floor m).2
    have : ⌊m⌋ < k := Int.floor_lt.mpr h
    omega

/-- `roundPositive` in terms of `roundedValue`. -/
lemma roundPositive_eq (q : ℚ) :
    roundPositive q =
      if 2 ^ 1024 ≤ roundedValue q then Float64.inf false else Float64.finite (roundedValue q) :=
  rfl

/-- Below `2^1024 - 2^970` the rounded value is below `2^1024`. -/
lemma roundedValue_lt (q : ℚ) (hq : 0 < q) (hlt : q < 2 ^ 1024 - 2 ^ 970) :
    roundedValue q < 2 ^ 1024 := by
  have h2 : (1 : ℕ) < 2 := by norm_num
  have hL2 := Int.lt_zpow_succ_log_self h2 q
  simp only [Nat.cast_ofNat] at hL2
  have hL : Int.log 2 q < 1024 := by
    apply (Int.lt_zpow_iff_log_lt h2 hq).mp
    simp only [Nat.cast_ofNat]
    have : (2 : ℚ) ^ (1024 : ℤ) = 2 ^ 1024 := zpow_ofNat 2 1024
    rw [this]
    linarith [show (0 : ℚ) < 2 ^ 970 by positivity]
  unfold roundedValue
  generalize Int.log 2 q = L at *
  have hulp : (0 : ℚ) < 2 ^ (max L (-1022) - 52) := by positivity
  by_cases h1023 : L = 1023
  · subst h1023
    have he : max (1023 : ℤ) (-1022) - 52 = 971 := by norm_num
    rw [he]
    have hp : (2 : ℚ) ^ (971 : ℤ) = 2 ^ 971 := zpow_ofNat 2 971
    rw [hp]
    have hm : q / 2 ^ 971 + 1 / 2 < (2 ^ 53 : ℚ) := by
      rw [div_add' _ _ _ (by positivity), div_lt_iff₀ (by positivity)]
      have : (2 : ℚ) ^ 1024 - 2 ^ 970 = (2 ^ 53 - 1 / 2) * 2 ^ 971 := by norm_num
      rw [this] at hlt
      linarith
    have hR : (roundHalfEven (q / 2 ^ 971) : ℚ) < 2 ^ 53 :=
      lt_of_le_of_lt (roundHalfEven_near _).1 hm
    have hR2 : roundHalfEven (q / 2 ^ 971) ≤ 2 ^ 53 - 1 := by
      have : roundHalfEven (q / 2 ^ 971) < 2 ^ 53 := by exact_mod_cast hR
      omega
    have hR3 : (roundHalfEven (q / 2 ^ 971) : ℚ) ≤ 2 ^ 53 - 1 := by exact_mod_cast hR2
    calc (roundHalfEven (q / 2 ^ 971) : ℚ) * 2 ^ 971 ≤ (2 ^ 53 - 1) * 2 ^ 971 :=
          mul_le_mul_of_nonneg_right hR3 (by positivity)
      _ < 2 ^ 1024 := by norm_num
  · have he : max L (-1022) ≤ 1022 := by omega
    have hLe : L ≤ max L (-1022) := le_max_left _ _
    generalize max L (-1022) = e at *
    have hq2 : q < 2 ^ 53 * 2 ^ (e - 52) := by
      have : (2 : ℚ) ^ (53 : ℕ) * 2 ^ (e - 52) = 2 ^ (e + 1) := by
        rw [← zpow_natCast, ← zpow_add₀ (by norm_num)]
        congr 1
        push_cast
        ring
      rw [this]
      exact lt_of_lt_of_le hL2 (zpow_le_zpow_right₀ (by norm_num) (by omega))
    have hm : q / 2 ^ (e - 52) ≤ ((2 ^ 53 : ℤ) : ℚ) := by
      rw [div_le_iff₀ hulp]
      push_cast
      exact le_of_lt hq2
    have hR := roundHalfEven_le _ _ hm
    have hR3 : (roundHalfEven (q / 2 ^ (e - 52)) : ℚ) ≤ 2 ^ 53 := by exact_mod_cast hR
    calc (roundHalfEven (q / 2 ^ (e - 52)) : ℚ) * 2 ^ (e - 52) ≤ 2 ^ 53 * 2 ^ (e - 52) :=
          mul_le_mul_of_nonneg_right hR3 (le_of_lt hulp)
      _ = 2 ^ (e + 1) := by
        rw [← zpow_natCast, ← zpow_add₀ (by norm_num)]
        congr 1
        push_cast
        ring
      _ ≤ 2 ^ (1023 : ℤ) := zpow_le_zpow_right₀ (by norm_num) (by omega)
      _ < 2 ^ 1024 := by norm_num

/-- From `2^1024 - 2^970` on the rounded value is at least `2^1024`. -/
lemma roundedValue_ge (q : ℚ) (hq : 0 < q) (hge : 2 ^ 1024 - 2 ^ 970 ≤ q) :
    2 ^ 1024 ≤ roundedValue q := by
  have h2 : (1 : ℕ) < 2 := by norm_num
  have hL1 := Int.zpow_log_le_self h2 hq
  simp only [Nat.cast_ofNat] at hL1
  have hL2 := Int.lt_zpow_succ_log_self h2 q
  simp only [Nat.cast_ofNat] at hL2
  have hL : 1023 ≤ Int.log 2 q := by
    apply (Int.zpow_le_iff_le_log h2 hq).mp
    simp only [Nat.cast_ofNat]
    have : (2 : ℚ) ^ (1023 : ℤ) = 2 ^ 1023 := zpow_ofNat 2 1023
    rw [this]
    have : (2 : ℚ) ^ 1024 - 2 ^ 970 = 2 ^ 1023 + (2 ^ 53 - 1) * 2 ^ 970 := by norm_num
    rw [this] at hge
    have : (0 : ℚ) ≤ (2 ^ 53 - 1) * 2 ^ 970 := by positivity
    linarith
  unfold roundedValue
  generalize Int.log 2 q = L at *
  have he : max L (-1022) = L := max_eq_left (by omega)
  rw [he]
  have hulp : (0 : ℚ) < 2 ^ (L - 52) := by positivity
  by_cases h1023 : L = 1023
  · subst h1023
    have he : (1023 : ℤ) - 52 = 971 := by norm_num
    rw [he]
    have hp : (2 : ℚ) ^ (971 : ℤ) = 2 ^ 971 := zpow_ofNat 2 971
    rw [hp]
    have hm : (2 ^ 53 : ℚ) - 1 / 2 ≤ q / 2 ^ 971 := by
      rw [le_div_iff₀ (by positivity)]
      have : (2 : ℚ) ^ 1024 - 2 ^ 970 = (2 ^ 53 - 1 / 2) * 2 ^ 971 := by norm_num
      rw [this] at hge
      exact hge
    have hR : (2 ^ 53 : ℤ) ≤ roundHalfEven (q / 2 ^ 971) := by
      by_cases hbig : (2 ^ 53 : ℚ) ≤ q / 2 ^ 971
      · exact roundHalfEven_ge _ _ (by exact_mod_cast hbig)
      · push_neg at hbig
        have hfl : ⌊q / 2 ^ 971⌋ = 2 ^ 53 - 1 := by
          rw [Int.floor_eq_iff]
          constructor
          · push_cast
            linarith
          · push_cast
            linarith
        unfold roundHalfEven
        rw [hfl]
        have hfr : ¬ (q / 2 ^ 971 - ((2 ^ 53 - 1 : ℤ) : ℚ) < 1 / 2) := by
          push_cast
          linarith
        rw [if_neg hfr]
        split_ifs with a b
        · omega
        · omega
        · omega
    have hR3 : (2 ^ 53 : ℚ) ≤ (roundHalfEven (q / 2 ^ 971) : ℚ) := by exact_mod_cast hR
    calc (2 : ℚ) ^ 1024 = 2 ^ 53 * 2 ^ 971 := by norm_num
      _ ≤ (roundHalfEven (q / 2 ^ 971) : ℚ) * 2 ^ 971 :=
          mul_le_mul_of_nonneg_right hR3 (by positivity)
  · have hm : ((2 ^ 52 : ℤ) : ℚ) ≤ q / 2 ^ (L - 52) := by
      rw [le_div_iff₀ hulp]
      have hc : ((2 ^ 52 : ℤ) : ℚ) = (2 : ℚ) ^ (52 : ℕ) := by norm_num
      have : (2 : ℚ) ^ (52 : ℕ) * 2 ^ (L - 52) = 2 ^ L := by
        rw [← zpow_natCast, ← zpow_add₀ (by norm_num)]
        congr 1
        push_cast
        ring
      rw [hc, this]
      exact hL1
    have hR := roundHalfEven_ge _ _ hm
    have hR3 : (2 ^ 52 : ℚ) ≤ (roundHalfEven (q / 2 ^ (L - 52)) : ℚ) := by exact_mod_cast hR
    calc (2 : ℚ) ^ 1024 = 2 ^ (1024 : ℤ) := (zpow_ofNat 2 1024).symm
      _ ≤ 2 ^ L := zpow_le_zpow_right₀ (by norm_num) (by omega)
      _ = 2 ^ 52 * 2 ^ (L - 52) := by
        rw [← zpow_natCast, ← zpow_add₀ (by norm_num)]
        congr 1
        push_cast
        ring
      _ ≤ (roundHalfEven (q / 2 ^ (L - 52)) : ℚ) * 2 ^ (L - 52) :=
          mul_le_mul_of_nonneg_right hR3 (le_of_lt hulp)

/-- A positive number rounds to `+Inf` exactly from `2^1024 - 2^970` on, half
a unit in the last place above the largest `float64`. -/
lemma roundPositive_inf_iff (q : ℚ) (hq : 0 < q) :
    roundPositive q = Float64.inf false ↔ 2 ^ 1024 - 2 ^ 970 ≤ q := by
  rw [roundPositive_eq]
  constructor
  · intro h
    by_contra hlt
    push_neg at hlt
    have := roundedValue_lt q hq hlt
    rw [if_neg (not_le.mpr this)] at h
    exact absurd h (by simp)
  · intro h
    rw [if_pos (roundedValue_ge q hq h)]

/-- A positive number rounds to a finite number or to `+Inf`. -/
lemma roundPositive_cases (q : ℚ) :
    roundPositive q = Float64.inf false ∨ ∃ v, roundPositive q = Float64.finite v := by
  rw [roundPositive_eq]
  split
  · exact Or.inl rfl
  · exact Or.inr ⟨_, rfl⟩

/-- A number with at most 53 significant bits, not below the subnormal range
and below `2^1024`, is a `float64`: it rounds to itself. -/
lemma roundPositive_exact (k : ℕ) (j : ℤ) (hk0 : 0 < k) (hk : k < 2 ^ 53) (hj : -1074 ≤ j)
    (hfin : (k : ℚ) * 2 ^ j < 2 ^ 1024) :
    roundPositive ((k : ℚ) * 2 ^ j) = Float64.finite ((k : ℚ) * 2 ^ j) := by
  have h2 : (1 : ℕ) < 2 := by norm_num
  have hq : (0 : ℚ) < (k : ℚ) * 2 ^ j := by positivity
  have hL1 := Int.zpow_log_le_self h2 hq
  simp only [Nat.cast_ofNat] at hL1
  have hv : roundedValue ((k : ℚ) * 2 ^ j) = (k : ℚ) * 2 ^ j := by
    unfold roundedValue
    generalize Int.log 2 ((k : ℚ) * 2 ^ j) = L at *
    have hLj : L < j + 53 := by
      have hk' : (k : ℚ) < 2 ^ (53 : ℤ) := by
        rw [zpow_ofNat]
        exact_mod_cast hk
      have : (2 : ℚ) ^ L < 2 ^ (j + 53) := by
        calc (2 : ℚ) ^ L ≤ (k : ℚ) * 2 ^ j := hL1
          _ < 2 ^ (53 : ℤ) * 2 ^ j := mul_lt_mul_of_pos_right hk' (by positivity)
          _ = 2 ^ (j + 53) := by
            rw [← zpow_add₀ (by norm_num)]
            congr 1
            ring
      exact (zpow_lt_zpow_iff_right₀ (by norm_num)).mp this
    have he : max L (-1022) - 52 ≤ j := by omega
    generalize max L (-1022) - 52 = u at *
    obtain ⟨d, hd⟩ : ∃ d : ℕ, j = u + d := ⟨(j - u).toNat, by omega⟩
    have hdiv : (k : ℚ) * 2 ^ j / 2 ^ u = (((k * 2 ^ d : ℕ) : ℤ) : ℚ) := by
      rw [hd, zpow_add₀ (by norm_num), zpow_natCast]
      field_simp
      ring
    rw [hdiv, roundHalfEven_int, hd, zpow_add₀ (by norm_num), zpow_natCast]
    push_cast
    ring
  rw [roundPositive_eq, hv, if_neg (not_le.mpr hfin)]

/-- A natural number below `2^53` is a `float64`. -/
lemma roundFloat64_nat (n : ℕ) (h : n < 2 ^ 53) :
    roundFloat64 (n : ℚ) = Float64.finite (n : ℚ) := by
  unfold roundFloat64
  rcases Nat.eq_zero_or_pos n with h0 | h0
  · simp [h0]
  · have hq : (0 : ℚ) < (n : ℚ) := by exact_mod_cast h0
    rw [if_neg (ne_of_gt hq), if_pos hq]
    have := roundPositive_exact n 0 h0 h (by norm_num) (by
      simp only [zpow_zero, mul_one]
      calc (n : ℚ) < ((2 ^ 53 : ℕ) : ℚ) := by exact_mod_cast h
        _ = 2 ^ 53 := by norm_num
        _ < 2 ^ 1024 := by norm_num)
    simpa using this

/-- A printable ASCII character other than the blank is no white space. -/
lemma not_isSpace_of_graphic (c : Char) (h1 : 33 ≤ c.val.toNat) (h2 : c.val.toNat ≤ 126) :
    strings.isSpace c = false := by
  have hne : ∀ d : Char, d.val.toNat < 33 ∨ 126 < d.val.toNat → c ≠ d := by
    intro d hd hcd
    subst hcd
    omega
  have hv : ∀ n : UInt32, n.toNat < 33 ∨ 126 < n.toNat → c.val ≠ n := by
    intro n hn hcn
    rw [hcn] at h1 h2
    omega
  simp only [strings.isSpace, Bool.or_eq_false_iff, decide_eq_false_iff_not, Bool.and_eq_false_iff]
  refine ⟨⟨⟨⟨⟨⟨⟨⟨⟨⟨⟨⟨⟨⟨?_, ?_⟩, ?_⟩, ?_⟩, ?_⟩, ?_⟩, ?_⟩, ?_⟩, ?_⟩, ?_⟩, ?_⟩, ?_⟩, ?_⟩, ?_⟩, ?_⟩
  all_goals first
    | exact hne _ (by decide)
    | exact hv _ (by decide)
    | (left; intro hh; have : 8192 ≤ c.val.toNat := hh; omega)

/-- The code point of a digit. -/
lemma isDigit_val (c : Char) (h : c.isDigit = true) : 48 ≤ c.val.toNat ∧ c.val.toNat ≤ 57 := by
  simp only [Char.isDigit, Bool.and_eq_true, decide_eq_true_eq] at h
  exact ⟨h.1, h.2⟩

/-- The numeric bytes are the digits and `.`. -/
lemma isNumeric_iff (c : Char) : size.isNumeric c = true ↔ c.isDigit = true ∨ c = '.' := by
  simp only [size.isNumeric, Char.isDigit, Bool.or_eq_true, Bool.and_eq_true, decide_eq_true_eq]
  constructor
  · rintro (⟨h1, h2⟩ | h)
    · exact Or.inl ⟨h1, h2⟩
    · exact Or.inr h
  · rintro (⟨h1, h2⟩ | h)
    · exact Or.inl ⟨h1, h2⟩
    · exact Or.inr h

/-- A digit is no white space. -/
lemma not_isSpace_of_isDigit (c : Char) (h : c.isDigit = true) : strings.isSpace c = false :=
  not_isSpace_of_graphic c (by have := isDigit_val c h; omega) (by have := isDigit_val c h; omega)

/-- A numeric byte is no white space. -/
lemma not_isSpace_of_isNumeric (c : Char) (h : size.isNumeric c = true) :
    strings.isSpace c = false := by
  rcases (isNumeric_iff c).mp h with h | h
  · exact not_isSpace_of_isDigit c h
  · subst h; decide

/-- White space is not numeric. -/
lemma not_isNumeric_of_isSpace (c : Char) (h : strings.isSpace c = true) :
    size.isNumeric c = false := by
  cases hn : size.isNumeric c with
  | false => rfl
  | true => rw [not_isSpace_of_isNumeric c hn] at h; exact absurd h (by decide)

/-- Nothing is dropped from a list whose first element fails the test. -/
lemma dropWhile_of_head {α : Type} (p : α → Bool) (l : List α)
    (h : ∀ c, l.head? = some c → p c = false) : l.dropWhile p = l := by
  cases l with
  | nil => rfl
  | cons a l => simp [List.dropWhile, h a rfl]

/-- Nothing is taken from a list whose first element fails the test. -/
lemma takeWhile_of_head {α : Type} (p : α → Bool) (l : List α)
    (h : ∀ c, l.head? = some c → p c = false) : l.takeWhile p = [] := by
  cases l with
  | nil => rfl
  | cons a l => simp [List.takeWhile, h a rfl]

/-- `TrimSpace` removes the white space around a text that neither starts nor
ends with white space. -/
lemma trimSpace_core (ws1 core ws3 : List Char)
    (h1 : ∀ c ∈ ws1, strings.isSpace c = true) (h3 : ∀ c ∈ ws3, strings.isSpace c = true)
    (hh : ∀ c, core.head? = some c → strings.isSpace c = false)
    (hl : ∀ c, core.getLast? = some c → strings.isSpace c = false) :
    strings.TrimSpace (String.mk (ws1 ++ core ++ ws3)) = String.mk core := by
  unfold strings.TrimSpace
  congr 1
  simp only [List.append_assoc]
  rw [List.dropWhile_append_of_pos h1]
  rcases List.eq_nil_or_concat core with hc | ⟨core', a, hc⟩
  · subst hc
    simp only [List.nil_append]
    have : ws3.dropWhile strings.isSpace = [] := by
      rw [← List.append_nil ws3, List.dropWhile_append_of_pos h3]
      rfl
    rw [this]
    rfl
  · have hne : core ≠ [] := by rw [hc]; simp
    have hd : (core ++ ws3).dropWhile strings.isSpace = core ++ ws3 := by
      apply dropWhile_of_head
      intro c hcx
      cases core with
      | nil => exact absurd rfl hne
      | cons b core'' => exact hh c hcx
    rw [hd, List.reverse_append,
      List.dropWhile_append_of_pos (fun c hc' => h3 c (List.mem_reverse.mp hc'))]
    rw [dropWhile_of_head _ _ (fun c hcx => hl c (by rwa [List.head?_reverse] at hcx))]
    exact List.reverse_reverse core

/-- The numeric run of a text that starts with numeric bytes followed by a
byte that is not numeric. -/
lemma numeric_run (ds rest : List Char) (hds : ∀ c ∈ ds, size.isNumeric c = true)
    (hrest : ∀ c, rest.head? = some c → size.isNumeric c = false) :
    (ds ++ rest).takeWhile size.isNumeric = ds ∧ (ds ++ rest).dropWhile size.isNumeric = rest := by
  rw [List.takeWhile_append_of_pos hds, List.dropWhile_append_of_pos hds,
    takeWhile_of_head _ _ hrest, dropWhile_of_head _ _ hrest]
  simp

/-- The three parts `Parse` cuts its input into: white space, a numeric run
`ds`, white space, a unit text `u` that starts with no numeric byte, white
space. -/
lemma parse_parts (ws1 ds ws2 u ws3 : List Char)
    (h1 : ∀ c ∈ ws1, strings.isSpace c = true) (h2 : ∀ c ∈ ws2, strings.isSpace c = true)
    (h3 : ∀ c ∈ ws3, strings.isSpace c = true)
    (hds : ds ≠ []) (hnum : ∀ c ∈ ds, size.isNumeric c = true)
    (hu : u ≠ [])
    (huh : ∀ c, u.head? = some c → strings.isSpace c = false ∧ size.isNumeric c = false)
    (hul : ∀ c, u.getLast? = some c → strings.isSpace c = false) :
    (strings.TrimSpace (String.mk (ws1 ++ ds ++ ws2 ++ u ++ ws3))).data.takeWhile size.isNumeric
        = ds ∧
      strings.TrimSpace (String.mk
        ((strings.TrimSpace (String.mk (ws1 ++ ds ++ ws2 ++ u ++ ws3))).data.dropWhile
          size.isNumeric)) = String.mk u := by
  have hcore : strings.TrimSpace (String.mk (ws1 ++ ds ++ ws2 ++ u ++ ws3)) =
      String.mk (ds ++ (ws2 ++ u)) := by
    have := trimSpace_core ws1 (ds ++ (ws2 ++ u)) ws3 h1 h3
      (by
        intro c hc
        cases ds with
        | nil => exact absurd rfl hds
        | cons d ds' =>
          simp only [List.cons_append, List.head?_cons, Option.some.injEq] at hc
          subst hc
          exact not_isSpace_of_isNumeric _ (hnum _ (List.mem_cons_self _ _)))
      (by
        intro c hc
        rw [← List.append_assoc, List.getLast?_append_of_ne_nil _ hu] at hc
        exact hul c hc)
    simpa [List.append_assoc] using this
  have hrest : ∀ c, (ws2 ++ u).head? = some c → size.isNumeric c = false := by
    intro c hc
    cases ws2 with
    | nil => exact (huh c hc).2
    | cons a ws2' =>
      simp only [List.cons_append, List.head?_cons, Option.some.injEq] at hc
      subst hc
      exact not_isNumeric_of_isSpace _ (h2 _ (List.mem_cons_self _ _))
  obtain ⟨ht, hd⟩ := numeric_run ds (ws2 ++ u) hnum hrest
  rw [hcore]
  refine ⟨ht, ?_⟩
  simp only [hd]
  have := trimSpace_core ws2 u [] h2 (by simp) (fun c hc => (huh c hc).1) hul
  simpa using this

/-- The number a run of digits writes, as `digitsValue` of the run. -/
lemma decimalParts_digits (ds : List Char) (hds : ds ≠ []) (hdig : ∀ c ∈ ds, c.isDigit = true) :
    strconv.decimalParts ds = some (ds, []) := by
  have ht : ds.takeWhile Char.isDigit = ds := by
    rw [← List.append_nil ds, List.takeWhile_append_of_pos hdig]
    simp
  have hd : ds.dropWhile Char.isDigit = [] := by
    rw [← List.append_nil ds, List.dropWhile_append_of_pos hdig]
    simp
  simp [strconv.decimalParts, ht, hd, hds]

/-- `ParseFloat` on a run of digits that writes a number below `2^53`. -/
lemma parseFloat_digits (ds : List Char) (hds : ds ≠ []) (hdig : ∀ c ∈ ds, c.isDigit = true)
    (h : digitsValue ds < 2 ^ 53) :
    strconv.ParseFloat (String.mk ds) = Except.ok (Float64.finite (digitsValue ds : ℚ)) := by
  have hv : strconv.decimalValue ds = (digitsValue ds : ℚ) := by
    simp [strconv.decimalValue, decimalParts_digits ds hds hdig]
  simp only [strconv.ParseFloat, decimalParts_digits ds hds hdig, hv, roundFloat64_nat _ h]

/-- Multiplying a natural number by 1024 is exact below `2^53`. -/
lemma mul_1024 (n : ℕ) (h : n * 1024 < 2 ^ 53) :
    (Float64.finite (n : ℚ)).mul (Float64.finite 1024) =
      Float64.finite ((n * 1024 : ℕ) : ℚ) := by
  have := roundFloat64_nat (n * 1024) h
  simp only [Float64.mul]
  push_cast at this ⊢
  exact this

/-- A natural number that is an `int64` converts to itself. -/
lemma toInt64_nat (indefinite : Int) (n : ℕ) (h : n < 2 ^ 63) :
    (Float64.finite (n : ℚ)).toInt64 indefinite = (n : Int) := by
  have h0 : (0 : ℚ) ≤ (n : ℚ) := Nat.cast_nonneg n
  have hf : ⌊(n : ℚ)⌋ = (n : Int) := Int.floor_natCast n
  simp only [Float64.toInt64, h0, if_true, hf]
  rw [if_pos]
  constructor
  · have : (0 : Int) ≤ (n : Int) := Int.ofNat_nonneg n
    omega
  · exact_mod_cast h

/-- The facts `Parse` uses about a unit text written in some letter case. -/
lemma unit_variant (name : String) (k : Nat) (u : List Char)
    (hname : size.unitNames.get? k = some name) (hu : u ∈ caseVariants name.data) :
    k ≤ 4 ∧ strings.ToUpper (String.mk u) = name ∧ u ≠ [] ∧
      (∀ c, u.head? = some c → strings.isSpace c = false ∧ size.isNumeric c = false) ∧
      (∀ c, u.getLast? = some c → strings.isSpace c = false) := by
  have hk : k ≤ 4 := by
    by_contra hk
    have : 5 ≤ k := by omega
    have : size.unitNames.get? k = none := List.get?_eq_none.mpr (by simpa [size.unitNames])
    rw [this] at hname
    exact absurd hname (by simp)
  refine ⟨hk, ?_⟩
  interval_cases k
  all_goals
    simp only [size.unitNames, List.get?, Option.some.injEq] at hname
    subst hname
    simp only [caseVariants, List.flatMap_cons, List.flatMap_nil, List.append_nil,
      List.cons_append, List.nil_append, List.mem_cons, List.mem_singleton,
      List.not_mem_nil, or_false] at hu
    rcases hu with rfl | rfl | rfl | rfl | rfl | rfl <;> decide

/-- The first element left by `dropWhile` fails the test. -/
lemma dropWhile_head_false {α : Type} (p : α → Bool) (l : List α) (c : α) (f : List α)
    (h : l.dropWhile p = c :: f) : p c = false := by
  induction l with
  | nil => simp at h
  | cons a l ih =>
    by_cases ha : p a = true
    · rw [List.dropWhile_cons_of_pos ha] at h
      exact ih h
    · rw [List.dropWhile_cons_of_neg ha] at h
      simp only [List.cons.injEq] at h
      rw [← h.1]
      simpa using ha

/-- A digit is not the character `.`. -/
lemma isDigit_ne_dot (c : Char) (h : c.isDigit = true) : c ≠ '.' := by
  intro hc
  subst hc
  exact absurd h (by decide)

/-- On a run of digits and `.`, the decimal texts of `ParseFloat` are the
decimal numbers of the specification. -/
lemma decimalParts_isSome_iff (run : List Char)
    (hnum : ∀ c ∈ run, size.isNumeric c = true) :
    (strconv.decimalParts run).isSome = true ↔ validDecimal run := by
  have hsplit := List.takeWhile_append_dropWhile Char.isDigit run
  have hi : ∀ c ∈ run.takeWhile Char.isDigit, c.isDigit = true :=
    fun c hc => List.mem_takeWhile_imp hc
  have hci : (run.takeWhile Char.isDigit).count '.' = 0 :=
    List.count_eq_zero.mpr (fun hmem => isDigit_ne_dot _ (hi _ hmem) rfl)
  unfold strconv.decimalParts validDecimal
  cases hr : run.dropWhile Char.isDigit with
  | nil =>
    rw [hr, List.append_nil] at hsplit
    simp only
    rw [hsplit] at hci hi ⊢
    constructor
    · intro h
      have hne : run ≠ [] := by
        intro he
        simp [he] at h
      obtain ⟨a, l, hal⟩ := List.exists_cons_of_ne_nil hne
      exact ⟨by omega, a, by simp [hal], hi a (by simp [hal])⟩
    · rintro ⟨_, c, hc, _⟩
      have hne : run ≠ [] := List.ne_nil_of_mem hc
      simp [hne]
  | cons c f =>
    have hcd : c.isDigit = false := dropWhile_head_false _ _ _ _ hr
    have hcmem : c ∈ run := by rw [← hsplit, hr]; simp
    have hfmem : ∀ x ∈ f, x ∈ run := by
      intro x hx
      rw [← hsplit, hr]
      simp [hx]
    have hc : c = '.' := by
      rcases (isNumeric_iff c).mp (hnum c hcmem) with h | h
      · rw [h] at hcd; exact absurd hcd (by decide)
      · exact h
    subst hc
    have hall : f.all Char.isDigit = true ↔ f.count '.' = 0 := by
      rw [List.all_eq_true, List.count_eq_zero]
      constructor
      · intro h hmem
        exact isDigit_ne_dot _ (h _ hmem) rfl
      · intro h x hx
        rcases (isNumeric_iff x).mp (hnum x (hfmem x hx)) with h' | h'
        · exact h'
        · subst h'; exact absurd hx h
    have hcount : run.count '.' = 1 + f.count '.' := by
      rw [← hsplit, hr, List.count_append, hci, List.count_cons_self]
      omega
    simp only
    constructor
    · intro h
      split at h
      · rename_i hcond
        obtain ⟨_, hf, hne⟩ := hcond
        refine ⟨by rw [hcount, hall.mp hf], ?_⟩
        by_cases hie : run.takeWhile Char.isDigit = []
        · have hfne : f ≠ [] := fun hfe => hne ⟨hie, hfe⟩
          obtain ⟨a, l, hal⟩ := List.exists_cons_of_ne_nil hfne
          exact ⟨a, hfmem a (by simp [hal]), (List.all_eq_true.mp hf) a (by simp [hal])⟩
        · obtain ⟨a, l, hal⟩ := List.exists_cons_of_ne_nil hie
          refine ⟨a, ?_, hi a (by simp [hal])⟩
          rw [← hsplit, hal]
          simp
      · simp at h
    · rintro ⟨hcnt, x, hx, hxd⟩
      have hf0 : f.count '.' = 0 := by omega
      have hf : f.all Char.isDigit = true := hall.mpr hf0
      have hne : ¬ (run.takeWhile Char.isDigit = [] ∧ f = []) := by
        rintro ⟨hie, hfe⟩
        rw [← hsplit, hr, hie, hfe] at hx
        simp only [List.nil_append, List.mem_singleton] at hx
        subst hx
        exact absurd hxd (by decide)
      rw [if_pos ⟨trivial, hf, hne⟩]
      rfl

/-- The number a decimal text writes is not negative. -/
lemma decimalValue_nonneg (cs : List Char) : 0 ≤ strconv.decimalValue cs := by
  unfold strconv.decimalValue
  split
  · positivity
  · exact le_refl 0

/-- The largest `float64` plus half a unit in the last place is positive. -/
lemma threshold_pos : (0 : ℚ) < 2 ^ 1024 - 2 ^ 970 := by
  have : (2 : ℚ) ^ 970 < 2 ^ 1024 := pow_lt_pow_right₀ (by norm_num) (by norm_num)
  linarith

/-- The number `roundFloat64` gives for a number that is not negative: `+Inf`
from `2^1024 - 2^970` on, a finite number below. -/
lemma roundFloat64_nonneg (q : ℚ) (hq : 0 ≤ q) :
    (2 ^ 1024 - 2 ^ 970 ≤ q ∧ roundFloat64 q = Float64.inf false) ∨
    (q < 2 ^ 1024 - 2 ^ 970 ∧ ∃ v, roundFloat64 q = Float64.finite v) := by
  unfold roundFloat64
  by_cases h0 : q = 0
  · right
    rw [if_pos h0, h0]
    exact ⟨threshold_pos, 0, rfl⟩
  · have hpos : 0 < q := lt_of_le_of_ne hq (Ne.symm h0)
    rw [if_neg h0, if_pos hpos]
    by_cases ht : 2 ^ 1024 - 2 ^ 970 ≤ q
    · exact Or.inl ⟨ht, (roundPositive_inf_iff q hpos).mpr ht⟩
    · right
      refine ⟨not_le.mp ht, ?_⟩
      rcases roundPositive_cases q with h | h
      · exact absurd ((roundPositive_inf_iff q hpos).mp h) ht
      · exact h

/-- `ParseFloat` fails on a run of digits and `.` exactly when the run is no
decimal number or the number rounds to infinity. -/
lemma parseFloat_error_iff (run : List Char) (hnum : ∀ c ∈ run, size.isNumeric c = true) :
    (∃ err, strconv.ParseFloat (String.mk run) = Except.error err) ↔
      ¬ validDecimal run ∨ 2 ^ 1024 - 2 ^ 970 ≤ strconv.decimalValue run := by
  have hiff := decimalParts_isSome_iff run hnum
  unfold strconv.ParseFloat
  cases hp : strconv.decimalParts run with
  | none =>
    rw [hp] at hiff
    simp only
    constructor
    · intro _
      left
      intro hv
      exact absurd (hiff.mpr hv) (by simp)
    · intro _
      exact ⟨_, rfl⟩
  | some p =>
    rw [hp] at hiff
    have hv : validDecimal run := hiff.mp rfl
    simp only
    rcases roundFloat64_nonneg _ (decimalValue_nonneg run) with ⟨ht, hr⟩ | ⟨ht, v, hr⟩
    · rw [hr]
      simp only
      exact ⟨fun _ => Or.inr ht, fun _ => ⟨_, rfl⟩⟩
    · rw [hr]
      simp only
      constructor
      · rintro ⟨err, h⟩
        exact absurd h (by simp)
      · rintro (h | h)
        · exact absurd hv h
        · exact absurd h (not_le.mpr ht)

/-- `Parse` fails exactly on the inputs of `parseRejects`. -/
lemma parse_error_iff (indefinite : Int) (s : String) :
    (∃ err, size.Parse indefinite s = Except.error err) ↔ size.parseRejects s := by
  unfold size.Parse size.parseRejects
  simp only
  generalize (strings.TrimSpace s).data = t
  have hnum : ∀ c ∈ t.takeWhile size.isNumeric, size.isNumeric c = true :=
    fun c hc => List.mem_takeWhile_imp hc
  have hhead : t.takeWhile size.isNumeric = [] ↔
      ∀ c, t.head? = some c → ¬ (c.isDigit = true ∨ c = '.') := by
    cases t with
    | nil => simp
    | cons a l =>
      simp only [List.head?_cons, Option.some.injEq, forall_eq', ← isNumeric_iff]
      by_cases ha : size.isNumeric a = true
      · simp [List.takeWhile, ha]
      · simp [List.takeWhile, ha]
  by_cases hn : t.takeWhile size.isNumeric = []
  · rw [if_pos hn]
    exact ⟨fun _ => Or.inl (hhead.mp hn), fun _ => ⟨_, rfl⟩⟩
  · rw [if_neg hn]
    have hpf := parseFloat_error_iff _ hnum
    generalize strings.ToUpper (strings.TrimSpace (String.mk (t.dropWhile size.isNumeric))) =
      unit at *
    cases hres : strconv.ParseFloat (String.mk (t.takeWhile size.isNumeric)) with
    | error e =>
      simp only
      have := hpf.mp ⟨e, hres⟩
      constructor
      · intro _
        rcases this with h | h
        · exact Or.inr (Or.inl h)
        · exact Or.inr (Or.inr (Or.inl h))
      · intro _
        exact ⟨_, rfl⟩
    | ok value =>
      simp only
      have hno : ¬ (¬ validDecimal (t.takeWhile size.isNumeric) ∨
          2 ^ 1024 - 2 ^ 970 ≤ strconv.decimalValue (t.takeWhile size.isNumeric)) := by
        intro h
        obtain ⟨err, herr⟩ := hpf.mpr h
        rw [hres] at herr
        exact absurd herr (by simp)
      push_neg at hno
      have hmem : unit ∈ size.unitNames ↔
          unit = "B" ∨ unit = "KB" ∨ unit = "MB" ∨ unit = "GB" ∨ unit = "TB" := by
        simp [size.unitNames]
      constructor
      · rintro ⟨err, h⟩
        right; right; right
        rw [hmem]
        rintro (hu | hu | hu | hu | hu) <;> simp [hu] at h
      · rintro (h | h | h | h)
        · exact absurd (hhead.mpr h) hn
        · exact absurd hno.1 h
        · exact absurd h (not_le.mpr hno.2)
        · rw [hmem] at h
          push_neg at h
          obtain ⟨a, b, c, d, e⟩ := h
          simp [a, b, c, d, e]

/-- A one followed by `n` zeros writes `10^n`. -/
lemma digitsValue_one_zeros (n : Nat) : digitsValue ('1' :: List.replicate n '0') = 10 ^ n := by
  induction n with
  | zero => rfl
  | succ n ih =>
    have : '1' :: List.replicate (n + 1) '0' = ('1' :: List.replicate n '0') ++ ['0'] := by
      rw [List.replicate_succ', List.cons_append]
    rw [this]
    unfold digitsValue at ih ⊢
    rw [List.foldl_append, ih]
    simp only [List.foldl_cons, List.foldl_nil]
    have : ('0' : Char).toNat - ('0' : Char).toNat = 0 := by decide
    rw [this]
    ring

/-- The parts of `hugeSize`: its numeric run is `hugeDigits`, its unit `B`. -/
lemma hugeSize_parts :
    (strings.TrimSpace hugeSize).data.head? = some '1' ∧
    (strings.TrimSpace hugeSize).data.takeWhile size.isNumeric = hugeDigits ∧
    strings.ToUpper (strings.TrimSpace
      (String.mk ((strings.TrimSpace hugeSize).data.dropWhile size.isNumeric))) = "B" ∧
    validDecimal hugeDigits ∧ strconv.decimalValue hugeDigits = 10 ^ 309 := by
  have hdig : ∀ c ∈ hugeDigits, c.isDigit = true := by
    intro c hc
    simp only [hugeDigits, List.mem_cons, List.mem_replicate] at hc
    rcases hc with h | ⟨_, h⟩ <;> subst h <;> decide
  have hne : hugeDigits ≠ [] := List.cons_ne_nil _ _
  have htrim : strings.TrimSpace hugeSize = hugeSize := by
    have := trimSpace_core [] (hugeDigits ++ ['B']) [] (by simp) (by simp)
      (by
        intro c hc
        have : (hugeDigits ++ ['B']).head? = some '1' := rfl
        rw [this] at hc
        simp only [Option.some.injEq] at hc
        subst hc
        decide)
      (by intro c hc; simp at hc; subst hc; decide)
    simpa [hugeSize] using this
  obtain ⟨h1, h2⟩ := parse_parts [] hugeDigits [] ['B'] [] (by simp) (by simp) (by simp) hne
    (fun c hc => (isNumeric_iff c).mpr (Or.inl (hdig c hc))) (by simp)
    (by intro c hc; simp at hc; subst hc; decide)
    (by intro c hc; simp at hc; subst hc; decide)
  have e : String.mk ([] ++ hugeDigits ++ [] ++ ['B'] ++ []) = hugeSize := by simp [hugeSize]
  rw [e] at h1 h2
  refine ⟨?_, h1, ?_, ?_, ?_⟩
  · rw [htrim]; rfl
  · rw [h2]; decide
  · refine ⟨?_, '1', List.mem_cons_self _ _, by decide⟩
    have : hugeDigits.count '.' = 0 :=
      List.count_eq_zero.mpr (fun hmem => isDigit_ne_dot _ (hdig _ hmem) rfl)
    omega
  · simp only [strconv.decimalValue, decimalParts_digits hugeDigits hne hdig,
      List.append_nil, List.length_nil, pow_zero, div_one]
    rw [hugeDigits, digitsValue_one_zeros]
    simp only [Nat.cast_pow, Nat.cast_ofNat]

/-- The unit loop on a number below `2^54` stops after at most five rounds,
with `div = 1024^(exp+1)` computed without overflow. -/
lemma unitLoop_cases (n : Int) (h : n < 2 ^ 54) :
    ∃ e : Nat, e ≤ 5 ∧ size.unitLoop n 1024 0 = ((1024 : Int) ^ (e + 1), e) ∧
      (1024 : Int) ^ (e + 1) < 2 ^ 63 := by
  have w1 : wrap64 (1024 * 1024) = 1024 ^ 2 := by decide
  have w2 : wrap64 (1024 ^ 2 * 1024) = 1024 ^ 3 := by decide
  have w3 : wrap64 (1024 ^ 3 * 1024) = 1024 ^ 4 := by decide
  have w4 : wrap64 (1024 ^ 4 * 1024) = 1024 ^ 5 := by decide
  have w5 : wrap64 (1024 ^ 5 * 1024) = 1024 ^ 6 := by decide
  rw [size.unitLoop]
  split
  · rw [size.unitLoop, w1]
    split
    · rw [size.unitLoop, w2]
      split
      · rw [size.unitLoop, w3]
        split
        · rw [size.unitLoop, w4]
          split
          · rw [size.unitLoop, w5]
            split
            · omega
            · exact ⟨5, by omega, rfl, by norm_num⟩
          · exact ⟨4, by omega, rfl, by norm_num⟩
        · exact ⟨3, by omega, rfl, by norm_num⟩
      · exact ⟨2, by omega, rfl, by norm_num⟩
    · exact ⟨1, by omega, rfl, by norm_num⟩
  · exact ⟨0, by omega, rfl, by norm_num⟩

/-- The unit loop on the largest `int64`: five rounds, `div = 1024^6`. -/
lemma max_int64_loop : size.unitLoop ((2 ^ 63 - 1) / 1024) 1024 0 = (1024 ^ 6, 5) := by
  have e : ((2 : Int) ^ 63 - 1) / 1024 = 9007199254740991 := by norm_num
  rw [e]
  rw [size.unitLoop, if_pos (by norm_num), size.unitLoop, if_pos (by norm_num), size.unitLoop,
    if_pos (by norm_num), size.unitLoop, if_pos (by norm_num), size.unitLoop,
    if_pos (by norm_num), size.unitLoop, if_neg (by norm_num)]
  norm_num [wrap64]

/-- `Format` renders 1536 bytes as "1.5 KB". -/
lemma format_1536 : size.Format 1536 = some "1.5 KB" := by
  have hloop : size.unitLoop (1536 / 1024) 1024 0 = (1024, 0) := by
    rw [size.unitLoop, if_neg (by norm_num)]
  have h1 : Float64.ofInt 1536 = Float64.finite 1536 := by
    have := roundFloat64_nat 1536 (by norm_num)
    simpa [Float64.ofInt] using this
  have h2 : Float64.ofInt 1024 = Float64.finite 1024 := by
    have := roundFloat64_nat 1024 (by norm_num)
    simpa [Float64.ofInt] using this
  have h3 : roundFloat64 (1536 / 1024) = Float64.finite (3 / 2) := by
    have := roundPositive_exact 3 (-1) (by norm_num) (by norm_num) (by norm_num) (by
      have : ((3 : ℕ) : ℚ) * 2 ^ (-1 : ℤ) = 3 / 2 := by norm_num
      rw [this]
      calc (3 / 2 : ℚ) < 2 ^ 1 := by norm_num
        _ ≤ 2 ^ 1024 := pow_le_pow_right₀ (by norm_num) (by norm_num))
    have e : ((3 : ℕ) : ℚ) * 2 ^ (-1 : ℤ) = 1536 / 1024 := by norm_num
    rw [e] at this
    unfold roundFloat64
    rw [if_neg (by norm_num), if_pos (by norm_num), this]
    norm_num
  have h4 : roundHalfEven (|(3 / 2 : ℚ)| * 10) = 15 := by
    have : |(3 / 2 : ℚ)| * 10 = ((15 : Int) : ℚ) := by
      rw [abs_of_pos (by norm_num)]
      norm_num
    rw [this, roundHalfEven_int]
  have hneg : ¬ ((3 / 2 : ℚ) < 0) := by norm_num
  have hne : ¬ ((1024 : ℚ) = 0) := by norm_num
  unfold size.Format
  rw [if_neg (by norm_num)]
  simp only [hloop]
  rw [h1, h2]
  have hdiv : (Float64.finite 1536).div (Float64.finite 1024) = Float64.finite (3 / 2) := by
    show (if (1024 : ℚ) = 0 then
        (if (1536 : ℚ) = 0 then Float64.nan else Float64.inf (decide ((1536 : ℚ) < 0)))
      else roundFloat64 (1536 / 1024)) = Float64.finite (3 / 2)
    rw [if_neg hne, h3]
  rw [hdiv]
  have hs : fmt.SprintfF1 (Float64.finite (3 / 2)) = "1.5" := by
    show ((if (3 / 2 : ℚ) < 0 then "-" else "") ++
      toString ((roundHalfEven (|(3 / 2 : ℚ)| * 10)).toNat / 10) ++ "." ++
      toString ((roundHalfEven (|(3 / 2 : ℚ)| * 10)).toNat % 10)) = "1.5"
    rw [if_neg hneg, h4]
    decide
  rw [hs]
  decide

/-- The letter of every exponent up to 5. -/
lemma unit_letter (e : Nat) (h : e ≤ 5) : ∃ c, "KMGTPE".data.get? e = some c := by
  interval_cases e <;> exact ⟨_, rfl⟩

/-- The alphabet reads back its own characters. -/
lemma dec6_enc6 : ∀ n, n < 64 → base64.dec6 (base64.enc6 n) = some n := by decide

/-- No character of the alphabet is special in a query or in the padding. -/
lemma enc6_plain : ∀ n, n < 64 → base64.enc6 n ≠ '=' ∧ base64.enc6 n ≠ '\r' ∧
    base64.enc6 n ≠ '\n' ∧ base64.enc6 n ≠ '&' ∧ base64.enc6 n ≠ ';' ∧ base64.enc6 n ≠ '%' ∧
    base64.enc6 n ≠ ' ' ∧ base64.enc6 n ≠ '?' := by decide

/-- Decoding reads back what encoding wrote. -/
lemma decode_encode (bs : Bytes) (h : ∀ b ∈ bs, b < 256) :
    base64.decode (base64.encode bs) = some bs := by
  induction bs using base64.encode.induct with
  | case1 => rfl
  | case2 a =>
    have ha : a < 256 := h a (by simp)
    simp only [base64.encode, base64.decode, base64.decodeLast, if_true,
      dec6_enc6 _ (show a / 4 < 64 by omega), dec6_enc6 _ (show a % 4 * 16 < 64 by omega)]
    simp
    omega
  | case3 a b =>
    have ha : a < 256 := h a (by simp)
    have hb : b < 256 := h b (by simp)
    have h3 := (enc6_plain (b % 16 * 4) (by omega)).1
    simp only [base64.encode, base64.decode, base64.decodeLast, if_true,
      dec6_enc6 _ (show a / 4 < 64 by omega),
      dec6_enc6 _ (show a % 4 * 16 + b / 16 < 64 by omega),
      dec6_enc6 _ (show b % 16 * 4 < 64 by omega)]
    simp [h3]
    omega
  | case4 a b c rest ih =>
    have ha : a < 256 := h a (by simp)
    have hb : b < 256 := h b (by simp)
    have hc : c < 256 := h c (by simp)
    have hrest := ih (fun x hx => h x (by simp [hx]))
    have h3 := (enc6_plain (b % 16 * 4 + c / 64) (by omega)).1
    have h4 := (enc6_plain (c % 64) (by omega)).1
    have d1 := dec6_enc6 _ (show a / 4 < 64 by omega)
    have d2 := dec6_enc6 _ (show a % 4 * 16 + b / 16 < 64 by omega)
    have d3 := dec6_enc6 _ (show b % 16 * 4 + c / 64 < 64 by omega)
    have d4 := dec6_enc6 _ (show c % 64 < 64 by omega)
    rw [base64.encode, base64.decode]
    by_cases hr : base64.encode rest = []
    · rw [if_pos hr]
      rw [hr] at hrest
      simp only [base64.decode, Option.some.injEq] at hrest
      simp only [base64.decodeLast, d1, d2, d3, d4, h3, h4, false_and, if_false]
      rw [← hrest]
      simp
      omega
    · rw [if_neg hr]
      simp only [base64.decodeFull, d1, d2, d3, d4, hrest]
      simp
      omega

/-- The characters of an encoding: characters of the alphabet and `=`. -/
lemma encode_chars (bs : Bytes) (h : ∀ b ∈ bs, b < 256) :
    ∀ c ∈ base64.encode bs, c = '=' ∨ ∃ n, n < 64 ∧ c = base64.enc6 n := by
  induction bs using base64.encode.induct with
  | case1 => simp [base64.encode]
  | case2 a =>
    have ha : a < 256 := h a (by simp)
    intro c hc
    simp only [base64.encode, List.mem_cons, List.mem_singleton, List.not_mem_nil, or_false] at hc
    rcases hc with rfl | rfl | rfl | rfl
    · exact Or.inr ⟨_, by omega, rfl⟩
    · exact Or.inr ⟨_, by omega, rfl⟩
    · exact Or.inl rfl
    · exact Or.inl rfl
  | case3 a b =>
    have ha : a < 256 := h a (by simp)
    have hb : b < 256 := h b (by simp)
    intro c hc
    simp only [base64.encode, List.mem_cons, List.mem_singleton, List.not_mem_nil, or_false] at hc
    rcases hc with rfl | rfl | rfl | rfl
    · exact Or.inr ⟨_, by omega, rfl⟩
    · exact Or.inr ⟨_, by omega, rfl⟩
    · exact Or.inr ⟨_, by omega, rfl⟩
    · exact Or.inl rfl
  | case4 a b c rest ih =>
    have ha : a < 256 := h a (by simp)
    have hb : b < 256 := h b (by simp)
    have hc : c < 256 := h c (by simp)
    intro x hx
    simp only [base64.encode, List.mem_cons] at hx
    rcases hx with rfl | rfl | rfl | rfl | hx
    · exact Or.inr ⟨_, by omega, rfl⟩
    · exact Or.inr ⟨_, by omega, rfl⟩
    · exact Or.inr ⟨_, by omega, rfl⟩
    · exact Or.inr ⟨_, by omega, rfl⟩
    · exact ih (fun y hy => h y (by simp [hy])) x hx

/-- A last group that decodes holds characters of the alphabet and `=` only. -/
lemma decodeLast_chars (a b c d : Char) (bs : Bytes) (h : base64.decodeLast a b c d = some bs) :
    ∀ x ∈ [a, b, c, d], x = '=' ∨ (base64.dec6 x).isSome = true := by
  unfold base64.decodeLast at h
  cases ha : base64.dec6 a with
  | none => simp [ha] at h
  | some x1 =>
    cases hb : base64.dec6 b with
    | none => simp [ha, hb] at h
    | some y1 =>
      simp only [ha, hb] at h
      intro x hx
      simp only [List.mem_cons, List.mem_singleton, List.not_mem_nil, or_false] at hx
      by_cases hpad : c = '=' ∧ d = '='
      · rcases hx with rfl | rfl | rfl | rfl
        · right; simp [ha]
        · right; simp [hb]
        · exact Or.inl hpad.1
        · exact Or.inl hpad.2
      · rw [if_neg hpad] at h
        cases hc : base64.dec6 c with
        | none => simp [hc] at h
        | some z1 =>
          simp only [hc] at h
          by_cases hd4 : d = '='
          · rcases hx with rfl | rfl | rfl | rfl
            · right; simp [ha]
            · right; simp [hb]
            · right; simp [hc]
            · exact Or.inl hd4
          · rw [if_neg hd4] at h
            cases hdd : base64.dec6 d with
            | none => simp [hdd] at h
            | some v1 =>
              rcases hx with rfl | rfl | rfl | rfl
              · right; simp [ha]
              · right; simp [hb]
              · right; simp [hc]
              · right; simp [hdd]

/-- A group that decodes holds characters of the alphabet only. -/
lemma decodeFull_chars (a b c d : Char) (bs : Bytes) (h : base64.decodeFull a b c d = some bs) :
    ∀ x ∈ [a, b, c, d], (base64.dec6 x).isSome = true := by
  unfold base64.decodeFull at h
  cases ha : base64.dec6 a with
  | none => simp [ha] at h
  | some x1 =>
    cases hb : base64.dec6 b with
    | none => simp [ha, hb] at h
    | some y1 =>
      cases hc : base64.dec6 c with
      | none => simp [ha, hb, hc] at h
      | some z1 =>
        cases hdd : base64.dec6 d with
        | none => simp [ha, hb, hc, hdd] at h
        | some v1 =>
          intro x hx
          simp only [List.mem_cons, List.mem_singleton, List.not_mem_nil, or_false] at hx
          rcases hx with rfl | rfl | rfl | rfl
          · simp [ha]
          · simp [hb]
          · simp [hc]
          · simp [hdd]

/-- A text that decodes holds characters of the alphabet and `=` only. -/
lemma decode_chars : ∀ (n : Nat) (l : List Char), l.length ≤ n →
    ∀ bs, base64.decode l = some bs → ∀ c ∈ l, c = '=' ∨ (base64.dec6 c).isSome = true := by
  intro n
  induction n with
  | zero =>
    intro l hl bs _ c hc
    have : l = [] := List.length_eq_zero.mp (by omega)
    rw [this] at hc
    exact absurd hc (List.not_mem_nil c)
  | succ n ih =>
    intro l hl bs hd x hx
    match l, hl, hd, hx with
    | [], _, _, hx => exact absurd hx (List.not_mem_nil x)
    | [_], _, hd, _ => simp [base64.decode] at hd
    | [_, _], _, hd, _ => simp [base64.decode] at hd
    | [_, _, _], _, hd, _ => simp [base64.decode] at hd
    | a :: b :: c :: d :: rest, hl, hd, hx =>
      rw [base64.decode] at hd
      by_cases hr : rest = []
      · rw [if_pos hr] at hd
        subst hr
        exact decodeLast_chars a b c d bs hd x hx
      · rw [if_neg hr] at hd
        cases hf : base64.decodeFull a b c d with
        | none => simp [hf] at hd
        | some g =>
          cases hrest : base64.decode rest with
          | none => simp [hf, hrest] at hd
          | some tail =>
            have hx' : x ∈ [a, b, c, d] ∨ x ∈ rest := by
              simp only [List.mem_cons] at hx
              simp only [List.mem_cons, List.mem_singleton, List.not_mem_nil, or_false]
              tauto
            rcases hx' with h1 | h1
            · exact Or.inr (decodeFull_chars a b c d g hf x h1)
            · exact ih rest (by simp only [List.length_cons] at hl; omega) tail hrest x h1

/-- On a text without `%`, `QueryUnescape` turns every `+` into a blank and
nothing else. -/
lemma unescape_plain (l : List Char) (h : '%' ∉ l) :
    url.unescape l = some (l.map plusToBlank) := by
  induction l with
  | nil => rfl
  | cons c l ih =>
    have hc : c ≠ '%' := fun hc => h (by simp [hc])
    have hl : '%' ∉ l := fun hl => h (by simp [hl])
    by_cases hp : c = '+'
    · subst hp
      simp [url.unescape, ih hl, plusToBlank]
    · rw [url.unescape]
      · simp [ih hl, plusToBlank, hp]
      · intro a b rest heq _
        exact hc heq
      · intro heq
        exact hc heq
      · intro heq
        exact hp heq

/-- A text without the separator is one piece. -/
lemma splitChars_none (sep : Char) (l : List Char) (h : sep ∉ l) :
    strings.splitChars sep l = [l] := by
  induction l with
  | nil => rfl
  | cons c l ih =>
    have hc : c ≠ sep := fun hc => h (by simp [hc])
    have hl : sep ∉ l := fun hl => h (by simp [hl])
    simp [strings.splitChars, hc, ih hl]

/-- The characters of an encoding are plain in a URL, the `+` apart. -/
lemma encode_plain (bs : Bytes) (h : ∀ b ∈ bs, b < 256) :
    '&' ∉ base64.encode bs ∧ ';' ∉ base64.encode bs ∧ '%' ∉ base64.encode bs ∧
    '\r' ∉ base64.encode bs ∧ '\n' ∉ base64.encode bs ∧ ' ' ∉ base64.encode bs := by
  have key : ∀ x : Char, x ≠ '=' → (∀ n, n < 64 → base64.enc6 n ≠ x) → x ∉ base64.encode bs := by
    intro x hx hn hmem
    rcases encode_chars bs h x hmem with h1 | ⟨n, hn1, hn2⟩
    · exact hx h1
    · exact hn n hn1 hn2.symm
  refine ⟨key _ (by decide) (fun n hn => (enc6_plain n hn).2.2.2.1),
    key _ (by decide) (fun n hn => (enc6_plain n hn).2.2.2.2.1),
    key _ (by decide) (fun n hn => (enc6_plain n hn).2.2.2.2.2.1),
    key _ (by decide) (fun n hn => (enc6_plain n hn).2.1),
    key _ (by decide) (fun n hn => (enc6_plain n hn).2.2.1),
    key _ (by decide) (fun n hn => (enc6_plain n hn).2.2.2.2.2.2.1)⟩

/-- The value `URL.Query()` gives for `key` in the query `key=<encoding>`: the
encoding with every `+` turned into a blank. -/
lemma query_key (bs : Bytes) (h : ∀ b ∈ bs, b < 256) :
    url.Get (url.ParseQuery (String.mk (keyParam ++ base64.encode bs))) "key" =
      String.mk ((base64.encode bs).map plusToBlank) := by
  obtain ⟨hamp, hsemi, hpct, _, _, _⟩ := encode_plain bs h
  have h1 : '&' ∉ keyParam ++ base64.encode bs := by
    simp only [List.mem_append, not_or]
    exact ⟨by decide, hamp⟩
  have h2 : ';' ∉ keyParam ++ base64.encode bs := by
    simp only [List.mem_append, not_or]
    exact ⟨by decide, hsemi⟩
  have ht : (keyParam ++ base64.encode bs).takeWhile (fun c => c ≠ '=') = ['k', 'e', 'y'] := by
    simp [keyParam, List.takeWhile]
  have hd : ((keyParam ++ base64.encode bs).dropWhile (fun c => c ≠ '=')).drop 1 =
      base64.encode bs := by
    simp [keyParam, List.dropWhile]
  have hne : keyParam ++ base64.encode bs ≠ [] := by simp [keyParam]
  have hk : url.unescape ['k', 'e', 'y'] = some ['k', 'e', 'y'] := by decide
  unfold url.ParseQuery url.Get
  simp only [splitChars_none '&' _ h1, List.filterMap_cons, List.filterMap_nil]
  simp only [url.parsePair, if_neg h2, if_neg hne, ht, hd, hk, unescape_plain _ hpct]
  simp [List.lookup]

/-- The key check of a listed link: the value `URL.Query()` gives for `key`
decodes to the bytes of the key exactly when the encoding holds no `+`. -/
lemma decode_query_key (bs : Bytes) (h : ∀ b ∈ bs, b < 256) :
    base64.DecodeString (url.Get (url.ParseQuery (String.mk (keyParam ++ base64.encode bs)))
      "key") = some bs ↔ '+' ∉ base64.encode bs := by
  obtain ⟨_, _, _, hcr, hlf, hsp⟩ := encode_plain bs h
  rw [query_key bs h]
  unfold base64.DecodeString
  simp only
  constructor
  · intro hdec hplus
    have hmem : ' ' ∈ ((base64.encode bs).map plusToBlank).filter
        (fun c => c ≠ '\r' ∧ c ≠ '\n') := by
      rw [List.mem_filter]
      refine ⟨List.mem_map.mpr ⟨'+', hplus, by decide⟩, by decide⟩
    rcases decode_chars _ _ (le_refl _) bs hdec ' ' hmem with h1 | h1
    · exact absurd h1 (by decide)
    · exact absurd h1 (by decide)
  · intro hplus
    have hmap : (base64.encode bs).map plusToBlank = base64.encode bs := by
      refine (List.map_congr_left (fun c hc => ?_)).trans (List.map_id _)
      have : c ≠ '+' := fun hcp => hplus (hcp ▸ hc)
      simp [plusToBlank, this]
    have hfil : (base64.encode bs).filter (fun c => c ≠ '\r' ∧ c ≠ '\n') = base64.encode bs := by
      rw [List.filter_eq_self]
      intro c hc
      have h1 : c ≠ '\r' := fun hcp => hcr (hcp ▸ hc)
      have h2 : c ≠ '\n' := fun hcp => hlf (hcp ▸ hc)
      simp [h1, h2]
    rw [hmap, hfil]
    exact decode_encode bs h

/-- The bytes of a text are bytes. -/
lemma bytesOf_lt (s : String) : ∀ b ∈ bytesOf s, b < 256 := by
  intro b hb
  simp only [bytesOf, List.mem_map] at hb
  obtain ⟨u, _, rfl⟩ := hb
  exact u.toNat_lt

/-- The query of the link of a private image with a key. -/
lemma rawQuery_imageURL (image : Image) (hp : image.IsPrivate = true)
    (hk : image.PrivateKey ≠ "") (hu : '?' ∉ image.UUID.data) (he : '?' ∉ image.Extension.data) :
    url.rawQuery (imageURL image) =
      String.mk (keyParam ++ base64.encode (bytesOf image.PrivateKey)) := by
  have hpre : ∀ c ∈ '/' :: (image.UUID.data ++ '.' :: image.Extension.data),
      (fun c => decide (c ≠ '?')) c = true := by
    intro c hc
    simp only [List.mem_cons, List.mem_append] at hc
    simp only [ne_eq, decide_not, Bool.not_eq_true', decide_eq_false_iff_not]
    rcases hc with rfl | hc | rfl | hc
    · decide
    · exact fun h => hu (h ▸ hc)
    · decide
    · exact fun h => he (h ▸ hc)
  have hdata : (imageURL image).data =
      ('/' :: (image.UUID.data ++ '.' :: image.Extension.data)) ++
        ('?' :: (keyParam ++ base64.encode (bytesOf image.PrivateKey))) := by
    simp [imageURL, hp, hk, base64.EncodeToString, keyParam, String.data_append]
  unfold url.rawQuery
  rw [hdata, List.dropWhile_append_of_pos hpre]
  simp [List.dropWhile]

/-! ## Theorems -/

/-- C1 (as amended): for every key, every limit and every window of 1 to
9223372036 seconds, one call of `checkRateLimit` against a working store is the
fixed-window step: an absent counter is set to 1 with a time-to-live of
`period` seconds and the call admits; a counter below the limit is incremented
with its time-to-live untouched and the call admits; a counter at or above the
limit makes the call reject and the store is left as it was. -/
theorem checkRateLimit_fixed_window (key : String) (requests period : Int) (w : World)
    (now : Nat) (h0 : 0 < period) (h1 : period ≤ 9223372036) (hat : w.atomicAt now) :
    FixedWindowStep key requests period w now := by
  obtain ⟨ha, hb⟩ := hat
  obtain ⟨hd, hx⟩ := set_expiration period h0 h1
  refine ⟨?_, ?_, ?_⟩
  · intro hl
    simp [checkRateLimit, Prog.run, Store.Get, Store.Set, ha, hb, hl, hd, hx]
  · intro e hl hlt
    have hn : ¬ requests ≤ e.value := by omega
    simp [checkRateLimit, Prog.run, Store.Get, Store.Incr, ha, hb, hl, hn]
  · intro e hl hge
    simp [checkRateLimit, Prog.run, Store.Get, ha, hl, hge]

/-- C1, witness of the amended statement: limit 5, window 10 s, empty store. -/
theorem checkRateLimit_fixed_window_witness :
    (0 : Int) < 10 ∧ (10 : Int) ≤ 9223372036 ∧ World.atomicAt {} 0 ∧
      FixedWindowStep "rate_limit:/api/upload:1.2.3.4" 5 10 {} 0 :=
  ⟨by decide, by decide, ⟨rfl, rfl⟩,
    checkRateLimit_fixed_window "rate_limit:/api/upload:1.2.3.4" 5 10 {} 0
      (by decide) (by decide) ⟨rfl, rfl⟩⟩

/-- C1, counterexample to the statement for every window: with a window of 0
seconds the first call stores the counter without any time-to-live instead of
a time-to-live of 0 seconds, so the step is not the fixed-window step. -/
theorem checkRateLimit_window_zero :
    World.atomicAt {} 0 ∧
      ((checkRateLimit "rate_limit:/api/upload:1.2.3.4" 5 0).run {}).2.redis
        "rate_limit:/api/upload:1.2.3.4" = some { value := 1, expireAt := none } ∧
      ¬ FixedWindowStep "rate_limit:/api/upload:1.2.3.4" 5 0 {} 0 := by
  have hrun : ((checkRateLimit "rate_limit:/api/upload:1.2.3.4" 5 0).run {}).2.redis
      "rate_limit:/api/upload:1.2.3.4" = some { value := 1, expireAt := none } := by
    decide
  refine ⟨⟨rfl, rfl⟩, hrun, ?_⟩
  intro h
  have h2 := congrFun (h.1 rfl).2 "rate_limit:/api/upload:1.2.3.4"
  rw [hrun] at h2
  revert h2
  decide

/-- C2: with rate limiting on, a rule of `N ≥ 1` requests per window of `p`
seconds and the key of (route, client IP) absent at `t0`, serve the request at
`t0` and then at the times `ts`, all inside the window opened at `t0` (before
the expiry the first request gives the key).  Each of the first `N` requests is
handed to the next stage with the response untouched and the counter equal to
its rank; request `N+1` and every later one gets status 429 whatever the next
stage is.  A request after the key has expired is handed on again and sets the
counter to 1 with a new window.  For a window of 1 to 9223372036 seconds the
window ends `p` seconds after it was opened. -/
theorem rate_limit_window (rl : RateLimiter) (next : Handler) (r : Request) (N p : Int)
    (t0 : Nat) (ts : List Nat) (w : World)
    (hen : rl.config.RateLimit.Enabled = true) (hc : rl.hasClient = true)
    (hrule : rl.getRateConfig r.Path = (N, p)) (hN : 1 ≤ N)
    (hnext : ∀ r w, (next r w).redis = w.redis)
    (habs : w.redis.live t0 (rateKey r.Path (getClientIP r)) = none)
    (hts : ∀ t ∈ ts, ∀ E, windowEnd p t0 = some E → t < E) :
    (∀ pre t post, t0 :: ts = pre ++ t :: post →
      (((pre.length : Nat) : Int) < N →
        ∃ w', serveAt rl next r t (serveSeq rl next r pre w) = next r w' ∧ w'.resp = {} ∧
          w'.redis (rateKey r.Path (getClientIP r)) =
            some { value := ((pre.length + 1 : Nat) : Int), expireAt := windowEnd p t0 }) ∧
      (N ≤ ((pre.length : Nat) : Int) →
        (serveAt rl next r t (serveSeq rl next r pre w)).resp =
            ResponseWriter.Error {} "Too many requests" 429 ∧
          (serveAt rl next r t (serveSeq rl next r pre w)).resp.status = some 429 ∧
          ∀ next', serveAt rl next' r t (serveSeq rl next r pre w) =
            serveAt rl next r t (serveSeq rl next r pre w))) ∧
    (∀ t' E, windowEnd p t0 = some E → E < t' →
      ∃ w', serveAt rl next r t' (serveSeq rl next r (t0 :: ts) w) = next r w' ∧
        w'.resp = {} ∧
        w'.redis (rateKey r.Path (getClientIP r)) =
          some { value := 1, expireAt := windowEnd p t' }) ∧
    (0 < p → p ≤ 9223372036 → ∀ t, windowEnd p t = some (t + (1000 * p).toNat)) := by
  -- the first request opens the window
  have hfirst : (serveAt rl next r t0 w).redis (rateKey r.Path (getClientIP r)) =
      some { value := min ((1 : Nat) : Int) N, expireAt := windowEnd p t0 } := by
    obtain ⟨w', hw, _, hr⟩ := serveAt_absent rl next r N p t0 w hen hc hrule habs
    rw [hw, hnext, hr]
    simp only [Store.put, if_true]
    congr 2
    push_cast
    omega
  have hcount : ∀ l : List Nat, (∀ t ∈ l, t ∈ ts) →
      (serveSeq rl next r (t0 :: l) w).redis (rateKey r.Path (getClientIP r)) =
        some { value := min ((1 + l.length : Nat) : Int) N, expireAt := windowEnd p t0 } := by
    intro l hl
    exact serveSeq_counter rl next r N p _ hen hc hrule hnext l _ 1 hfirst
      (fun t ht => hts t (hl t ht))
  refine ⟨?_, ?_, fun h0 h1 t => windowEnd_seconds p t h0 h1⟩
  · intro pre t post hsplit
    cases pre with
    | nil =>
      simp only [List.nil_append, List.cons.injEq] at hsplit
      obtain ⟨rfl, _⟩ := hsplit
      refine ⟨fun _ => ?_, fun h => ?_⟩
      · obtain ⟨w', hw, hresp, hr⟩ := serveAt_absent rl next r N p t0 w hen hc hrule habs
        refine ⟨w', hw, hresp, ?_⟩
        rw [hr]
        simp [Store.put]
      · simp only [List.length_nil, Nat.cast_zero] at h
        omega
    | cons a pre' =>
      simp only [List.cons_append, List.cons.injEq] at hsplit
      obtain ⟨rfl, rfl⟩ := hsplit
      have hmem : ∀ x ∈ pre', x ∈ pre' ++ t :: post := fun x hx => List.mem_append_left _ hx
      have htin : t ∈ pre' ++ t :: post :=
        List.mem_append_right _ (List.mem_cons_self _ _)
      have hcnt := hcount pre' hmem
      have hl := live_of_entry _ _ _ _ t hcnt (hts t htin)
      refine ⟨fun h => ?_, fun h => ?_⟩
      · simp only [List.length_cons] at h ⊢
        obtain ⟨w', hw, hresp, hr⟩ := serveAt_below rl next r N p t _ _ hen hc hrule hl
          (by simp only; push_cast at h ⊢; omega)
        refine ⟨w', hw, hresp, ?_⟩
        rw [hr]
        simp only [Store.put, if_true]
        congr 2
        push_cast at h ⊢
        omega
      · simp only [List.length_cons] at h
        obtain ⟨hresp, _, hind⟩ := serveAt_reached rl next r N p t _ _ hen hc hrule hl
          (by simp only; push_cast at h ⊢; omega)
        refine ⟨hresp, ?_, hind⟩
        rw [hresp]
        rfl
  · intro t' E hE ht'
    have hcnt := hcount ts (fun _ h => h)
    rw [hE] at hcnt
    have hl := live_expired _ _ _ _ t' hcnt ht'
    obtain ⟨w', hw, hresp, hr⟩ := serveAt_absent rl next r N p t' _ hen hc hrule hl
    refine ⟨w', hw, hresp, ?_⟩
    rw [hr]
    simp [Store.put]

/-- C2, witness: 5 requests per 10 s for `/api/upload` from 1.2.3.4; requests
1 to 5 arrive within 3 s, request 6 at 3 s gets 429, the request at 11 s is
handed on and starts a new window. -/
theorem rate_limit_window_witness :
    (1 : Int) ≤ 5 ∧
    (Store.live (fun _ => none) 0
      (rateKey uploadRequest.Path (getClientIP uploadRequest)) = none) ∧
    windowEnd 10 0 = some 10000 ∧
    (serveAt uploadLimiter okHandler uploadRequest 3000
      (serveSeq uploadLimiter okHandler uploadRequest [0, 1000, 2000, 2500, 3000] {})).resp.status
        = some 429 ∧
    (∃ w', serveAt uploadLimiter okHandler uploadRequest 11000
        (serveSeq uploadLimiter okHandler uploadRequest [0, 1000, 2000, 2500, 3000, 3000] {}) =
          okHandler uploadRequest w' ∧ w'.resp = {} ∧
        w'.redis (rateKey uploadRequest.Path (getClientIP uploadRequest)) =
          some { value := 1, expireAt := windowEnd 10 11000 }) := by
  have h := rate_limit_window uploadLimiter okHandler uploadRequest 5 10 0
    [1000, 2000, 2500, 3000, 3000] {} rfl rfl (by decide) (by decide)
    (fun _ _ => rfl) rfl (by decide)
  exact ⟨by decide, rfl, by decide,
    ((h.1 [0, 1000, 2000, 2500, 3000] 3000 [] rfl).2 (by decide)).2.1,
    h.2.1 11000 10000 (by decide) (by decide)⟩

/-- C3: with rate limiting on, whenever a store command of the check fails (the
read fails; or the key is absent and the set fails; or the counter is below the
limit and the increment fails), `RateLimitMiddleware` hands the request to the
next stage, once, with the response untouched (no 429) and the store as it
was, after one ERROR call of the logger ("Rate limit check failed") that
follows the DEBUG call every check makes.  The counter in `w` is arbitrary. -/
theorem rate_limit_fail_open (rl : RateLimiter) (next : Handler) (r : Request) (w : World)
    (e : String)
    (hen : rl.config.RateLimit.Enabled = true) (hc : rl.hasClient = true)
    (hfail :
      (w.env w.calls).fail = some e ∨
      ((w.env w.calls).fail = none ∧
        w.redis.live (w.env w.calls).time (rateKey r.Path (getClientIP r)) = none ∧
        (w.env (w.calls + 1)).fail = some e) ∨
      ((w.env w.calls).fail = none ∧
        (∃ en, w.redis.live (w.env w.calls).time (rateKey r.Path (getClientIP r)) = some en ∧
          en.value < (rl.getRateConfig r.Path).1) ∧
        (w.env (w.calls + 1)).fail = some e)) :
    ∃ w', rl.RateLimitMiddleware next r w = next r w' ∧
      w'.resp = w.resp ∧ w'.redis = w.redis ∧
      w'.log = w.log ++
        [{ Level := "DEBUG", Message := "Checking rate limit",
           Data := [("key", LogValue.str (rateKey r.Path (getClientIP r))),
             ("route", LogValue.str r.Path), ("ip", LogValue.str (getClientIP r)),
             ("limit", LogValue.int (rl.getRateConfig r.Path).1),
             ("period", LogValue.int (rl.getRateConfig r.Path).2)] },
         { Level := "ERROR", Message := "Rate limit check failed",
           Data := [("error", LogValue.str e), ("route", LogValue.str r.Path),
             ("ip", LogValue.str (getClientIP r))] }] := by
  unfold RateLimiter.RateLimitMiddleware
  rcases hfail with h | ⟨h1, h2, h3⟩ | ⟨h1, ⟨en, h2, hlt⟩, h3⟩
  · simp [hen, hc, checkRateLimit, Prog.run, Store.Get, World.logCall, h]
    exact ⟨_, rfl, rfl, rfl, by simp⟩
  · simp [hen, hc, checkRateLimit, Prog.run, Store.Get, Store.Set, World.logCall, h1, h2, h3]
    exact ⟨_, rfl, rfl, rfl, by simp⟩
  · have hn : ¬ (rl.getRateConfig r.Path).1 ≤ en.value := by omega
    simp [hen, hc, checkRateLimit, Prog.run, Store.Get, Store.Incr, World.logCall, h1, h2, h3,
      hn]
    exact ⟨_, rfl, rfl, rfl, by simp⟩

/-- C3, witness: the store is unreachable and the counter of the key stands at
100 with a limit of 5; the request is handed on all the same. -/
theorem rate_limit_fail_open_witness :
    (unreachableStore.env unreachableStore.calls).fail =
        some "dial tcp 127.0.0.1:6379: connect: connection refused" ∧
    unreachableStore.redis uploadKey = some { value := 100, expireAt := none } ∧
    ∃ w', uploadLimiter.RateLimitMiddleware okHandler uploadRequest unreachableStore =
        okHandler uploadRequest w' ∧ w'.resp = unreachableStore.resp ∧
      (w'.log.filter (fun l => l.Level = "ERROR")).length = 1 := by
  obtain ⟨w', h1, h2, _, h4⟩ := rate_limit_fail_open uploadLimiter okHandler uploadRequest
    unreachableStore "dial tcp 127.0.0.1:6379: connect: connection refused" rfl rfl (Or.inl rfl)
  refine ⟨rfl, by decide, w', h1, h2, ?_⟩
  rw [h4]
  decide

/-- C4, the code at the failing input: limit 5, window 10 s.  The first check
sets the counter at time 0 (expiry at 10000 ms).  The second check reads the
counter at 10000 ms, finds 1, and increments at 10001 ms, after the key has
expired: `INCR` creates the key anew without expiry.  Both checks admit, the
stored counter has no time-to-live, it is live at every later time, and the
invariant `TTLWithinWindow` fails. -/
theorem checkRateLimit_incr_after_expiry :
    rateKey uploadRequest.Path (getClientIP uploadRequest) = uploadKey ∧
    uploadLimiter.getRateConfig uploadRequest.Path = (5, 10) ∧
    ((checkRateLimit uploadKey 5 10).run raceWorld).1 = (true, none) ∧
    ((checkRateLimit uploadKey 5 10).run raceWorld).2.redis uploadKey =
      some { value := 1, expireAt := some 10000 } ∧
    ((checkRateLimit uploadKey 5 10).run ((checkRateLimit uploadKey 5 10).run raceWorld).2).1 =
      (true, none) ∧
    afterRace.redis uploadKey = some { value := 1, expireAt := none } ∧
    (∀ now, afterRace.redis.live now uploadKey = some { value := 1, expireAt := none }) ∧
    ¬ TTLWithinWindow afterRace.redis 10001 10 := by
  have hk : afterRace.redis uploadKey = some { value := 1, expireAt := none } := by decide
  have hl : ∀ now, afterRace.redis.live now uploadKey = some { value := 1, expireAt := none } := by
    intro now
    simp [Store.live, hk]
  refine ⟨by decide, by decide, by decide, by decide, by decide, hk, hl, ?_⟩
  intro h
  obtain ⟨t, ht, _⟩ := h uploadKey _ (hl 10001)
  simp at ht

/-- C5, the code at failing inputs.  `main` wraps `mux` with the logging
middleware first and the authentication middleware last, so authentication is
the outermost stage and logging the innermost.  A request for `/api/list`
without cookies is answered 401 by the authentication stage: the logger is
never called and the store never consulted.  A request over the rate limit is
answered 429 and no "Incoming request" entry records it; a request that
reaches `mux` is logged by the rate limiter before the logging stage. -/
theorem handlerWithMiddleware_order :
    (∀ jwt cfg rateLimiter mux, handlerWithMiddleware jwt cfg rateLimiter mux =
      AuthMiddleware jwt cfg (CSRFMiddleware (CORSMiddleware cfg
        (rateLimiter.RateLimitMiddleware (LoggingMiddleware cfg mux))))) ∧
    (handlerWithMiddleware demoJwt demoConfig uploadLimiter okHandler listRequest {}).resp.status
      = some 401 ∧
    (handlerWithMiddleware demoJwt demoConfig uploadLimiter okHandler listRequest {}).log = [] ∧
    (handlerWithMiddleware demoJwt demoConfig uploadLimiter okHandler listRequest {}).calls = 0 ∧
    (handlerWithMiddleware demoJwt demoConfig uploadLimiter okHandler uploadRequest
      limitReached).resp.status = some 429 ∧
    ((handlerWithMiddleware demoJwt demoConfig uploadLimiter okHandler uploadRequest
      limitReached).log.map (fun l => l.Message)) = ["Checking rate limit", "Rate limit exceeded"] ∧
    ((handlerWithMiddleware demoJwt demoConfig uploadLimiter okHandler uploadRequest
      {}).log.map (fun l => l.Message)) = ["Checking rate limit", "Incoming request"] := by
  refine ⟨fun _ _ _ _ => rfl, by decide, by decide, by decide, by decide, by decide, by decide⟩

/-- C6: `CSRFMiddleware` hands the request to the next stage when the method is
GET, HEAD or OPTIONS, or the path is `/api/login` or `/api/upload`, or the
`X-CSRF-Token` header is non-empty and equal to a non-empty `csrf_token`
cookie; in every other case the result is the 403 answer of `SendForbidden`,
in which the next stage has no part.  In particular a POST to a non-public
path without the header, or with a header that differs from the cookie, gets
the 403 answer, and the same request sent as GET is handed on. -/
theorem csrf_delegates_iff (next : Handler) (r : Request) (w : World) :
    (csrfPasses r → CSRFMiddleware next r w = next r w) ∧
    (¬ csrfPasses r →
      (∃ message, CSRFMiddleware next r w = { w with resp := SendForbidden w.resp message }) ∧
      (w.resp.status = none → (CSRFMiddleware next r w).resp.status = some 403)) ∧
    (r.Method = "POST" → r.Path ≠ "/api/login" → r.Path ≠ "/api/upload" →
      (r.HeaderGet "X-CSRF-Token" = "" ∨
        r.Cookie "csrf_token" ≠ some (r.HeaderGet "X-CSRF-Token")) →
      (∃ message, CSRFMiddleware next r w = { w with resp := SendForbidden w.resp message }) ∧
      (w.resp.status = none → (CSRFMiddleware next r w).resp.status = some 403)) ∧
    CSRFMiddleware next { r with Method := "GET" } w = next { r with Method := "GET" } w := by
  refine ⟨(csrf_cases next r w).1, (csrf_cases next r w).2, ?_,
    (csrf_cases next { r with Method := "GET" } w).1 (Or.inl rfl)⟩
  intro hm hl hu ht
  apply (csrf_cases next r w).2
  unfold csrfPasses
  rw [hm]
  rintro (h | h | h | h | h | ⟨h1, value, h2, h3, h4⟩)
  · exact absurd h (by decide)
  · exact absurd h (by decide)
  · exact absurd h (by decide)
  · exact hl h
  · exact hu h
  · rcases ht with ht | ht
    · exact h1 ht
    · exact ht (by rw [h2, h4])

/-- C6, witness: a POST to `/api/logout` without the header gets 403; the same
request sent as GET passes. -/
theorem csrf_delegates_iff_witness :
    ¬ csrfPasses postWithoutToken ∧
    (CSRFMiddleware okHandler postWithoutToken {}).resp.status = some 403 ∧
    csrfPasses { postWithoutToken with Method := "GET" } ∧
    CSRFMiddleware okHandler { postWithoutToken with Method := "GET" } {} =
      okHandler { postWithoutToken with Method := "GET" } {} := by
  have hn : ¬ csrfPasses postWithoutToken := by
    unfold csrfPasses
    simp [postWithoutToken, Request.HeaderGet]
  have hp : csrfPasses { postWithoutToken with Method := "GET" } := Or.inl rfl
  exact ⟨hn, ((csrf_delegates_iff okHandler postWithoutToken {}).2.1 hn).2 rfl, hp,
    (csrf_delegates_iff okHandler { postWithoutToken with Method := "GET" } {}).1 hp⟩

/-- C7: for a path outside `/api/` and for the four public API paths,
`AuthMiddleware` is the next stage itself: same request, same world (nothing
written, no clock or cookie read), whatever the method and the cookies. -/
theorem auth_public_paths (jwt : JwtLib) (cfg : Config) (next : Handler) (r : Request)
    (w : World)
    (h : strings.HasPrefix r.Path "/api/" = false ∨ r.Path = "/api/login" ∨
      r.Path = "/api/verify" ∨ r.Path = "/api/refresh" ∨ r.Path = "/api/upload") :
    AuthMiddleware jwt cfg next r w = next r w := by
  unfold AuthMiddleware
  rcases h with h | h
  · simp [h]
  · by_cases hp : strings.HasPrefix r.Path "/api/" = true
    · simp [hp, h]
    · simp [hp]

/-- C7, witness: a DELETE of `/api/upload` with a meaningless access token. -/
theorem auth_public_paths_witness :
    garbageUploadRequest.Path = "/api/upload" ∧
    AuthMiddleware demoJwt demoConfig okHandler garbageUploadRequest {} =
      okHandler garbageUploadRequest {} :=
  ⟨rfl, auth_public_paths demoJwt demoConfig okHandler garbageUploadRequest {}
    (Or.inr (Or.inr (Or.inr (Or.inr rfl))))⟩

/-- C8: on a protected API path, an `access_token` cookie that validates with
tokenType refresh is answered 401 without the next stage; a validating token
admits exactly when its tokenType is access; a missing or empty cookie is
answered 401; a cookie that fails validation admits nothing by itself (without
a refresh token the answer is 401). -/
theorem auth_access_only (jwt : JwtLib) (cfg : Config) (next : Handler) (r : Request)
    (w : World) (hp : protectedPath r.Path) :
    (∀ claims, GetTokenFromCookie r "access_token" ≠ "" →
      ValidateToken jwt (w.clock w.reads) (GetTokenFromCookie r "access_token")
        cfg.App.JWTSecret = Except.ok claims →
      (claims.TokenType = RefreshToken →
        AuthMiddleware jwt cfg next r w =
            { w.timeNow.2 with resp := SendUnauthorized w.resp "Invalid token type" } ∧
          (w.resp.status = none → (AuthMiddleware jwt cfg next r w).resp.status = some 401)) ∧
      AuthMiddleware jwt cfg next r w =
        if claims.TokenType = AccessToken then next r w.timeNow.2
        else { w.timeNow.2 with resp := SendUnauthorized w.resp "Invalid token type" }) ∧
    (GetTokenFromCookie r "access_token" = "" →
      AuthMiddleware jwt cfg next r w =
        { w with resp := SendUnauthorized w.resp "No access token found" }) ∧
    (∀ err, GetTokenFromCookie r "access_token" ≠ "" →
      ValidateToken jwt (w.clock w.reads) (GetTokenFromCookie r "access_token")
        cfg.App.JWTSecret = Except.error err →
      GetTokenFromCookie r "refresh_token" = "" →
      AuthMiddleware jwt cfg next r w =
        { w.timeNow.2 with resp := SendUnauthorized w.resp "No refresh token found" }) := by
  obtain ⟨h1, h2, h3, h4, h5⟩ := hp
  have hpub : ¬ (r.Path = "/api/login" ∨ r.Path = "/api/verify" ∨ r.Path = "/api/refresh" ∨
      r.Path = "/api/upload") := by simp [h2, h3, h4, h5]
  refine ⟨fun claims hne hv => ?_, fun he => ?_, fun err hne hv hr => ?_⟩
  · have hmain : AuthMiddleware jwt cfg next r w =
        if claims.TokenType = AccessToken then next r w.timeNow.2
        else { w.timeNow.2 with resp := SendUnauthorized w.resp "Invalid token type" } := by
      unfold AuthMiddleware
      simp only [h1, Bool.not_true, Bool.false_eq_true, if_false, if_neg hpub, if_neg hne]
      simp only [World.timeNow, hv]
      by_cases ht : claims.TokenType = AccessToken
      · simp [ht]
      · simp [ht]
    refine ⟨fun hrt => ?_, hmain⟩
    have hna : ¬ claims.TokenType = AccessToken := by
      rw [hrt]; decide
    rw [hmain, if_neg hna]
    exact ⟨rfl, fun hs => sendError_status _ _ _ hs⟩
  · unfold AuthMiddleware
    simp only [h1, Bool.not_true, Bool.false_eq_true, if_false, if_neg hpub, he, if_true]
  · unfold AuthMiddleware
    simp only [h1, Bool.not_true, Bool.false_eq_true, if_false, if_neg hpub, if_neg hne]
    simp only [World.timeNow, hv, hr, if_true]

/-- C8, witness: a valid refresh token sent as `access_token` gets 401. -/
theorem auth_access_only_witness :
    protectedPath misusedRefreshRequest.Path ∧
    ValidateToken demoJwt 0 (GetTokenFromCookie misusedRefreshRequest "access_token")
      demoConfig.App.JWTSecret =
        Except.ok { Username := "alice", TokenType := "refresh", ExpiresAt := some 2000000000 } ∧
    (AuthMiddleware demoJwt demoConfig okHandler misusedRefreshRequest {}).resp.status =
      some 401 :=
  ⟨protectedPath_list, by rfl,
    ((((auth_access_only demoJwt demoConfig okHandler misusedRefreshRequest {}
      protectedPath_list).1
        { Username := "alice", TokenType := "refresh", ExpiresAt := some 2000000000 }
        (by decide) (by rfl)).1 rfl).2 rfl)⟩

/-- C9 (as amended): on a protected API path, a request whose `access_token`
cookie is missing or empty is answered 401 without any refresh attempt; a
request whose `access_token` cookie is present but fails validation, and whose
`refresh_token` cookie validates with tokenType refresh, gets a new token pair
(when signing succeeds), the two new cookies on the response, and is handed to
the next stage. -/
theorem auth_refresh_fallback (jwt : JwtLib) (cfg : Config) (next : Handler) (r : Request)
    (w : World) (hp : protectedPath r.Path) :
    (GetTokenFromCookie r "access_token" = "" →
      AuthMiddleware jwt cfg next r w =
          { w with resp := SendUnauthorized w.resp "No access token found" } ∧
        (w.resp.status = none → (AuthMiddleware jwt cfg next r w).resp.status = some 401)) ∧
    (∀ err refreshClaims newAccessToken newRefreshToken w2,
      GetTokenFromCookie r "access_token" ≠ "" →
      ValidateToken jwt (w.clock w.reads) (GetTokenFromCookie r "access_token")
        cfg.App.JWTSecret = Except.error err →
      GetTokenFromCookie r "refresh_token" ≠ "" →
      ValidateToken jwt (w.clock (w.reads + 1)) (GetTokenFromCookie r "refresh_token")
        cfg.App.JWTSecret = Except.ok refreshClaims →
      refreshClaims.TokenType = RefreshToken →
      GenerateTokenPair jwt refreshClaims.Username cfg.App.JWTSecret w.timeNow.2.timeNow.2 =
        (Except.ok (newAccessToken, newRefreshToken), w2) →
      AuthMiddleware jwt cfg next r w =
          next (r.AddCookie "access_token" newAccessToken)
            { w2 with resp :=
                SetTokenCookies w.resp newAccessToken newRefreshToken (decide (cfg.App.Environment = "production")) } ∧
        (w.resp.status = none →
          (SetTokenCookies w.resp newAccessToken newRefreshToken
            (decide (cfg.App.Environment = "production"))).cookies.map
              (fun c => (c.Name, c.Value)) =
            w.resp.cookies.map (fun c => (c.Name, c.Value)) ++
              [("access_token", newAccessToken), ("refresh_token", newRefreshToken)])) := by
  obtain ⟨h1, h2, h3, h4, h5⟩ := hp
  have hpub : ¬ (r.Path = "/api/login" ∨ r.Path = "/api/verify" ∨ r.Path = "/api/refresh" ∨
      r.Path = "/api/upload") := by simp [h2, h3, h4, h5]
  refine ⟨fun he => ?_, fun err refreshClaims a b w2 hne hv hrne hrv hrt hg => ?_⟩
  · have hmain : AuthMiddleware jwt cfg next r w =
        { w with resp := SendUnauthorized w.resp "No access token found" } := by
      unfold AuthMiddleware
      simp only [h1, Bool.not_true, Bool.false_eq_true, if_false, if_neg hpub, he, if_true]
    refine ⟨hmain, fun hs => ?_⟩
    rw [hmain]
    exact sendError_status _ _ _ hs
  · have hresp : w2.resp = w.resp := by
      have := generateTokenPair_resp jwt refreshClaims.Username cfg.App.JWTSecret
        w.timeNow.2.timeNow.2
      rw [hg] at this
      exact this
    constructor
    · unfold AuthMiddleware
      simp only [h1, Bool.not_true, Bool.false_eq_true, if_false, if_neg hpub, if_neg hne]
      have hv2 : ValidateToken jwt w.timeNow.1 (GetTokenFromCookie r "access_token")
          cfg.App.JWTSecret = Except.error err := hv
      have hrv2 : ValidateToken jwt w.timeNow.2.timeNow.1 (GetTokenFromCookie r "refresh_token")
          cfg.App.JWTSecret = Except.ok refreshClaims := hrv
      simp only [hv2, if_neg hrne, hrv2, hrt, ne_eq, not_true_eq_false, if_false, hg, hresp]
    · intro hs
      simp [SetTokenCookies, ResponseWriter.SetCookie, hs]

/-- C9, witness of the amended statement: expired access token, valid refresh
token. -/
theorem auth_refresh_fallback_witness :
    protectedPath staleAccessRequest.Path ∧
    ∃ w', AuthMiddleware demoJwt demoConfig okHandler staleAccessRequest {} =
        okHandler (staleAccessRequest.AddCookie "access_token" "new-access-alice") w' ∧
      w'.resp.cookies.map (fun c => (c.Name, c.Value)) =
        [("access_token", "new-access-alice"), ("refresh_token", "new-refresh-alice")] := by
  have h := ((auth_refresh_fallback demoJwt demoConfig okHandler staleAccessRequest {}
    protectedPath_list).2 "token is expired"
      { Username := "alice", TokenType := "refresh", ExpiresAt := some 2000000000 }
      "new-access-alice" "new-refresh-alice"
      (GenerateTokenPair demoJwt "alice" "secret" (World.timeNow (World.timeNow {}).2).2).2
      (by decide) (by rfl) (by decide) (by rfl) rfl (by rfl)).1
  exact ⟨protectedPath_list, _, h, by decide⟩

/-- C9, counterexample: `/api/list` with no `access_token` cookie and a
`refresh_token` cookie that validates with tokenType refresh.  The answer is
401 and no cookie is set: the refresh protocol is not attempted. -/
theorem auth_missing_access_token :
    protectedPath refreshOnlyRequest.Path ∧
    GetTokenFromCookie refreshOnlyRequest "access_token" = "" ∧
    ValidateToken demoJwt 0 (GetTokenFromCookie refreshOnlyRequest "refresh_token")
      demoConfig.App.JWTSecret =
        Except.ok { Username := "alice", TokenType := "refresh", ExpiresAt := some 2000000000 } ∧
    (AuthMiddleware demoJwt demoConfig okHandler refreshOnlyRequest {}).resp =
      SendUnauthorized {} "No access token found" ∧
    (AuthMiddleware demoJwt demoConfig okHandler refreshOnlyRequest {}).resp.status = some 401 ∧
    (AuthMiddleware demoJwt demoConfig okHandler refreshOnlyRequest {}).resp.cookies = [] :=
  ⟨protectedPath_list, by decide, by rfl, by decide, by decide, by decide⟩

/-- C10, the code at the failing input: `/api/list` with an expired
`access_token` cookie and a valid `refresh_token` cookie.  The fallback
succeeds and the response carries the two new cookies, but the new
`access_token` cookie is appended after the old one on the request, so the
next stage reads the old, failing token from it. -/
theorem auth_refresh_stale_cookie :
    protectedPath staleAccessRequest.Path ∧
    ValidateToken demoJwt 0 (GetTokenFromCookie staleAccessRequest "access_token")
      demoConfig.App.JWTSecret = Except.error "token is expired" ∧
    (AuthMiddleware demoJwt demoConfig echoAccessToken staleAccessRequest {}).resp.cookies.map
      (fun c => (c.Name, c.Value)) =
        [("access_token", "new-access-alice"), ("refresh_token", "new-refresh-alice")] ∧
    (AuthMiddleware demoJwt demoConfig echoAccessToken staleAccessRequest {}).resp.body =
      [Chunk.text "expired-alice"] ∧
    GetTokenFromCookie (staleAccessRequest.AddCookie "access_token" "new-access-alice")
      "access_token" = "expired-alice" :=
  ⟨protectedPath_list, by rfl, by decide, by decide, by decide⟩

/-- C13: over the golang-jwt library with a serialization that reads back what
it wrote, for every username and every secret, if `GenerateTokenPair` returns
`(access, refresh)` then at every time before the expiry of the access token
`ValidateToken access secret` returns claims with that username and tokenType
access (and the dates the token was given), and at every time before the
expiry of the refresh token `ValidateToken refresh secret` returns claims with
that username and tokenType refresh. -/
theorem token_round_trip (p : JwtPrims) (hrt : p.RoundTrip) (username secret : String)
    (w : World) (access refresh : String) (w' : World)
    (hgen : GenerateTokenPair (golangJwt p) username secret w =
      (Except.ok (access, refresh), w')) :
    (∀ now, now < (w.clock w.reads + 15 * Minute) / Second * Second →
      ValidateToken (golangJwt p) now access secret =
        Except.ok { Username := username, TokenType := AccessToken,
                    ExpiresAt := some ((w.clock w.reads + 15 * Minute) / Second),
                    IssuedAt := some (w.clock (w.reads + 1) / Second) }) ∧
    (∀ now, now < (w.clock (w.reads + 2) + 7 * 24 * Hour) / Second * Second →
      ValidateToken (golangJwt p) now refresh secret =
        Except.ok { Username := username, TokenType := RefreshToken,
                    ExpiresAt := some ((w.clock (w.reads + 2) + 7 * 24 * Hour) / Second),
                    IssuedAt := some (w.clock (w.reads + 3) / Second) }) := by
  rw [generateTokenPair_golang] at hgen
  simp only [Prod.mk.injEq, Except.ok.injEq] at hgen
  obtain ⟨⟨ha, hr⟩, _⟩ := hgen
  subst ha hr
  refine ⟨fun now hnow => ?_, fun now hnow => ?_⟩
  · exact validateToken_signed p hrt _ secret secret now rfl
      (claimsError_none _ now _ rfl rfl hnow)
  · exact validateToken_signed p hrt _ secret secret now rfl
      (claimsError_none _ now _ rfl rfl hnow)

/-- C13, witness: the pair issued to alice at clock 0 and validated at once. -/
theorem token_round_trip_witness :
    toyPrims.RoundTrip ∧
    GenerateTokenPair (golangJwt toyPrims) "alice" "secret" {} =
      (Except.ok (signedHS256 toyPrims
          { Username := "alice", TokenType := AccessToken, ExpiresAt := some 900,
            IssuedAt := some 0 } "secret",
        signedHS256 toyPrims
          { Username := "alice", TokenType := RefreshToken, ExpiresAt := some 604800,
            IssuedAt := some 0 } "secret"), { reads := 4 }) ∧
    ValidateToken (golangJwt toyPrims) 0
      (signedHS256 toyPrims
        { Username := "alice", TokenType := AccessToken, ExpiresAt := some 900,
          IssuedAt := some 0 } "secret") "secret" =
      Except.ok { Username := "alice", TokenType := AccessToken, ExpiresAt := some 900,
                  IssuedAt := some 0 } ∧
    ValidateToken (golangJwt toyPrims) 0
      (signedHS256 toyPrims
        { Username := "alice", TokenType := RefreshToken, ExpiresAt := some 604800,
          IssuedAt := some 0 } "secret") "secret" =
      Except.ok { Username := "alice", TokenType := RefreshToken, ExpiresAt := some 604800,
                  IssuedAt := some 0 } := by
  have hgen := generateTokenPair_golang toyPrims "alice" "secret" {}
  have h := token_round_trip toyPrims toyPrims_roundTrip "alice" "secret" {} _ _ _ hgen
  exact ⟨toyPrims_roundTrip, hgen, h.1 0 (by decide), h.2 0 (by decide)⟩

/-- C14: for every token whose claims carry an `exp` at or before the time of
validation (in particular earlier than it), `ValidateToken` returns an error
and no claims, whatever the method, the signature and the secret. -/
theorem validateToken_expired (p : JwtPrims) (tokenString secret : String) (now : Int)
    (method : SigningMethod) (claims : Claims) (input sig : Bytes) (exp : Int)
    (hd : p.deserialize tokenString = some (method, claims, input, sig))
    (he : claims.ExpiresAt = some exp) (hexp : exp * Second ≤ now) :
    ∃ err, ValidateToken (golangJwt p) now tokenString secret = Except.error err := by
  cases method with
  | other alg => exact ⟨_, by simp [ValidateToken, golangJwt, hd]; rfl⟩
  | HMAC alg =>
    by_cases hs : sig = hmacSum (p.hash alg) (hmacBlockSize alg) (bytesOf secret) input
    · exact ⟨"token is expired", by simp [ValidateToken, golangJwt, hd, hs, claimsError, he, hexp]⟩
    · exact ⟨"signature is invalid", by simp [ValidateToken, golangJwt, hd, hs]⟩

/-- C15 (as amended): `ValidateToken` returns claims only if the token declares
a method of the HMAC family and its signature is the MAC of its signing string
under the configured secret; every token that declares any other method is
rejected with an error, and so is every token whose signature is not the MAC
under the configured secret. -/
theorem validateToken_algorithm_and_mac (p : JwtPrims) (tokenString secret : String)
    (now : Int) :
    (∀ claims, ValidateToken (golangJwt p) now tokenString secret = Except.ok claims →
      ∃ alg input sig, p.deserialize tokenString = some (SigningMethod.HMAC alg, claims, input, sig) ∧
        sig = hmacSum (p.hash alg) (hmacBlockSize alg) (bytesOf secret) input) ∧
    (∀ alg claims input sig,
      p.deserialize tokenString = some (SigningMethod.other alg, claims, input, sig) →
      ∃ err, ValidateToken (golangJwt p) now tokenString secret = Except.error err) ∧
    (∀ alg claims input sig,
      p.deserialize tokenString = some (SigningMethod.HMAC alg, claims, input, sig) →
      sig ≠ hmacSum (p.hash alg) (hmacBlockSize alg) (bytesOf secret) input →
      ∃ err, ValidateToken (golangJwt p) now tokenString secret = Except.error err) := by
  refine ⟨fun claims h => ?_, fun alg claims input sig hd => ?_,
    fun alg claims input sig hd hs => ?_⟩
  · cases hd : p.deserialize tokenString with
    | none => simp [ValidateToken, golangJwt, hd] at h
    | some t =>
      obtain ⟨method, c, input, sig⟩ := t
      cases method with
      | other alg => simp [ValidateToken, golangJwt, hd] at h
      | HMAC alg =>
        by_cases hs : sig = hmacSum (p.hash alg) (hmacBlockSize alg) (bytesOf secret) input
        · cases hc : claimsError c now with
          | some err => simp [ValidateToken, golangJwt, hd, hs, hc] at h
          | none =>
            simp [ValidateToken, golangJwt, hd, hs, hc] at h
            subst h
            exact ⟨alg, input, sig, rfl, hs⟩
        · simp [ValidateToken, golangJwt, hd, hs] at h
  · exact ⟨_, by simp [ValidateToken, golangJwt, hd]; rfl⟩
  · exact ⟨"signature is invalid", by simp [ValidateToken, golangJwt, hd, hs]⟩

/-- C15, counterexample: a token whose MAC was computed with the secret
"secret" followed by a NUL byte, a different secret, validates under "secret":
HMAC pads a short key with zero bytes, so both keys give the same MAC.  This
holds for every hash function and every serialization that round-trips. -/
theorem validateToken_padded_secret :
    ("secret\x00" : String) ≠ "secret" ∧
    bytesOf "secret\x00" ≠ bytesOf "secret" ∧
    ValidateToken (golangJwt toyPrims) 0 (signedHS256 toyPrims aliceClaims "secret\x00")
      "secret" = Except.ok aliceClaims ∧
    (∀ p : JwtPrims, p.RoundTrip → ∀ c now, claimsError c now = none →
      ValidateToken (golangJwt p) now (signedHS256 p c "secret\x00") "secret" =
        Except.ok c) := by
  have hgen : ∀ p : JwtPrims, p.RoundTrip → ∀ c now, claimsError c now = none →
      ValidateToken (golangJwt p) now (signedHS256 p c "secret\x00") "secret" =
        Except.ok c := by
    intro p hrt c now hc
    apply validateToken_signed p hrt c _ _ now _ hc
    rw [bytesOf_padded]
    exact hmacKeyBlock_zero _ _ _ (by decide)
  exact ⟨by decide, by decide, hgen toyPrims toyPrims_roundTrip aliceClaims 0 (by decide), hgen⟩

/-- C16 (as amended): for every pair produced by `GenerateTokenPair`, the access
token's `exp` is the first clock reading in whole seconds plus 900 and its
`iat` the second clock reading in whole seconds; the refresh token's `exp` is
the third reading in whole seconds plus 604800 and its `iat` the fourth.  So
`exp - iat` is exactly 900 (604800) when the two readings fall in the same
second, and at most 900 (604800) when the clock does not run backwards. -/
theorem token_lifetimes (p : JwtPrims) (hrt : p.RoundTrip) (username secret : String)
    (w : World) (access refresh : String) (w' : World)
    (hgen : GenerateTokenPair (golangJwt p) username secret w =
      (Except.ok (access, refresh), w')) :
    ∃ ca cr ia ir sa sr eA iA eR iR,
      p.deserialize access = some (SigningMethod.HMAC "HS256", ca, ia, sa) ∧
      p.deserialize refresh = some (SigningMethod.HMAC "HS256", cr, ir, sr) ∧
      ca.ExpiresAt = some eA ∧ ca.IssuedAt = some iA ∧
      cr.ExpiresAt = some eR ∧ cr.IssuedAt = some iR ∧
      eA = w.clock w.reads / Second + 900 ∧ iA = w.clock (w.reads + 1) / Second ∧
      eR = w.clock (w.reads + 2) / Second + 604800 ∧ iR = w.clock (w.reads + 3) / Second ∧
      (w.clock w.reads / Second = w.clock (w.reads + 1) / Second → eA - iA = 900) ∧
      (w.clock (w.reads + 2) / Second = w.clock (w.reads + 3) / Second → eR - iR = 604800) ∧
      (w.clock w.reads ≤ w.clock (w.reads + 1) → eA - iA ≤ 900) ∧
      (w.clock (w.reads + 2) ≤ w.clock (w.reads + 3) → eR - iR ≤ 604800) := by
  rw [generateTokenPair_golang] at hgen
  simp only [Prod.mk.injEq, Except.ok.injEq] at hgen
  obtain ⟨⟨ha, hr⟩, _⟩ := hgen
  subst ha hr
  have h900 : ∀ t : Int, (t + 15 * Minute) / Second = t / Second + 900 := by
    intro t
    unfold Minute Second
    omega
  have h7 : ∀ t : Int, (t + 7 * 24 * Hour) / Second = t / Second + 604800 := by
    intro t
    unfold Hour Minute Second
    omega
  have hmono : ∀ a b : Int, a ≤ b → a / Second ≤ b / Second := by
    intro a b hab
    unfold Second
    omega
  refine ⟨_, _, _, _, _, _, _, _, _, _, hrt _ _, hrt _ _, rfl, rfl, rfl, rfl, h900 _, rfl, h7 _,
    rfl, ?_, ?_, ?_, ?_⟩
  · intro h; rw [h900, h]; omega
  · intro h; rw [h7, h]; omega
  · intro h; rw [h900]; have := hmono _ _ h; omega
  · intro h; rw [h7]; have := hmono _ _ h; omega

/-- C16, witness of the amended statement: the pair issued at clock 0. -/
theorem token_lifetimes_witness :
    toyPrims.RoundTrip ∧
    ∃ ca cr ia ir sa sr,
      toyPrims.deserialize (signedHS256 toyPrims
          { Username := "alice", TokenType := AccessToken, ExpiresAt := some 900,
            IssuedAt := some 0 } "secret") = some (SigningMethod.HMAC "HS256", ca, ia, sa) ∧
      toyPrims.deserialize  (signedHS256 toyPrims
          { Username := "alice", TokenType := RefreshToken, ExpiresAt := some 604800,
            IssuedAt := some 0 } "secret") = some (SigningMethod.HMAC "HS256", cr, ir, sr) ∧
      ca.ExpiresAt = some 900 ∧ ca.IssuedAt = some 0 ∧
      cr.ExpiresAt = some 604800 ∧ cr.IssuedAt = some 0 := by
  obtain ⟨ca, cr, ia, ir, sa, sr, eA, iA, eR, iR, h1, h2, h3, h4, h5, h6, h7, h8, h9, h10, _⟩ :=
    token_lifetimes toyPrims toyPrims_roundTrip "alice" "secret" {} _ _ _
      (generateTokenPair_golang toyPrims "alice" "secret" {})
  have e1 : eA = 900 := by rw [h7]; decide
  have e2 : iA = 0 := by rw [h8]; decide
  have e3 : eR = 604800 := by rw [h9]; decide
  have e4 : iR = 0 := by rw [h10]; decide
  subst e1 e2 e3 e4
  exact ⟨toyPrims_roundTrip, ca, cr, ia, ir, sa, sr, h1, h2, h3, h4, h5, h6⟩

/-- C16, counterexample: the clock shows 0.999999999 s when `ExpiresAt` is
computed and 1.000000000 s when `IssuedAt` is; the access token gets `exp` 900
and `iat` 1, a lifetime of 899 s. -/
theorem token_lifetime_899 :
    GenerateTokenPair (golangJwt toyPrims) "alice" "secret" tickWorld =
      (Except.ok (signedHS256 toyPrims
          { Username := "alice", TokenType := AccessToken, ExpiresAt := some 900,
            IssuedAt := some 1 } "secret",
        signedHS256 toyPrims
          { Username := "alice", TokenType := RefreshToken, ExpiresAt := some 604801,
            IssuedAt := some 1 } "secret"), { tickWorld with reads := 4 }) ∧
    (∃ input sig, toyPrims.deserialize (signedHS256 toyPrims
          { Username := "alice", TokenType := AccessToken, ExpiresAt := some 900,
            IssuedAt := some 1 } "secret") =
        some (SigningMethod.HMAC "HS256",
          { Username := "alice", TokenType := AccessToken, ExpiresAt := some 900,
            IssuedAt := some 1 }, input, sig)) ∧
    (900 : Int) - 1 ≠ 900 := by
  refine ⟨?_, ⟨_, _, toyPrims_roundTrip _ _⟩, by decide⟩
  rw [generateTokenPair_golang]
  rfl

/-- C19 (as amended): the store key is "rate_limit:" ++ route ++ ":" ++ clientIP,
and two requests with the same key have the same route and the same client IP
whenever neither route contains ':', or neither client IP contains ':', or the
routes are equal, or the client IPs are equal. -/
theorem rateKey_injective (r1 r2 c1 c2 : String) (h : rateKey r1 c1 = rateKey r2 c2) :
    ((':' ∉ r1.data ∧ ':' ∉ r2.data) → r1 = r2 ∧ c1 = c2) ∧
    ((':' ∉ c1.data ∧ ':' ∉ c2.data) → r1 = r2 ∧ c1 = c2) ∧
    (r1 = r2 → c1 = c2) ∧ (c1 = c2 → r1 = r2) := by
  have hd : r1.data ++ ':' :: c1.data = r2.data ++ ':' :: c2.data := by
    have := congrArg String.data h
    rw [rateKey_data, rateKey_data] at this
    exact List.append_cancel_left this
  have first : (':' ∉ r1.data ∧ ':' ∉ r2.data) → r1 = r2 ∧ c1 = c2 := by
    rintro ⟨h1, h2⟩
    obtain ⟨e1, e2⟩ := append_sep_inj ':' _ _ _ _ h1 h2 hd
    exact ⟨String.ext e1, String.ext e2⟩
  have second : (':' ∉ c1.data ∧ ':' ∉ c2.data) → r1 = r2 ∧ c1 = c2 := by
    rintro ⟨h1, h2⟩
    have hr := congrArg List.reverse hd
    simp only [List.reverse_append, List.reverse_cons, List.append_assoc,
      List.singleton_append] at hr
    obtain ⟨e1, e2⟩ := append_sep_inj ':' _ _ _ _ (by simpa using h1) (by simpa using h2) hr
    exact ⟨String.ext (List.reverse_injective e2), String.ext (List.reverse_injective e1)⟩
  refine ⟨first, second, ?_, ?_⟩
  · intro e
    subst e
    exact String.ext (List.cons_injective (List.append_cancel_left hd))
  · intro e
    subst e
    have := List.append_cancel_right
      (show r1.data ++ (':' :: c1.data) = r2.data ++ (':' :: c1.data) from hd)
    exact String.ext this

/-- C19, witness of the amended statement: `/api/upload` from 1.2.3.4. -/
theorem rateKey_injective_witness :
    rateKey "/api/upload" "1.2.3.4" = rateKey "/api/upload" "1.2.3.4" ∧
    (':' ∉ ("/api/upload" : String).data ∧ ':' ∉ ("/api/upload" : String).data) ∧
    (("/api/upload" : String) = "/api/upload" ∧ ("1.2.3.4" : String) = "1.2.3.4") :=
  ⟨rfl, by decide,
    (rateKey_injective "/api/upload" "/api/upload" "1.2.3.4" "1.2.3.4" rfl).1 (by decide)⟩

/-- C19, counterexample: route `/p` with the IPv6 client `1:2::3` and route
`/p:1` with the IPv6 client `2::3` are different pairs with the same key, and
both client IPs are what `getClientIP` resolves from a peer address. -/
theorem rateKey_collision :
    rateKey "/p" "1:2::3" = rateKey "/p:1" "2::3" ∧
    rateKey "/p" "1:2::3" = "rate_limit:/p:1:2::3" ∧
    ¬ (("/p" : String) = "/p:1" ∧ ("1:2::3" : String) = "2::3") ∧
    getClientIP { Method := "GET", Path := "/p", RemoteAddr := "[1:2::3]:40000" } = "1:2::3" ∧
    getClientIP { Method := "GET", Path := "/p:1", RemoteAddr := "[2::3]:40000" } = "2::3" := by
  decide

/-- C20, the code at the failing input: `X-Forwarded-For: ,10.0.0.1`,
`X-Real-IP: 10.0.0.2`, peer `1.2.3.4:40000`.  The header is not empty, so
`getClientIP` returns its first entry, which is empty, and never looks at the
two candidates that are not. -/
theorem getClientIP_empty_first_entry :
    emptyForwardedRequest.HeaderGet "X-Forwarded-For" = ",10.0.0.1" ∧
    emptyForwardedRequest.HeaderGet "X-Real-IP" = "10.0.0.2" ∧
    net.SplitHostPort emptyForwardedRequest.RemoteAddr = some ("1.2.3.4", "40000") ∧
    getClientIP emptyForwardedRequest = "" ∧
    rateKey emptyForwardedRequest.Path (getClientIP emptyForwardedRequest) =
      "rate_limit:/api/upload:" := by
  decide

/-- C18: on a response not yet begun, `ClearTokenCookies` appends
`access_token` and `refresh_token` with Value "" and MaxAge -1 and otherwise
the attributes of `SetTokenCookies` (they are its cookies with value and
MaxAge replaced), and a POST to `Logout` appends the four cleared cookies
`access_token`, `refresh_token`, `csrf_token` (not HttpOnly) and `upload_key`,
Secure following the environment, and answers 200. -/
theorem logout_clears_cookies (cfg : Config) (r : Request) (w : World)
    (hpost : r.Method = "POST") (hs : w.resp.status = none) :
    (∀ secure, (ClearTokenCookies w.resp secure).cookies =
      w.resp.cookies ++
        [{ Name := "access_token", Value := "", Path := "/", MaxAge := -1,
           Secure := secure, HttpOnly := true, SameSite := SameSite.StrictMode },
         { Name := "refresh_token", Value := "", Path := "/", MaxAge := -1,
           Secure := secure, HttpOnly := true, SameSite := SameSite.StrictMode }]) ∧
    (∀ secure accessToken refreshToken,
      (ClearTokenCookies {} secure).cookies =
        (SetTokenCookies {} accessToken refreshToken secure).cookies.map
          (fun c => { c with Value := "", MaxAge := -1 })) ∧
    (Handler.Logout cfg r w).resp.cookies =
      w.resp.cookies ++
        [{ Name := "access_token", Value := "", Path := "/", MaxAge := -1,
           Secure := decide (cfg.App.Environment = "production"), HttpOnly := true,
           SameSite := SameSite.StrictMode },
         { Name := "refresh_token", Value := "", Path := "/", MaxAge := -1,
           Secure := decide (cfg.App.Environment = "production"), HttpOnly := true,
           SameSite := SameSite.StrictMode },
         { Name := "csrf_token", Value := "", Path := "/", MaxAge := -1,
           Secure := decide (cfg.App.Environment = "production"), HttpOnly := false,
           SameSite := SameSite.StrictMode },
         { Name := "upload_key", Value := "", Path := "/", MaxAge := -1,
           Secure := decide (cfg.App.Environment = "production"), HttpOnly := true,
           SameSite := SameSite.StrictMode }] ∧
    (Handler.Logout cfg r w).resp.status = some 200 := by
  have hclear : ∀ secure, (ClearTokenCookies w.resp secure).cookies =
      w.resp.cookies ++
        [{ Name := "access_token", Value := "", Path := "/", MaxAge := -1,
           Secure := secure, HttpOnly := true, SameSite := SameSite.StrictMode },
         { Name := "refresh_token", Value := "", Path := "/", MaxAge := -1,
           Secure := secure, HttpOnly := true, SameSite := SameSite.StrictMode }] := by
    intro secure
    unfold ClearTokenCookies
    rw [cookies_SetCookie _ _ (by simp [hs]), cookies_SetCookie _ _ hs]
    simp
  refine ⟨hclear, fun secure a b => by cases secure <;> rfl, ?_, ?_⟩
  · unfold Handler.Logout
    simp only [hpost, ne_eq, not_true_eq_false, if_false]
    simp only [cookies_Write, cookies_HeaderSet]
    rw [cookies_SetCookie _ _ (by simp [ClearTokenCookies, hs]),
      cookies_SetCookie _ _ (by simp [ClearTokenCookies, hs]), hclear]
    simp
  · unfold Handler.Logout
    simp [hpost, ResponseWriter.Write, ResponseWriter.HeaderSet, ClearTokenCookies, hs]

/-- C17: on a response not yet begun, `SetTokenCookies` appends exactly two
cookies: `access_token` with the given access token and MaxAge 900, and
`refresh_token` with the given refresh token and MaxAge 604800, each with
Path=/, HttpOnly, SameSite=Strict and Secure equal to the `secure` argument.
Every caller (`Login`, `RefreshToken`, `VerifyToken`, `AuthMiddleware`) passes
the flag "environment is production": every cookie it adds to the response
has Secure true exactly when the configured environment is "production". -/
theorem setTokenCookies_two_cookies (w : ResponseWriter) (accessToken refreshToken : String)
    (secure : Bool) (hs : w.status = none) :
    (SetTokenCookies w accessToken refreshToken secure).cookies =
      w.cookies ++
        [{ Name := "access_token", Value := accessToken, Path := "/", MaxAge := 900,
           Secure := secure, HttpOnly := true, SameSite := SameSite.StrictMode },
         { Name := "refresh_token", Value := refreshToken, Path := "/", MaxAge := 604800,
           Secure := secure, HttpOnly := true, SameSite := SameSite.StrictMode }] ∧
    (∀ jwt decode cfg r (x : World), ∀ c ∈ (Handler.Login jwt decode cfg r x).resp.cookies,
      c ∈ x.resp.cookies ∨ c.Secure = decide (cfg.App.Environment = "production")) ∧
    (∀ jwt cfg r (x : World), ∀ c ∈ (Handler.RefreshToken jwt cfg r x).resp.cookies,
      c ∈ x.resp.cookies ∨ c.Secure = decide (cfg.App.Environment = "production")) ∧
    (∀ jwt cfg r (x : World), ∀ c ∈ (Handler.VerifyToken jwt cfg r x).resp.cookies,
      c ∈ x.resp.cookies ∨ c.Secure = decide (cfg.App.Environment = "production")) ∧
    (∀ jwt cfg r (x : World), ∀ c ∈ (AuthMiddleware jwt cfg (fun _ y => y) r x).resp.cookies,
      c ∈ x.resp.cookies ∨ c.Secure = decide (cfg.App.Environment = "production")) := by
  refine ⟨?_, fun jwt decode cfg r x => login_secure jwt decode cfg r x,
    fun jwt cfg r x => refreshToken_secure jwt cfg r x,
    fun jwt cfg r x => verifyToken_secure jwt cfg r x,
    fun jwt cfg r x => authMiddleware_secure jwt cfg r x⟩
  unfold SetTokenCookies
  rw [cookies_SetCookie _ _ (by simp [hs]), cookies_SetCookie _ _ hs]
  simp

/-- C11 (as amended): when the refresh token is unusable (cookie absent or empty,
or validation fails, or the tokenType is not refresh, access included):
`AuthMiddleware`'s fallback (protected path, access token present and failing
validation) answers with `SendUnauthorized`, status 401 on a response not yet
begun, sets no cookie, and its result does not depend on the next stage; the
`RefreshToken` handler answers a POST with 401 and sets no cookie.  A request
to `RefreshToken` with any other method is answered 405 before the cookie is
read, without any cookie either. -/
theorem refresh_failure_terminal (jwt : JwtLib) (cfg : Config) (next : Handler) (r : Request)
    (w : World) :
    (protectedPath r.Path → GetTokenFromCookie r "access_token" ≠ "" →
      (∃ err, ValidateToken jwt (w.clock w.reads) (GetTokenFromCookie r "access_token")
        cfg.App.JWTSecret = Except.error err) →
      refreshFails jwt cfg r (w.clock (w.reads + 1)) →
      (∃ message, (AuthMiddleware jwt cfg next r w).resp = SendUnauthorized w.resp message) ∧
      (AuthMiddleware jwt cfg next r w).resp.cookies = w.resp.cookies ∧
      (w.resp.status = none → (AuthMiddleware jwt cfg next r w).resp.status = some 401) ∧
      (∀ next', AuthMiddleware jwt cfg next' r w = AuthMiddleware jwt cfg next r w)) ∧
    (r.Method = "POST" → refreshFails jwt cfg r (w.clock w.reads) →
      (∃ message, (Handler.RefreshToken jwt cfg r w).resp = w.resp.Error message 401) ∧
      (Handler.RefreshToken jwt cfg r w).resp.cookies = w.resp.cookies ∧
      (w.resp.status = none → (Handler.RefreshToken jwt cfg r w).resp.status = some 401)) ∧
    (r.Method ≠ "POST" →
      (Handler.RefreshToken jwt cfg r w).resp = w.resp.Error "Method not allowed" 405 ∧
      (Handler.RefreshToken jwt cfg r w).resp.cookies = w.resp.cookies) := by
  refine ⟨fun hp hne hv hf => ?_, fun hpost hf => ?_, fun hm => ?_⟩
  · obtain ⟨h1, h2, h3, h4, h5⟩ := hp
    obtain ⟨err, hv⟩ := hv
    have hpub : ¬ (r.Path = "/api/login" ∨ r.Path = "/api/verify" ∨ r.Path = "/api/refresh" ∨
        r.Path = "/api/upload") := by simp [h2, h3, h4, h5]
    have hv2 : ValidateToken jwt w.timeNow.1 (GetTokenFromCookie r "access_token")
        cfg.App.JWTSecret = Except.error err := hv
    have key : ∃ (message : String) (w1 : World), ∀ next', AuthMiddleware jwt cfg next' r w =
        { w1 with resp := SendUnauthorized w.resp message } := by
      rcases hf with hf | ⟨e, hf⟩ | ⟨claims, hf, ht⟩
      · refine ⟨"No refresh token found", w.timeNow.2, fun next' => ?_⟩
        unfold AuthMiddleware
        simp only [h1, Bool.not_true, Bool.false_eq_true, if_false, if_neg hpub, if_neg hne]
        simp only [hv2, hf, if_true]
        rfl
      · have hf2 : ValidateToken jwt w.timeNow.2.timeNow.1
            (GetTokenFromCookie r "refresh_token") cfg.App.JWTSecret = Except.error e := hf
        by_cases hre : GetTokenFromCookie r "refresh_token" = ""
        · refine ⟨"No refresh token found", w.timeNow.2, fun next' => ?_⟩
          unfold AuthMiddleware
          simp only [h1, Bool.not_true, Bool.false_eq_true, if_false, if_neg hpub, if_neg hne]
          simp only [hv2, hre, if_true]
          rfl
        · refine ⟨"Invalid refresh token", w.timeNow.2.timeNow.2, fun next' => ?_⟩
          unfold AuthMiddleware
          simp only [h1, Bool.not_true, Bool.false_eq_true, if_false, if_neg hpub, if_neg hne]
          simp only [hv2, if_neg hre, hf2]
          rfl
      · have hf2 : ValidateToken jwt w.timeNow.2.timeNow.1
            (GetTokenFromCookie r "refresh_token") cfg.App.JWTSecret = Except.ok claims := hf
        by_cases hre : GetTokenFromCookie r "refresh_token" = ""
        · refine ⟨"No refresh token found", w.timeNow.2, fun next' => ?_⟩
          unfold AuthMiddleware
          simp only [h1, Bool.not_true, Bool.false_eq_true, if_false, if_neg hpub, if_neg hne]
          simp only [hv2, hre, if_true]
          rfl
        · refine ⟨"Invalid refresh token", w.timeNow.2.timeNow.2, fun next' => ?_⟩
          unfold AuthMiddleware
          simp only [h1, Bool.not_true, Bool.false_eq_true, if_false, if_neg hpub, if_neg hne]
          simp only [hv2, if_neg hre, hf2, if_pos ht]
          rfl
    obtain ⟨message, w1, hk⟩ := key
    refine ⟨⟨message, by rw [hk next]⟩, by rw [hk next]; simp [SendUnauthorized],
      fun hs => by rw [hk next]; exact sendError_status _ _ _ hs,
      fun next' => by rw [hk next', hk next]⟩
  · have hm : ¬ r.Method ≠ "POST" := by simp [hpost]
    have key : ∃ message, (Handler.RefreshToken jwt cfg r w).resp = w.resp.Error message 401 := by
      rcases hf with hf | ⟨e, hf⟩ | ⟨claims, hf, ht⟩
      · refine ⟨"No refresh token provided", ?_⟩
        unfold Handler.RefreshToken
        simp only [if_neg hm, hf, if_true]
      · have hf2 : ValidateToken jwt w.timeNow.1
            (GetTokenFromCookie r "refresh_token") cfg.App.JWTSecret = Except.error e := hf
        by_cases hre : GetTokenFromCookie r "refresh_token" = ""
        · refine ⟨"No refresh token provided", ?_⟩
          unfold Handler.RefreshToken
          simp only [if_neg hm, hre, if_true]
        · refine ⟨"Invalid refresh token", ?_⟩
          unfold Handler.RefreshToken
          simp only [if_neg hm, if_neg hre, hf2]
          rfl
      · have hf2 : ValidateToken jwt w.timeNow.1
            (GetTokenFromCookie r "refresh_token") cfg.App.JWTSecret = Except.ok claims := hf
        by_cases hre : GetTokenFromCookie r "refresh_token" = ""
        · refine ⟨"No refresh token provided", ?_⟩
          unfold Handler.RefreshToken
          simp only [if_neg hm, hre, if_true]
        · refine ⟨"Invalid refresh token", ?_⟩
          unfold Handler.RefreshToken
          simp only [if_neg hm, if_neg hre, hf2, if_pos ht]
          rfl
    obtain ⟨message, hk⟩ := key
    exact ⟨⟨message, hk⟩, by rw [hk]; simp, fun hs => by rw [hk]; exact status_Error _ _ _ hs⟩
  · have hk : (Handler.RefreshToken jwt cfg r w).resp = w.resp.Error "Method not allowed" 405 := by
      unfold Handler.RefreshToken
      simp only [if_pos hm]
    exact ⟨hk, by rw [hk]; simp⟩

/-- C11, witness of the amended statement: a POST to `/api/refresh` whose
`refresh_token` cookie holds a valid access token gets 401 and no cookie. -/
theorem refresh_failure_terminal_witness :
    postRefreshWithAccess.Method = "POST" ∧
    refreshFails demoJwt demoConfig postRefreshWithAccess 0 ∧
    (Handler.RefreshToken demoJwt demoConfig postRefreshWithAccess {}).resp.status = some 401 ∧
    (Handler.RefreshToken demoJwt demoConfig postRefreshWithAccess {}).resp.cookies = [] := by
  have hf : refreshFails demoJwt demoConfig postRefreshWithAccess 0 :=
    Or.inr (Or.inr ⟨{ Username := "alice", TokenType := "access", ExpiresAt := some 2000000000 },
      by rfl, by decide⟩)
  have h := (refresh_failure_terminal demoJwt demoConfig okHandler postRefreshWithAccess {}).2.1
    rfl hf
  exact ⟨rfl, hf, h.2.2 rfl, h.2.1⟩

/-- C11, counterexample: a GET to the `RefreshToken` handler without a
`refresh_token` cookie is answered 405, not 401. -/
theorem refreshToken_get_405 :
    GetTokenFromCookie getRefreshRequest "refresh_token" = "" ∧
    refreshFails demoJwt demoConfig getRefreshRequest 0 ∧
    (Handler.RefreshToken demoJwt demoConfig getRefreshRequest {}).resp.status = some 405 ∧
    (Handler.RefreshToken demoJwt demoConfig getRefreshRequest {}).resp.status ≠ some 401 := by
  refine ⟨by decide, Or.inl (by decide), by decide, by decide⟩

/-- C12, the code at failing inputs: with an expired access token and a valid
refresh token, the refresh fallback of `AuthMiddleware` (GET `/api/list`) and
the one of `VerifyToken` (GET `/api/verify`) set a new `access_token` and a new
`refresh_token` cookie and no `csrf_token` cookie, while the `RefreshToken`
handler and `Login` set the `csrf_token` cookie with the pair. -/
theorem csrf_not_issued_by_fallbacks :
    ((AuthMiddleware demoJwt demoConfig okHandler staleAccessRequest {}).resp.cookies.map
      (fun c => (c.Name, c.Value))) =
        [("access_token", "new-access-alice"), ("refresh_token", "new-refresh-alice")] ∧
    (AuthMiddleware demoJwt demoConfig okHandler staleAccessRequest {}).resp.status = some 200 ∧
    ((Handler.VerifyToken demoJwt demoConfig staleVerifyRequest {}).resp.cookies.map
      (fun c => (c.Name, c.Value))) =
        [("access_token", "new-access-alice"), ("refresh_token", "new-refresh-alice")] ∧
    (Handler.VerifyToken demoJwt demoConfig staleVerifyRequest {}).resp.status = some 200 ∧
    ((Handler.RefreshToken demoJwt demoConfig postRefreshRequest aliceWorld).resp.cookies.map
      (fun c => (c.Name, c.Value))) =
        [("access_token", "new-access-alice"), ("refresh_token", "new-refresh-alice"),
         ("csrf_token", "c3JmLXRva2Vu")] ∧
    ((Handler.Login demoJwt demoDecode demoConfig loginRequest aliceWorld).resp.cookies.map
      (fun c => (c.Name, c.Value))) =
        [("access_token", "new-access-alice"), ("refresh_token", "new-refresh-alice"),
         ("csrf_token", "c3JmLXRva2Vu"), ("upload_key", "")] := by
  refine ⟨by decide, by decide, by decide, by decide, by decide, by decide⟩

/-- C17, witness: the two cookies on an empty response, `secure` true. -/
theorem setTokenCookies_two_cookies_witness :
    ({} : ResponseWriter).status = none ∧
    (SetTokenCookies {} "new-access-alice" "new-refresh-alice" true).cookies =
      [{ Name := "access_token", Value := "new-access-alice", Path := "/", MaxAge := 900,
         Secure := true, HttpOnly := true, SameSite := SameSite.StrictMode },
       { Name := "refresh_token", Value := "new-refresh-alice", Path := "/", MaxAge := 604800,
         Secure := true, HttpOnly := true, SameSite := SameSite.StrictMode }] :=
  ⟨rfl, (setTokenCookies_two_cookies {} "new-access-alice" "new-refresh-alice" true rfl).1⟩

/-- C18, witness: a POST to `/api/logout` on an empty response. -/
theorem logout_clears_cookies_witness :
    logoutRequest.Method = "POST" ∧ ({} : World).resp.status = none ∧
    ((Handler.Logout demoConfig logoutRequest {}).resp.cookies.map
      (fun c => (c.Name, c.Value, c.MaxAge, c.HttpOnly))) =
        [("access_token", "", -1, true), ("refresh_token", "", -1, true),
         ("csrf_token", "", -1, false), ("upload_key", "", -1, true)] := by
  have h := (logout_clears_cookies demoConfig logoutRequest {} rfl rfl).2.2.1
  refine ⟨rfl, rfl, ?_⟩
  rw [h]
  rfl

/-- C14, witness: a token of alice with `exp` 900, signed with the secret, is
accepted at time 0 and rejected just after 900 s. -/
theorem validateToken_expired_witness :
    toyPrims.deserialize (signedHS256 toyPrims
        { Username := "alice", TokenType := "access", ExpiresAt := some 900 } "secret") =
      some (SigningMethod.HMAC "HS256",
        { Username := "alice", TokenType := "access", ExpiresAt := some 900 }, [],
        hmacSum (toyPrims.hash "HS256") (hmacBlockSize "HS256") (bytesOf "secret") []) ∧
    (900 : Int) * Second ≤ 900000000001 ∧
    ValidateToken (golangJwt toyPrims) 0 (signedHS256 toyPrims
        { Username := "alice", TokenType := "access", ExpiresAt := some 900 } "secret") "secret" =
      Except.ok { Username := "alice", TokenType := "access", ExpiresAt := some 900 } ∧
    ∃ err, ValidateToken (golangJwt toyPrims) 900000000001 (signedHS256 toyPrims
        { Username := "alice", TokenType := "access", ExpiresAt := some 900 } "secret") "secret" =
      Except.error err :=
  ⟨toyPrims_roundTrip _ _, by decide,
    validateToken_signed toyPrims toyPrims_roundTrip _ "secret" "secret" 0 rfl (by decide),
    validateToken_expired toyPrims _ "secret" 900000000001 _ _ _ _ 900
      (toyPrims_roundTrip _ _) rfl (by decide)⟩

/-- C15, witness of the amended statement: a token that declares the method
"none" is rejected. -/
theorem validateToken_algorithm_and_mac_witness :
    toyPrims.deserialize (toyPrims.serialize (SigningMethod.other "none") aliceClaims []) =
      some (SigningMethod.other "none", aliceClaims,
        toyPrims.signingInput (SigningMethod.other "none") aliceClaims, []) ∧
    ∃ err, ValidateToken (golangJwt toyPrims) 0
      (toyPrims.serialize (SigningMethod.other "none") aliceClaims []) "secret" =
        Except.error err :=
  ⟨toyPrims_deserialize _ _ _,
    (validateToken_algorithm_and_mac toyPrims
      (toyPrims.serialize (SigningMethod.other "none") aliceClaims []) "secret" 0).2.1
      "none" aliceClaims _ [] (toyPrims_deserialize _ _ _)⟩

/-- C21: with CORS enabled, for every request (an OPTIONS preflight in
particular) whose `Origin` is no element of the allowed origins, the list
holding no "*" entry, `CORSMiddleware` is the next stage itself: the request is
handed on with the world untouched, so this layer sets no
`Access-Control-Allow-Origin` header nor any other header and writes no
status; what the layer returns is whatever the next stage returns. -/
theorem cors_preflight_unlisted (cfg : Config) (next : Handler) (r : Request) (w : World)
    (hen : cfg.CORS.Enabled = true)
    (ho : r.HeaderGet "Origin" ∉ cfg.CORS.AllowedOrigins)
    (hs : "*" ∉ cfg.CORS.AllowedOrigins) :
    CORSMiddleware cfg next r w = next r w ∧
      (∀ w', CORSMiddleware cfg (fun _ _ => w') r w = w') := by
  have hall : cfg.CORS.AllowedOrigins.any (fun allowedOrigin =>
      allowedOrigin = "*" || allowedOrigin = r.HeaderGet "Origin") = false := by
    rw [List.any_eq_false]
    intro x hx
    have h1 : x ≠ "*" := fun h => hs (h ▸ hx)
    have h2 : x ≠ r.HeaderGet "Origin" := fun h => ho (h ▸ hx)
    simp [h1, h2]
  have key : ∀ nx : Handler, CORSMiddleware cfg nx r w = nx r w := by
    intro nx
    unfold CORSMiddleware
    simp [hen, hall]
  exact ⟨key next, fun w' => key _⟩

/-- C21, witness: a preflight from `https://evil.example` when only
`https://app.example` is allowed; the response carries no header and no call
of `WriteHeader`. -/
theorem cors_preflight_unlisted_witness :
    corsConfig.CORS.Enabled = true ∧ foreignPreflight.Method = "OPTIONS" ∧
    foreignPreflight.HeaderGet "Origin" = "https://evil.example" ∧
    CORSMiddleware corsConfig okHandler foreignPreflight {} = okHandler foreignPreflight {} ∧
    (CORSMiddleware corsConfig okHandler foreignPreflight {}).resp.header = [] ∧
    (CORSMiddleware corsConfig okHandler foreignPreflight {}).resp.writeHeaderCalls = [] :=
  ⟨rfl, rfl, by decide,
    (cors_preflight_unlisted corsConfig okHandler foreignPreflight {} rfl
      (by decide) (by decide)).1, by decide, by decide⟩

/-- C23 (as amended): on every request `AuthMiddleware` either answers itself
(the result does not depend on the next stage) or hands to the next stage the
incoming request, as it is or with one `access_token` cookie appended (after a
refresh); the request context handed on is the incoming one, unchanged: the
middleware places no username in it. -/
theorem auth_context_unchanged (jwt : JwtLib) (cfg : Config) (r : Request) (w : World) :
    (∃ w', ∀ next, AuthMiddleware jwt cfg next r w = w') ∨
    (∃ r' w', (r' = r ∨ ∃ token, r' = r.AddCookie "access_token" token) ∧
      r'.Context = r.Context ∧ ∀ next, AuthMiddleware jwt cfg next r w = next r' w') := by
  unfold AuthMiddleware
  dsimp only
  split
  · exact Or.inr ⟨r, w, Or.inl rfl, rfl, fun _ => rfl⟩
  · split
    · exact Or.inr ⟨r, w, Or.inl rfl, rfl, fun _ => rfl⟩
    · split
      · exact Or.inl ⟨_, fun _ => rfl⟩
      · split
        · split
          · exact Or.inl ⟨_, fun _ => rfl⟩
          · split
            · exact Or.inl ⟨_, fun _ => rfl⟩
            · split
              · exact Or.inl ⟨_, fun _ => rfl⟩
              · split
                · exact Or.inl ⟨_, fun _ => rfl⟩
                · rename_i a b w2 _
                  exact Or.inr ⟨r.AddCookie "access_token" a, _, Or.inr ⟨a, rfl⟩, rfl,
                    fun _ => rfl⟩
        · split
          · exact Or.inl ⟨_, fun _ => rfl⟩
          · exact Or.inr ⟨r, _, Or.inl rfl, rfl, fun _ => rfl⟩

/-- C23, counterexample: `/api/list` with a valid access token of alice and an
empty request context.  The request is admitted, and the next stage receives
the request as it came: its context is empty and carries no username.  The
same after a refresh fallback. -/
theorem auth_no_username_in_context :
    protectedPath validAccessRequest.Path ∧
    ValidateToken demoJwt 0 (GetTokenFromCookie validAccessRequest "access_token")
      demoConfig.App.JWTSecret =
        Except.ok { Username := "alice", TokenType := "access", ExpiresAt := some 2000000000 } ∧
    AuthMiddleware demoJwt demoConfig echoContext validAccessRequest {} =
      echoContext validAccessRequest (World.timeNow {}).2 ∧
    (AuthMiddleware demoJwt demoConfig echoContext validAccessRequest {}).resp.body =
      [Chunk.json []] ∧
    (∀ key, validAccessRequest.ContextValue key = none) ∧
    (AuthMiddleware demoJwt demoConfig echoContext staleAccessRequest {}).resp.body =
      [Chunk.json []] :=
  ⟨protectedPath_list, by rfl, by rfl, by decide, fun _ => rfl, by decide⟩

/-- C22: over the golang-jwt library, for a login request whose body decodes
and a response not yet begun: the answer is 200 exactly when the store returns
a user for the submitted username whose stored password equals the submitted
one; in that case the response gains the four cookies `access_token`,
`refresh_token` (the generated pair), `csrf_token` (a fresh token) and
`upload_key` (the configured key), in this order, and the body is the
username; when the store returns no user, or a user with a different
password, the answer is 401 and no cookie is set. -/
theorem login_succeeds_iff (p : JwtPrims) (decode : String → Except String LoginRequest)
    (cfg : Config) (r : Request) (w : World) (req : LoginRequest)
    (hd : decode r.Body = Except.ok req) (hs : w.resp.status = none) :
    ((Handler.Login (golangJwt p) decode cfg r w).resp.status = some 200 ↔
      ∃ user, w.db req.Username = Except.ok (some user) ∧ user.Password = req.Password) ∧
    (∀ user, w.db req.Username = Except.ok (some user) → user.Password = req.Password →
      (Handler.Login (golangJwt p) decode cfg r w).resp.status = some 200 ∧
      (∃ accessToken refreshToken,
        (GenerateTokenPair (golangJwt p) user.Username cfg.App.JWTSecret w).1 =
          Except.ok (accessToken, refreshToken) ∧
        (Handler.Login (golangJwt p) decode cfg r w).resp.cookies.map
            (fun c => (c.Name, c.Value)) =
          w.resp.cookies.map (fun c => (c.Name, c.Value)) ++
            [("access_token", accessToken), ("refresh_token", refreshToken),
              ("csrf_token", w.rand w.draws), ("upload_key", cfg.App.UploadKey)]) ∧
      (Handler.Login (golangJwt p) decode cfg r w).resp.body =
        w.resp.body ++ [Chunk.json [("username", user.Username)]]) ∧
    ((w.db req.Username = Except.ok none ∨
        ∃ user, w.db req.Username = Except.ok (some user) ∧ user.Password ≠ req.Password) →
      (Handler.Login (golangJwt p) decode cfg r w).resp.status = some 401 ∧
      (Handler.Login (golangJwt p) decode cfg r w).resp.cookies = w.resp.cookies) := by
  have hok : ∀ user, w.db req.Username = Except.ok (some user) → user.Password = req.Password →
      (Handler.Login (golangJwt p) decode cfg r w).resp.status = some 200 ∧
      (∃ accessToken refreshToken,
        (GenerateTokenPair (golangJwt p) user.Username cfg.App.JWTSecret w).1 =
          Except.ok (accessToken, refreshToken) ∧
        (Handler.Login (golangJwt p) decode cfg r w).resp.cookies.map
            (fun c => (c.Name, c.Value)) =
          w.resp.cookies.map (fun c => (c.Name, c.Value)) ++
            [("access_token", accessToken), ("refresh_token", refreshToken),
              ("csrf_token", w.rand w.draws), ("upload_key", cfg.App.UploadKey)]) ∧
      (Handler.Login (golangJwt p) decode cfg r w).resp.body =
        w.resp.body ++ [Chunk.json [("username", user.Username)]] := by
    intro user hu hp
    unfold Handler.Login
    simp only [hd, hu, hp, ne_eq, not_true_eq_false, if_false, generateTokenPair_golang]
    refine ⟨?_, ⟨_, _, rfl, ?_⟩, ?_⟩
    · simp [World.logCall, GenerateCSRFToken, ResponseWriter.Write, SetTokenCookies, hs]
    · simp [World.logCall, GenerateCSRFToken, SetTokenCookies, csrfCookie, cookies_SetCookie, hs]
    · simp [World.logCall, GenerateCSRFToken, ResponseWriter.Write, SetTokenCookies,
        ResponseWriter.SetCookie, ResponseWriter.HeaderSet, hs]
  have hbad : (w.db req.Username = Except.ok none ∨
        ∃ user, w.db req.Username = Except.ok (some user) ∧ user.Password ≠ req.Password) →
      (Handler.Login (golangJwt p) decode cfg r w).resp.status = some 401 ∧
      (Handler.Login (golangJwt p) decode cfg r w).resp.cookies = w.resp.cookies := by
    rintro (hn | ⟨user, hu, hp⟩)
    · unfold Handler.Login
      simp only [hd, hn]
      exact ⟨status_Error _ _ _ (by simpa [World.logCall] using hs), by simp [World.logCall]⟩
    · unfold Handler.Login
      simp only [hd, hu, ne_eq, hp, not_false_eq_true, if_true]
      exact ⟨status_Error _ _ _ (by simpa [World.logCall] using hs), by simp [World.logCall]⟩
  refine ⟨⟨fun h => ?_, fun ⟨user, hu, hp⟩ => (hok user hu hp).1⟩, hok, hbad⟩
  cases hdb : w.db req.Username with
  | error err =>
    exfalso
    have : (Handler.Login (golangJwt p) decode cfg r w).resp.status = some 500 := by
      unfold Handler.Login
      simp only [hd, hdb]
      exact status_Error _ _ _ (by simpa [World.logCall] using hs)
    rw [this] at h
    exact absurd h (by decide)
  | ok u =>
    cases u with
    | none =>
      exfalso
      have := (hbad (Or.inl hdb)).1
      rw [this] at h
      exact absurd h (by decide)
    | some user =>
      by_cases hp : user.Password = req.Password
      · exact ⟨user, rfl, hp⟩
      · exfalso
        have := (hbad (Or.inr ⟨user, hdb, hp⟩)).1
        rw [this] at h
        exact absurd h (by decide)

/-- C22, witness: alice with password "pw" logs in; with "PW" the answer is
401 without cookies. -/
theorem login_succeeds_iff_witness :
    pairDecode loginRequest.Body = Except.ok { Username := "alice", Password := "pw" } ∧
    pairDecode wrongPasswordRequest.Body = Except.ok { Username := "alice", Password := "PW" } ∧
    (Handler.Login (golangJwt toyPrims) pairDecode demoConfig loginRequest aliceWorld).resp.status
      = some 200 ∧
    (Handler.Login (golangJwt toyPrims) pairDecode demoConfig wrongPasswordRequest
      aliceWorld).resp.status = some 401 ∧
    (Handler.Login (golangJwt toyPrims) pairDecode demoConfig wrongPasswordRequest
      aliceWorld).resp.cookies = [] := by
  have h1 := login_succeeds_iff toyPrims pairDecode demoConfig loginRequest aliceWorld
    { Username := "alice", Password := "pw" } (by rfl) rfl
  have h2 := login_succeeds_iff toyPrims pairDecode demoConfig wrongPasswordRequest aliceWorld
    { Username := "alice", Password := "PW" } (by rfl) rfl
  exact ⟨by rfl, by rfl,
    (h1.2.1 { ID := 1, Username := "alice", Password := "pw" } rfl rfl).1,
    (h2.2.2 (Or.inr ⟨{ ID := 1, Username := "alice", Password := "pw" }, rfl, by decide⟩)).1,
    (h2.2.2 (Or.inr ⟨{ ID := 1, Username := "alice", Password := "pw" }, rfl, by decide⟩)).2⟩

/-- C25: two concurrent calls of `checkRateLimit` on the same key with
requestsAllowed = 1, on a working store where the counter is absent.  Under the
schedule read, read, write, write both calls read the key as absent, both set
it to 1 and both are admitted: two requests pass where the limit is one, and
the counter stands at 1.  Under the sequential schedule (window of 1 to
9223372036 seconds) the second call is rejected. -/
theorem checkRateLimit_race (key : String) (period : Int) (w : World) (t : Nat)
    (henv : ∀ n, w.env n = { time := t }) (habs : w.redis.live t key = none) :
    (interleave [true, false, true, false] (checkRateLimit key 1 period)
      (checkRateLimit key 1 period) w).1.1.result? = some (true, none) ∧
    (interleave [true, false, true, false] (checkRateLimit key 1 period)
      (checkRateLimit key 1 period) w).1.2.result? = some (true, none) ∧
    (interleave [true, false, true, false] (checkRateLimit key 1 period)
      (checkRateLimit key 1 period) w).2.redis key =
        some { value := 1, expireAt := windowEnd period t } ∧
    (0 < period → period ≤ 9223372036 →
      (interleave [true, true, false, false] (checkRateLimit key 1 period)
        (checkRateLimit key 1 period) w).1.1.result? = some (true, none) ∧
      (interleave [true, true, false, false] (checkRateLimit key 1 period)
        (checkRateLimit key 1 period) w).1.2.result? = some (false, none)) := by
  have hrace : (interleave [true, false, true, false] (checkRateLimit key 1 period)
      (checkRateLimit key 1 period) w) =
        ((Prog.ret (true, none), Prog.ret (true, none)),
          { w with
            redis := (w.redis.put key { value := 1, expireAt := windowEnd period t }).put key
              { value := 1, expireAt := windowEnd period t },
            calls := w.calls + 1 + 1 + 1 + 1 }) := by
    by_cases hd : periodDuration period > 0
    · simp [interleave, checkRateLimit, Prog.step, Store.Get, Store.Set, henv, habs, hd,
        windowEnd]
    · simp [interleave, checkRateLimit, Prog.step, Store.Get, Store.Set, henv, habs, hd,
        windowEnd]
      split
      · simp [Store.live, Store.put]
      · rfl
  refine ⟨by rw [hrace]; rfl, by rw [hrace]; rfl, by rw [hrace]; simp [Store.put], ?_⟩
  intro h0 h1
  rw [interleave_sequential]
  obtain ⟨hd, hx⟩ := set_expiration period h0 h1
  have hr1 : (checkRateLimit key 1 period).run w =
      ((true, none),
        { w with
          redis := w.redis.put key { value := 1, expireAt := some (t + (1000 * period).toNat) },
          calls := w.calls + 1 + 1 }) := by
    simp [checkRateLimit, Prog.run, Store.Get, Store.Set, henv, habs, hd, hx]
  have hl : (w.redis.put key { value := 1, expireAt := some (t + (1000 * period).toNat) }).live
      t key = some { value := 1, expireAt := some (t + (1000 * period).toNat) } := by
    simp [Store.live, Store.put]
  rw [hr1]
  simp [checkRateLimit, Prog.run, Prog.result?, Store.Get, henv, hl]

/-- C25, witness: the key of `/api/upload` for 1.2.3.4, window 10 s, empty
store. -/
theorem checkRateLimit_race_witness :
    (∀ n, (({} : World).env n) = { time := 0 }) ∧
    Store.live (fun _ => none) 0 uploadKey = none ∧
    (interleave [true, false, true, false] (checkRateLimit uploadKey 1 10)
      (checkRateLimit uploadKey 1 10) {}).1.1.result? = some (true, none) ∧
    (interleave [true, false, true, false] (checkRateLimit uploadKey 1 10)
      (checkRateLimit uploadKey 1 10) {}).1.2.result? = some (true, none) ∧
    (interleave [true, true, false, false] (checkRateLimit uploadKey 1 10)
      (checkRateLimit uploadKey 1 10) {}).1.2.result? = some (false, none) :=
  ⟨fun _ => rfl, rfl,
    (checkRateLimit_race uploadKey 10 {} 0 (fun _ => rfl) rfl).1,
    (checkRateLimit_race uploadKey 10 {} 0 (fun _ => rfl) rfl).2.1,
    ((checkRateLimit_race uploadKey 10 {} 0 (fun _ => rfl) rfl).2.2.2 (by decide) (by decide)).2⟩

/-- C26: sequential requests against a working store, the key absent at `t0`,
served at `t0` and then at the times `ts` inside the window the first request
opens.  The request of rank `i` (counting from 0) is handed to the next stage
exactly when `i < max N 1`, and answered 429 otherwise: the first `max N 1`
requests of the window are admitted and no other, so a rule with `N ≤ 0` still
admits one.  After every non-empty prefix of the requests the counter is
`min (number served) (max N 1)`, never above `max N 1`. -/
theorem rate_limit_admits_max (rl : RateLimiter) (next : Handler) (r : Request) (N p : Int)
    (t0 : Nat) (ts : List Nat) (w : World)
    (hen : rl.config.RateLimit.Enabled = true) (hc : rl.hasClient = true)
    (hrule : rl.getRateConfig r.Path = (N, p))
    (hnext : ∀ r w, (next r w).redis = w.redis)
    (habs : w.redis.live t0 (rateKey r.Path (getClientIP r)) = none)
    (hts : ∀ t ∈ ts, ∀ E, windowEnd p t0 = some E → t < E) :
    (∀ pre t post, t0 :: ts = pre ++ t :: post →
      (((pre.length : Nat) : Int) < max N 1 →
        ∃ w', serveAt rl next r t (serveSeq rl next r pre w) = next r w' ∧ w'.resp = {}) ∧
      (max N 1 ≤ ((pre.length : Nat) : Int) →
        (serveAt rl next r t (serveSeq rl next r pre w)).resp.status = some 429 ∧
          ∀ next', serveAt rl next' r t (serveSeq rl next r pre w) =
            serveAt rl next r t (serveSeq rl next r pre w))) ∧
    (∀ pre post, t0 :: ts = pre ++ post → pre ≠ [] →
      ∃ e, (serveSeq rl next r pre w).redis (rateKey r.Path (getClientIP r)) = some e ∧
        e.value = min ((pre.length : Nat) : Int) (max N 1) ∧ e.value ≤ max N 1 ∧
        e.expireAt = windowEnd p t0) := by
  have hfirst : (serveAt rl next r t0 w).redis (rateKey r.Path (getClientIP r)) =
      some { value := min ((1 : Nat) : Int) (max N 1), expireAt := windowEnd p t0 } := by
    obtain ⟨w', hw, _, hr⟩ := serveAt_absent rl next r N p t0 w hen hc hrule habs
    rw [hw, hnext, hr]
    simp only [Store.put, if_true]
    congr 2
    push_cast
    omega
  have hcount : ∀ l : List Nat, (∀ t ∈ l, t ∈ ts) →
      (serveSeq rl next r (t0 :: l) w).redis (rateKey r.Path (getClientIP r)) =
        some { value := min ((1 + l.length : Nat) : Int) (max N 1),
               expireAt := windowEnd p t0 } := by
    intro l hl
    exact serveSeq_counter_max rl next r N p _ hen hc hrule hnext l _ 1 (le_refl 1) hfirst
      (fun t ht => hts t (hl t ht))
  refine ⟨?_, ?_⟩
  · intro pre t post hsplit
    cases pre with
    | nil =>
      simp only [List.nil_append, List.cons.injEq] at hsplit
      obtain ⟨rfl, _⟩ := hsplit
      refine ⟨fun _ => ?_, fun h => ?_⟩
      · obtain ⟨w', hw, hresp, _⟩ := serveAt_absent rl next r N p t0 w hen hc hrule habs
        exact ⟨w', hw, hresp⟩
      · simp only [List.length_nil, Nat.cast_zero] at h
        omega
    | cons a pre' =>
      simp only [List.cons_append, List.cons.injEq] at hsplit
      obtain ⟨rfl, rfl⟩ := hsplit
      have hmem : ∀ x ∈ pre', x ∈ pre' ++ t :: post := fun x hx => List.mem_append_left _ hx
      have htin : t ∈ pre' ++ t :: post :=
        List.mem_append_right _ (List.mem_cons_self _ _)
      have hcnt := hcount pre' hmem
      have hl := live_of_entry _ _ _ _ t hcnt (hts t htin)
      refine ⟨fun h => ?_, fun h => ?_⟩
      · simp only [List.length_cons] at h
        obtain ⟨w', hw, hresp, _⟩ := serveAt_below rl next r N p t _ _ hen hc hrule hl
          (by simp only; push_cast at h ⊢; omega)
        exact ⟨w', hw, hresp⟩
      · simp only [List.length_cons] at h
        obtain ⟨hresp, _, hind⟩ := serveAt_reached rl next r N p t _ _ hen hc hrule hl
          (by simp only; push_cast at h ⊢; omega)
        refine ⟨?_, hind⟩
        rw [hresp]
        rfl
  · intro pre post hsplit hne
    cases pre with
    | nil => exact absurd rfl hne
    | cons a pre' =>
      simp only [List.cons_append, List.cons.injEq] at hsplit
      obtain ⟨rfl, rfl⟩ := hsplit
      have hcnt := hcount pre' (fun x hx => List.mem_append_left _ hx)
      refine ⟨_, hcnt, ?_, ?_, rfl⟩
      · simp only [List.length_cons]
        congr 1
        push_cast
        omega
      · simp only
        omega

/-- C26, witness: a rule of 0 requests per 10 s; the first request is handed
on, the second gets 429, the counter stays at 1. -/
theorem rate_limit_admits_max_witness :
    closedLimiter.getRateConfig uploadRequest.Path = (0, 10) ∧
    (∃ w', serveAt closedLimiter okHandler uploadRequest 0 {} = okHandler uploadRequest w' ∧
      w'.resp = {}) ∧
    (serveAt closedLimiter okHandler uploadRequest 1000
      (serveSeq closedLimiter okHandler uploadRequest [0] {})).resp.status = some 429 ∧
    (∃ e, (serveSeq closedLimiter okHandler uploadRequest [0, 1000, 2000] {}).redis
        (rateKey uploadRequest.Path (getClientIP uploadRequest)) = some e ∧
      e.value = 1) := by
  have h := rate_limit_admits_max closedLimiter okHandler uploadRequest 0 10 0
    [1000, 2000] {} rfl rfl (by decide) (fun _ _ => rfl) rfl (by decide)
  obtain ⟨e, he, hv, _, _⟩ := h.2 [0, 1000, 2000] [] rfl (by decide)
  exact ⟨by decide, (h.1 [] 0 [1000, 2000] rfl).1 (by decide),
    ((h.1 [0] 1000 [2000] rfl).2 (by decide)).1, e, he, by rw [hv]; decide⟩

/-- C24: `size.Parse` converts with binary multipliers.  For every run of
decimal digits `ds` writing the number `n`, every unit name among B, KB, MB,
GB, TB (index `k` = 0..4) written in any letter case, with any white space
before the number, between number and unit and after the unit, and
`n * 1024^k < 2^53`, `Parse` returns `n * 1024^k` without error: the digits are
read as a `float64` exactly, each multiplication by 1024 is exact, and the
conversion to `int64` gives the number back. -/
theorem parse_binary_units (indefinite : Int) (ws1 ds ws2 u ws3 : List Char) (k : Nat)
    (name : String)
    (h1 : ∀ c ∈ ws1, strings.isSpace c = true) (h2 : ∀ c ∈ ws2, strings.isSpace c = true)
    (h3 : ∀ c ∈ ws3, strings.isSpace c = true)
    (hds : ds ≠ []) (hdig : ∀ c ∈ ds, c.isDigit = true)
    (hname : size.unitNames.get? k = some name) (hu : u ∈ caseVariants name.data)
    (hbound : digitsValue ds * 1024 ^ k < 2 ^ 53) :
    size.Parse indefinite (String.mk (ws1 ++ ds ++ ws2 ++ u ++ ws3)) =
      Except.ok ((digitsValue ds * 1024 ^ k : Nat) : Int) := by
  obtain ⟨hk, hup, hune, huh, hul⟩ := unit_variant name k u hname hu
  obtain ⟨hnumber, hunit⟩ := parse_parts ws1 ds ws2 u ws3 h1 h2 h3 hds
    (fun c hc => (isNumeric_iff c).mpr (Or.inl (hdig c hc))) hune huh hul
  have hn : digitsValue ds < 2 ^ 53 :=
    lt_of_le_of_lt (Nat.le_mul_of_pos_right _ (by positivity)) hbound
  unfold size.Parse
  simp only [hnumber, hunit, hup, if_neg hds, parseFloat_digits ds hds hdig hn]
  generalize digitsValue ds = n at *
  interval_cases k
  all_goals
    simp only [size.unitNames, List.get?, Option.some.injEq] at hname
    subst hname
    simp only [String.reduceEq, if_true, if_false]
  · rw [toInt64_nat _ _ (by omega)]
    simp
  · rw [mul_1024 n (by omega), toInt64_nat _ _ (by omega)]
    simp
  · rw [mul_1024 n (by omega), mul_1024 _ (by omega), toInt64_nat _ _ (by omega)]
    have e : n * 1024 * 1024 = n * 1024 ^ 2 := by ring
    rw [e]
  · rw [mul_1024 n (by omega), mul_1024 _ (by omega), mul_1024 _ (by omega),
      toInt64_nat _ _ (by omega)]
    have e : n * 1024 * 1024 * 1024 = n * 1024 ^ 3 := by ring
    rw [e]
  · rw [mul_1024 n (by omega), mul_1024 _ (by omega), mul_1024 _ (by omega),
      mul_1024 _ (by omega), toInt64_nat _ _ (by omega)]
    have e : n * 1024 * 1024 * 1024 * 1024 = n * 1024 ^ 4 := by ring
    rw [e]

/-- C24, witness: `Parse("10MB")` is 10485760, `Parse("5GB")` is 5368709120, and
a text with white space and a lower-case unit is read the same way. -/
theorem parse_binary_units_witness :
    size.Parse 0 "10MB" = Except.ok 10485760 ∧
    size.Parse 0 "5GB" = Except.ok 5368709120 ∧
    size.Parse 0 " 7 \tkb\n" = Except.ok 7168 := by
  have a := parse_binary_units 0 [] ['1', '0'] [] ['M', 'B'] [] 2 "MB"
    (by decide) (by decide) (by decide) (by decide) (by decide) rfl (by decide) (by decide)
  have b := parse_binary_units 0 [] ['5'] [] ['G', 'B'] [] 3 "GB"
    (by decide) (by decide) (by decide) (by decide) (by decide) rfl (by decide) (by decide)
  have c := parse_binary_units 0 [' '] ['7'] [' ', '\t'] ['k', 'b'] ['\n'] 1 "KB"
    (by decide) (by decide) (by decide) (by decide) (by decide) rfl (by decide) (by decide)
  have ea : digitsValue ['1', '0'] * 1024 ^ 2 = 10485760 := by decide
  have eb : digitsValue ['5'] * 1024 ^ 3 = 5368709120 := by decide
  have ec : digitsValue ['7'] * 1024 ^ 1 = 7168 := by decide
  rw [ea] at a
  rw [eb] at b
  rw [ec] at c
  exact ⟨a, b, c⟩

/-- C27 (as amended): `size.Parse` returns an error exactly when, after
trimming, the input does not begin with a digit or `.`, or its leading run of
digits and `.` is no decimal number (at most one `.`, at least one digit), or
that number is too large for a `float64` (at least `2^1024 - 2^970`, where
`strconv.ParseFloat` reports a range error), or the rest, trimmed and in upper
case, is none of B, KB, MB, GB, TB.  The empty string, a negative number and a
bare number without unit are rejected. -/
theorem parse_error_exactly (indefinite : Int) (s : String) :
    ((∃ err, size.Parse indefinite s = Except.error err) ↔ size.parseRejects s) ∧
    (∃ err, size.Parse indefinite "" = Except.error err) ∧
    (∃ err, size.Parse indefinite "-5MB" = Except.error err) ∧
    (∃ err, size.Parse indefinite "1024" = Except.error err) := by
  refine ⟨parse_error_iff indefinite s, ?_, ?_, ?_⟩
  · exact ⟨_, rfl⟩
  · exact ⟨_, rfl⟩
  · exact (parse_error_iff indefinite "1024").mpr (Or.inr (Or.inr (Or.inr (by decide))))

/-- C27, counterexample to the statement without the range of `float64`: the
text `1` followed by 309 zeros and `B` begins with a digit, its run of digits
is a decimal number (`10^309`) and its unit is `B`, and `Parse` returns an
error all the same. -/
theorem parse_out_of_range :
    (∃ err, size.Parse 0 hugeSize = Except.error err) ∧ ¬ size.parseRejectsClaimed hugeSize ∧
    strconv.decimalValue ((strings.TrimSpace hugeSize).data.takeWhile size.isNumeric) =
      10 ^ 309 := by
  obtain ⟨hh, hrun, hunit, hvalid, hval⟩ := hugeSize_parts
  refine ⟨?_, ?_, by rw [hrun, hval]⟩
  · apply (parse_error_iff 0 hugeSize).mpr
    right; right; left
    rw [hrun, hval]
    norm_num
  · unfold size.parseRejectsClaimed
    rw [hrun, hunit, hh]
    rintro (h | h | h)
    · exact h '1' rfl (Or.inl (by decide))
    · exact h hvalid
    · exact h (by decide)

/-- C30: `size.Format` is total on `int64` and `formatBytes` on `uint64`: each
returns a string (no index out of range).  For a value of at least 1024 the
unit loop ends with an exponent `exp ≤ 5`, for which `"KMGTPE"[exp]` exists, and
with `div = 1024^(exp+1)`, below `2^63`, so that no multiplication of the
`int64` `div` overflows; a value below 1024, a negative one included, is
rendered as the number followed by " B". -/
theorem format_total (bytes : Int) (ubytes : Nat)
    (hlo : -2 ^ 63 ≤ bytes) (hhi : bytes < 2 ^ 63) (hu : ubytes < 2 ^ 64) :
    ((∃ s, size.Format bytes = some s) ∧
      (bytes < 1024 → size.Format bytes = some (toString bytes ++ " B")) ∧
      (1024 ≤ bytes → ∃ e : Nat, e ≤ 5 ∧
        size.unitLoop (bytes / 1024) 1024 0 = ((1024 : Int) ^ (e + 1), e) ∧
        (1024 : Int) ^ (e + 1) < 2 ^ 63 ∧ ∃ c, "KMGTPE".data.get? e = some c)) ∧
    ((∃ s, formatBytes ubytes = some s) ∧
      (ubytes < 1024 → formatBytes ubytes = some (toString ubytes ++ " B")) ∧
      (1024 ≤ ubytes → ∃ e : Nat, e ≤ 5 ∧
        size.unitLoop ((ubytes / 1024 : Nat) : Int) 1024 0 = ((1024 : Int) ^ (e + 1), e) ∧
        (1024 : Int) ^ (e + 1) < 2 ^ 63 ∧ ∃ c, "KMGTPE".data.get? e = some c)) := by
  have hloop : 1024 ≤ bytes → ∃ e : Nat, e ≤ 5 ∧
      size.unitLoop (bytes / 1024) 1024 0 = ((1024 : Int) ^ (e + 1), e) ∧
      (1024 : Int) ^ (e + 1) < 2 ^ 63 ∧ ∃ c, "KMGTPE".data.get? e = some c := by
    intro _
    obtain ⟨e, he, hl, hd⟩ := unitLoop_cases (bytes / 1024) (by omega)
    exact ⟨e, he, hl, hd, unit_letter e he⟩
  have huloop : 1024 ≤ ubytes → ∃ e : Nat, e ≤ 5 ∧
      size.unitLoop ((ubytes / 1024 : Nat) : Int) 1024 0 = ((1024 : Int) ^ (e + 1), e) ∧
      (1024 : Int) ^ (e + 1) < 2 ^ 63 ∧ ∃ c, "KMGTPE".data.get? e = some c := by
    intro _
    obtain ⟨e, he, hl, hd⟩ := unitLoop_cases ((ubytes / 1024 : Nat) : Int) (by omega)
    exact ⟨e, he, hl, hd, unit_letter e he⟩
  refine ⟨⟨?_, ?_, hloop⟩, ⟨?_, ?_, huloop⟩⟩
  · apply Option.isSome_iff_exists.mp
    by_cases hb : bytes < 1024
    · simp [size.Format, hb]
    · obtain ⟨e, _, hl, _, c, hc⟩ := hloop (by omega)
      simp only [size.Format, if_neg hb, hl, hc, Option.isSome_some]
  · intro hb
    simp [size.Format, hb]
  · apply Option.isSome_iff_exists.mp
    by_cases hb : ubytes < 1024
    · simp [formatBytes, hb]
    · obtain ⟨e, _, hl, _, c, hc⟩ := huloop (by omega)
      simp only [formatBytes, if_neg hb, hl, hc, Option.isSome_some]
  · intro hb
    simp [formatBytes, hb]

/-- C30, witness: the largest `int64` takes five rounds of the loop
(`div = 1024^6`, letter `E`); -5 is rendered "-5 B", 1536 is rendered
"1.5 KB"; the largest `uint64` is rendered too. -/
theorem format_total_witness :
    (∃ s, size.Format (2 ^ 63 - 1) = some s) ∧
    size.unitLoop ((2 ^ 63 - 1) / 1024) 1024 0 = (1024 ^ 6, 5) ∧
    size.Format (-5) = some "-5 B" ∧
    size.Format 1536 = some "1.5 KB" ∧
    (∃ s, formatBytes (2 ^ 64 - 1) = some s) := by
  have h := format_total (2 ^ 63 - 1) (2 ^ 64 - 1) (by norm_num) (by norm_num) (by norm_num)
  have h5 := (format_total (-5) 0 (by norm_num) (by norm_num) (by norm_num)).1.2.1
    (by norm_num)
  refine ⟨h.1.1, max_int64_loop, h5, format_1536, h.2.1⟩

/-- C28, the extent of the round trip: for every private image with a
non-empty key (no `?` in UUID and extension), the `key` parameter of the link
`ListImages` builds, read with the standard query decoding, is the base64 text
of the key with every `+` turned into a blank; it decodes to exactly
`PrivateKey` if and only if the base64 text of the key holds no `+`. -/
theorem private_link_key_check (image : Image) (hp : image.IsPrivate = true)
    (hk : image.PrivateKey ≠ "") (hu : '?' ∉ image.UUID.data) (he : '?' ∉ image.Extension.data) :
    (getRequest (imageURL image)).QueryGet "key" =
      String.mk ((base64.encode (bytesOf image.PrivateKey)).map plusToBlank) ∧
    (base64.DecodeString ((getRequest (imageURL image)).QueryGet "key") =
        some (bytesOf image.PrivateKey) ↔
      '+' ∉ base64.encode (bytesOf image.PrivateKey)) := by
  have hq := rawQuery_imageURL image hp hk hu he
  simp only [getRequest, Request.QueryGet, hq]
  exact ⟨query_key _ (bytesOf_lt _), decode_query_key _ (bytesOf_lt _)⟩

/-- C28, witness: the key "secret" is written `c2VjcmV0`; its link passes the
key check and `ServeImage` serves the file. -/
theorem private_link_key_check_witness :
    imageURL plainImage = "/Zx81kQ.png?key=c2VjcmV0" ∧
    base64.DecodeString ((getRequest (imageURL plainImage)).QueryGet "key") =
      some (bytesOf plainImage.PrivateKey) ∧
    Handler.ServeImage (oneImage plainImage) notFoundHandler fileHandler
      (getRequest (imageURL plainImage)) {} =
        fileHandler plainImage "png" (getRequest (imageURL plainImage)) {} :=
  ⟨by decide,
    (private_link_key_check plainImage rfl (by decide) (by decide) (by decide)).2.mpr
      (by decide),
    by rfl⟩

/-- C28, the code at the failing input: a private image with the key "ab~".
`ListImages` builds the link `/Zx81kQ.png?key=YWJ+`; the query decoding of the
request turns the `+` into a blank, `YWJ ` is no base64 text, and `ServeImage`
answers the listed link with the page 404, although `YWJ+` itself decodes to
the key. -/
theorem private_link_plus :
    tildeImage.IsPrivate = true ∧ tildeImage.PrivateKey = "ab~" ∧
    imageURL tildeImage = "/Zx81kQ.png?key=YWJ+" ∧
    getRequest (imageURL tildeImage) =
      { Method := "GET", Path := "/Zx81kQ.png", RawQuery := "key=YWJ+" } ∧
    (getRequest (imageURL tildeImage)).QueryGet "key" = "YWJ " ∧
    base64.DecodeString "YWJ " = none ∧
    base64.DecodeString "YWJ+" = some (bytesOf "ab~") ∧
    Handler.ServeImage (oneImage tildeImage) notFoundHandler fileHandler
      (getRequest (imageURL tildeImage)) {} =
        notFoundHandler (getRequest (imageURL tildeImage)) {} ∧
    (Handler.ServeImage (oneImage tildeImage) notFoundHandler fileHandler
      (getRequest (imageURL tildeImage)) {}).resp.status = some 404 :=
  ⟨rfl, rfl, by decide, by decide, by decide, by decide, by decide, by rfl, by decide⟩

/-- C29, the code at the failing input: the configured upload key `'abc'`,
written in single quotes.  `Login` succeeds and sets the cookie `upload_key`
to the key as configured, quotes included; `Upload` expects the key stripped
of quotes, `abc`; the upload of the logged-in client, with the cookie
returned as received and no form key, is answered 401 "Invalid upload key".
With the key `abc` the same upload is handed on. -/
theorem upload_key_cookie_rejected :
    (Handler.Login demoJwt demoDecode quotedKeyConfig loginRequest aliceWorld).resp.status =
      some 200 ∧
    (returnedCookies
      (Handler.Login demoJwt demoDecode quotedKeyConfig loginRequest aliceWorld).resp).lookup
        "upload_key" = some "'abc'" ∧
    strings.TrimSpace (strings.Trim quotedKeyConfig.App.UploadKey "\"'") = "abc" ∧
    (Handler.Upload quotedKeyConfig okHandler
      (uploadWithCookies
        (Handler.Login demoJwt demoDecode quotedKeyConfig loginRequest aliceWorld).resp)
      {}).resp.status = some 401 ∧
    (Handler.Upload quotedKeyConfig okHandler
      (uploadWithCookies
        (Handler.Login demoJwt demoDecode quotedKeyConfig loginRequest aliceWorld).resp)
      {}).resp.body = [Chunk.text "Invalid upload key\n"] ∧
    (Handler.Upload plainKeyConfig okHandler
      (uploadWithCookies
        (Handler.Login demoJwt demoDecode plainKeyConfig loginRequest aliceWorld).resp)
      {}).resp.body = [Chunk.text "ok"] :=
  ⟨by decide, by decide, by decide, by decide, by decide, by decide⟩

end Sharex
